import Mathlib

set_option linter.unusedSectionVars false

/-!
# Verification of the QtQuickVcp service discovery engine

Shallow embedding of `src/service/servicediscovery.cpp` (class
`qtquickvcp::ServiceDiscovery`).  The engine state is a record holding the
lifecycle flags, the three query-registry maps (`m_queryIdTypeMap`,
`m_queryIdServiceMap`, `m_queryIdItemMap`), the per-service-type instance
table (`m_serviceItemsMap`), the declared query types (`m_serviceTypeMap`),
the user queries and the engine-wide filter.  `QMap` is embedded as an
association list with in-place replacement; `ServiceDiscoveryItem` objects
(heap-allocated, shared by pointer between the instance table, the registry
and the user-query lists) are embedded as an append-only store indexed by
an allocation counter, which is faithful to Qt's `deleteLater` semantics at
event-loop granularity.  Each Qt slot / callback runs to completion on the
single-threaded event loop, so the transition system `step` treats every
handler as one atomic step.
-/

namespace SD

/-! ## Association lists (embedding of QMap) -/

/-- Association list standing in for `QMap`.  Keys stay unique because all
updates go through `mset`/`mdel`.  `QMap` iterates in key order; every
iteration performed by the engine is order-independent (each loop body
only touches the entry it is visiting), so list order is irrelevant. -/
abbrev Assoc (κ α : Type) := List (κ × α)

/-- `QMap::value` returning `Option` instead of a default-constructed value. -/
def mget {κ α : Type} [DecidableEq κ] : Assoc κ α → κ → Option α
  | [], _ => none
  | (k2, v) :: rest, k => if k = k2 then some v else mget rest k

/-- `QMap::insert`: replace in place, append if the key is absent. -/
def mset {κ α : Type} [DecidableEq κ] : Assoc κ α → κ → α → Assoc κ α
  | [], k, v => [(k, v)]
  | (k2, v2) :: rest, k, v =>
      if k = k2 then (k, v) :: rest else (k2, v2) :: mset rest k v

/-- `QMap::remove`. -/
def mdel {κ α : Type} [DecidableEq κ] : Assoc κ α → κ → Assoc κ α
  | [], _ => []
  | (k2, v) :: rest, k => if k2 = k then mdel rest k else (k2, v) :: mdel rest k

/-- The keys hold no duplicates (maintained by construction through
`mset`/`mdel`; part of the reachable-state invariant). -/
def NodupKeys {κ α : Type} (m : Assoc κ α) : Prop := (m.map Prod.fst).Nodup

section AssocLemmas

variable {κ α : Type} [DecidableEq κ]

theorem mget_mset_self (m : Assoc κ α) (k : κ) (v : α) :
    mget (mset m k v) k = some v := by
  induction m with
  | nil => simp [mget, mset]
  | cons p rest ih =>
    obtain ⟨k2, v2⟩ := p
    by_cases h : k = k2
    · simp [mset, h, mget]
    · simp [mset, h, mget, ih]

theorem mget_mset_ne (m : Assoc κ α) {k k2 : κ} (v : α) (h : k2 ≠ k) :
    mget (mset m k v) k2 = mget m k2 := by
  induction m with
  | nil => simp [mget, mset, h]
  | cons p rest ih =>
    obtain ⟨k3, v3⟩ := p
    by_cases hk : k = k3
    · subst hk
      simp [mset, mget, h]
    · by_cases hk2 : k2 = k3
      · simp [mset, hk, mget, hk2]
      · simp [mset, hk, mget, hk2, ih]

theorem mget_mdel_self (m : Assoc κ α) (k : κ) : mget (mdel m k) k = none := by
  induction m with
  | nil => simp [mdel, mget]
  | cons p rest ih =>
    obtain ⟨k2, v2⟩ := p
    by_cases h : k2 = k
    · simp [mdel, h, ih]
    · have h2 : k ≠ k2 := fun hh => h hh.symm
      simp [mdel, h, mget, h2, ih]

theorem mget_mdel_ne (m : Assoc κ α) {k k2 : κ} (h : k2 ≠ k) :
    mget (mdel m k) k2 = mget m k2 := by
  induction m with
  | nil => simp [mdel]
  | cons p rest ih =>
    obtain ⟨k3, v3⟩ := p
    by_cases hk : k3 = k
    · have h2 : k2 ≠ k3 := by rw [hk]; exact h
      simp [mdel, hk, mget, h2, ih, h]
    · by_cases h2 : k2 = k3
      · simp [mdel, hk, mget, h2]
      · simp [mdel, hk, mget, h2, ih]

theorem mem_of_mget {m : Assoc κ α} {k : κ} {v : α} (h : mget m k = some v) :
    (k, v) ∈ m := by
  induction m with
  | nil => simp [mget] at h
  | cons p rest ih =>
    obtain ⟨k2, v2⟩ := p
    by_cases hk : k = k2
    · rw [mget, if_pos hk] at h
      injection h with h
      subst hk; subst h
      exact List.mem_cons_self _ _
    · rw [mget, if_neg hk] at h
      exact List.mem_cons_of_mem _ (ih h)

theorem mget_isSome_of_mem {m : Assoc κ α} {p : κ × α} (h : p ∈ m) :
    (mget m p.1).isSome := by
  induction m with
  | nil => simp at h
  | cons q rest ih =>
    obtain ⟨k2, v2⟩ := q
    rcases List.mem_cons.mp h with h | h
    · subst h; simp [mget]
    · by_cases hk : p.1 = k2
      · simp [mget, hk]
      · rw [mget, if_neg hk]
        exact ih h

theorem mget_of_mem_nodup {m : Assoc κ α} {p : κ × α} (hm : NodupKeys m)
    (h : p ∈ m) : mget m p.1 = some p.2 := by
  induction m with
  | nil => simp at h
  | cons q rest ih =>
    obtain ⟨k2, v2⟩ := q
    simp only [NodupKeys, List.map_cons, List.nodup_cons] at hm
    rcases List.mem_cons.mp h with h | h
    · subst h; simp [mget]
    · have hk : p.1 ≠ k2 := by
        intro he
        exact hm.1 (he ▸ List.mem_map_of_mem Prod.fst h)
      rw [mget, if_neg hk]
      exact ih hm.2 h

theorem mem_mset {m : Assoc κ α} {k : κ} {v : α} {p : κ × α}
    (h : p ∈ mset m k v) : p = (k, v) ∨ p ∈ m := by
  induction m with
  | nil => simpa [mset] using h
  | cons q rest ih =>
    obtain ⟨k2, v2⟩ := q
    by_cases hk : k = k2
    · rw [mset, if_pos hk] at h
      rcases List.mem_cons.mp h with h | h
      · exact Or.inl h
      · exact Or.inr (List.mem_cons_of_mem _ h)
    · rw [mset, if_neg hk] at h
      rcases List.mem_cons.mp h with h | h
      · exact Or.inr (h ▸ List.mem_cons_self _ _)
      · rcases ih h with h2 | h2
        · exact Or.inl h2
        · exact Or.inr (List.mem_cons_of_mem _ h2)

theorem mem_mdel {m : Assoc κ α} {k : κ} {p : κ × α} (h : p ∈ mdel m k) :
    p ∈ m ∧ p.1 ≠ k := by
  induction m with
  | nil => simp [mdel] at h
  | cons q rest ih =>
    obtain ⟨k2, v2⟩ := q
    by_cases hk : k2 = k
    · rw [mdel, if_pos hk] at h
      exact ⟨List.mem_cons_of_mem _ (ih h).1, (ih h).2⟩
    · rw [mdel, if_neg hk] at h
      rcases List.mem_cons.mp h with h | h
      · subst h
        exact ⟨List.mem_cons_self _ _, hk⟩
      · exact ⟨List.mem_cons_of_mem _ (ih h).1, (ih h).2⟩

theorem mdel_sublist (m : Assoc κ α) (k : κ) : (mdel m k).Sublist m := by
  induction m with
  | nil => simp [mdel]
  | cons q rest ih =>
    obtain ⟨k2, v2⟩ := q
    by_cases hk : k2 = k
    · rw [mdel, if_pos hk]
      exact ih.cons _
    · rw [mdel, if_neg hk]
      exact ih.cons₂ _

theorem nodup_mset {m : Assoc κ α} (hm : NodupKeys m) (k : κ) (v : α) :
    NodupKeys (mset m k v) := by
  induction m with
  | nil => simp [mset, NodupKeys]
  | cons q rest ih =>
    obtain ⟨k2, v2⟩ := q
    simp only [NodupKeys, List.map_cons, List.nodup_cons] at hm
    by_cases hk : k = k2
    · subst hk
      rw [mset, if_pos rfl]
      simp only [NodupKeys, List.map_cons, List.nodup_cons]
      exact ⟨hm.1, hm.2⟩
    · rw [mset, if_neg hk]
      simp only [NodupKeys, List.map_cons, List.nodup_cons]
      constructor
      · intro hmem
        rcases List.mem_map.mp hmem with ⟨p, hp, he⟩
        rcases mem_mset hp with h2 | h2
        · exact hk (by rw [← he, h2])
        · exact hm.1 (he ▸ List.mem_map_of_mem Prod.fst h2)
      · exact (ih hm.2)

theorem nodup_sublist {m m2 : Assoc κ α} (hs : m2.Sublist m) (hm : NodupKeys m) :
    NodupKeys m2 :=
  List.Nodup.sublist (List.Sublist.map Prod.fst hs) hm

theorem nodup_filter {m : Assoc κ α} (f : κ × α → Bool) (hm : NodupKeys m) :
    NodupKeys (m.filter f) :=
  nodup_sublist (List.filter_sublist m) hm

theorem nodup_mdel {m : Assoc κ α} (hm : NodupKeys m) (k : κ) :
    NodupKeys (mdel m k) :=
  nodup_sublist (mdel_sublist m k) hm

theorem mget_eq_none_iff {m : Assoc κ α} {k : κ} :
    mget m k = none ↔ ∀ p ∈ m, p.1 ≠ k := by
  induction m with
  | nil => simp [mget]
  | cons q rest ih =>
    obtain ⟨k2, v2⟩ := q
    by_cases hk : k = k2
    · subst hk
      constructor
      · intro h
        rw [mget, if_pos rfl] at h
        exact absurd h (by simp)
      · intro h
        exact absurd rfl (h (k, v2) (List.mem_cons_self _ _))
    · rw [mget, if_neg hk, ih]
      constructor
      · intro h p hp
        rcases List.mem_cons.mp hp with hp | hp
        · subst hp; exact fun he => hk he.symm
        · exact h p hp
      · intro h p hp
        exact h p (List.mem_cons_of_mem _ hp)

theorem eq_nil_of_forall_not_mem {m : Assoc κ α} (h : ∀ p ∈ m, False) :
    m = [] := by
  cases m with
  | nil => rfl
  | cons p rest => exact absurd (List.mem_cons_self p rest) (fun hm => h p hm)

theorem mem_eraseP_of_ne {α2 : Type} {l : List α2} {p : α2 → Bool} {a b : α2}
    (hb : b ∈ l) (hf : l.find? p = some a) (hne : b ≠ a) : b ∈ l.eraseP p := by
  induction l with
  | nil => simp at hb
  | cons c rest ih =>
    by_cases hc : p c
    · rw [List.find?_cons_of_pos _ hc] at hf
      injection hf with hf
      subst hf
      rw [List.eraseP_cons_of_pos hc]
      rcases List.mem_cons.mp hb with hb | hb
      · exact absurd hb hne
      · exact hb
    · rw [List.find?_cons_of_neg _ (by simpa using hc)] at hf
      rw [List.eraseP_cons_of_neg (by simpa using hc)]
      rcases List.mem_cons.mp hb with hb | hb
      · exact hb ▸ List.mem_cons_self _ _
      · exact List.mem_cons_of_mem _ (ih hb hf)

theorem mem_filter_of_mem {m : Assoc κ α} {p : κ × α} {f : κ × α → Bool}
    (h : p ∈ m) (hf : f p = true) : p ∈ m.filter f :=
  List.mem_filter.mpr ⟨h, hf⟩

theorem mem_of_mem_filter2 {m : Assoc κ α} {p : κ × α} {f : κ × α → Bool}
    (h : p ∈ m.filter f) : p ∈ m ∧ f p = true :=
  List.mem_filter.mp h

end AssocLemmas

/-! ## Wildcard matching (`QRegExp` with `QRegExp::WildcardUnix`)

`filterServiceDiscoveryItem` builds `QRegExp(pattern, Qt::CaseSensitive,
QRegExp::WildcardUnix)` and tests it with `QString::contains` resp.
`QStringList::filter`, both of which succeed when the wildcard-derived
regular expression matches *some substring* of the subject.  The wildcard
syntax: `?` matches any single character, `*` any sequence, `[...]` a
character set (ranges allowed, `^` first negates, a leading `]` is
literal), `\c` escapes `c`; an unterminated `[` yields an invalid regular
expression which matches nothing. -/

/-- Tokens of a compiled wildcard pattern.  A class token keeps the raw
body (a leading `^` negates).  The embedding lets a leading `]` terminate
the class (Qt treats it as literal there); no pattern in the repository or
in the claims uses that corner. -/
inductive GlobTok
  | lit (c : Char)
  | anyOne
  | anyMany
  | cls (body : List Char)
  | invalid
  deriving DecidableEq, Repr

/-- Split a character-class body at the closing `]`. -/
def splitClass : List Char → Option (List Char × List Char)
  | [] => none
  | c :: rest =>
      if c = ']' then some ([], rest)
      else (splitClass rest).map (fun p => (c :: p.1, p.2))

theorem splitClass_length : ∀ {cs body rest : List Char},
    splitClass cs = some (body, rest) → rest.length < cs.length := by
  intro cs
  induction cs with
  | nil => intro body rest h; exact Option.noConfusion h
  | cons c cs2 ih =>
    intro body rest h
    rw [splitClass] at h
    by_cases hc : c = ']'
    · rw [if_pos hc] at h
      injection h with h
      injection h with h1 h2
      subst h2
      exact Nat.lt_succ_self _
    · rw [if_neg hc] at h
      cases hsp : splitClass cs2 with
      | none => rw [hsp] at h; exact Option.noConfusion h
      | some p =>
        obtain ⟨b2, r2⟩ := p
        rw [hsp] at h
        simp only [Option.map_some'] at h
        injection h with h
        injection h with h1 h2
        subst h2
        exact Nat.lt_trans (ih hsp) (Nat.lt_succ_self _)

/-- Compile a wildcard pattern into tokens (Qt's `wc2rx`); an unterminated
class yields an invalid expression, which matches nothing.  The explicit
fuel counter (always sufficient at `length + 1`, each step consumes at
least one character) keeps the recursion structural, so matching is
computable by plain reduction. -/
def lexGlobF : Nat → List Char → List GlobTok
  | 0, _ => [.invalid]
  | _ + 1, [] => []
  | fuel + 1, '\\' :: c :: rest => .lit c :: lexGlobF fuel rest
  | fuel + 1, '?' :: rest => .anyOne :: lexGlobF fuel rest
  | fuel + 1, '*' :: rest => .anyMany :: lexGlobF fuel rest
  | fuel + 1, '[' :: rest =>
      match splitClass rest with
      | some (body, rest2) => .cls body :: lexGlobF fuel rest2
      | none => [.invalid]
  | fuel + 1, c :: rest => .lit c :: lexGlobF fuel rest

def lexGlob (cs : List Char) : List GlobTok := lexGlobF (cs.length + 1) cs

/-- Membership in a character-class body (ranges allowed). -/
def matchClass : List Char → Char → Bool
  | [], _ => false
  | a :: '-' :: b :: rest, c => (a ≤ c && c ≤ b) || matchClass rest c
  | a :: rest, c => (a = c) || matchClass rest c

/-- Class with optional leading `^` negation. -/
def matchClassTop (body : List Char) (c : Char) : Bool :=
  match body with
  | '^' :: b => !matchClass b c
  | _ => matchClass body c

/-- Token-list matching of a whole character list; the fuel counter
(always sufficient at `ps.length + s.length + 1`, every call shrinks the
sum) keeps the recursion structural. -/
def tokMatchF : Nat → List GlobTok → List Char → Bool
  | 0, _, _ => false
  | _ + 1, [], [] => true
  | _ + 1, [], _ :: _ => false
  | fuel + 1, .anyMany :: ps, [] => tokMatchF fuel ps []
  | fuel + 1, .anyMany :: ps, a :: ss =>
      tokMatchF fuel ps (a :: ss) || tokMatchF fuel (.anyMany :: ps) ss
  | _ + 1, .lit _ :: _, [] => false
  | fuel + 1, .lit c :: ps, a :: ss => (a = c) && tokMatchF fuel ps ss
  | _ + 1, .anyOne :: _, [] => false
  | fuel + 1, .anyOne :: ps, _ :: ss => tokMatchF fuel ps ss
  | _ + 1, .cls _ :: _, [] => false
  | fuel + 1, .cls body :: ps, a :: ss =>
      (matchClassTop body a) && tokMatchF fuel ps ss
  | _ + 1, .invalid :: _, _ => false

def tokMatch (ps : List GlobTok) (s : List Char) : Bool :=
  tokMatchF (ps.length + s.length + 1) ps s

/-- Full-string wildcard match (`QRegExp::exactMatch`); this is the plain
reading of the spec's "the name matches the glob". -/
def globMatch (pat s : String) : Bool := tokMatch (lexGlob pat.data) s.data

/-- `QString::contains(QRegExp(pat, Qt::CaseSensitive, QRegExp::WildcardUnix))`:
the wildcard-derived regular expression matches some substring. -/
def globContains (pat s : String) : Bool :=
  s.data.tails.any (fun t => t.inits.any (fun pre => tokMatch (lexGlob pat.data) pre))

/-! ## Data model -/

/-- DNS record types (`QJDns::Type`).  `Unknown` stands for the zero value
that `QMap<int, QJDns::Type>::value` returns for a missing key; it is none
of the record types the engine dispatches on. -/
inductive RecType
  | Ptr | Txt | Srv | A | Aaaa | Unknown
  deriving DecidableEq, Repr

/-- Modelled from the spec: §3 "Instance (C1)".  The `ServiceDiscoveryItem`
class is not among the analysed sources; its fields and trivial accessors
(`addOutstandingRequest`, `removeOutstandingRequest`,
`hasOutstandingRequests`, `increaseErrorCount`, `resetErrorCount`,
`setUpdated`, and the field setters) follow the spec's data model:
*outstandingRequests* is the set of in-flight backend query IDs, *updated*
the per-refresh-cycle flag, *errorCount* the consecutive-miss counter. -/
structure ItemData where
  name : String
  type : String
  txtRecords : List String
  hostName : String
  port : Nat
  hostAddress : String
  outstanding : List Nat
  updated : Bool
  errorCount : Nat
  deriving DecidableEq, Repr

/-- A freshly constructed `ServiceDiscoveryItem`. -/
def ItemData.init : ItemData :=
  { name := "", type := "", txtRecords := [], hostName := "", port := 0,
    hostAddress := "", outstanding := [], updated := false, errorCount := 0 }

instance : Inhabited ItemData := ⟨ItemData.init⟩

/-- Modelled from the spec: §3 "Filter (C2)" (`ServiceDiscoveryFilter` is
not among the analysed sources): a name glob plus a list of TXT globs. -/
structure Filter where
  name : String
  txtRecords : List String
  deriving DecidableEq, Repr

/-- Modelled from the spec: §3 "UserQuery (C3)" (`ServiceDiscoveryQuery`
is not among the analysed sources): service type, declared record type,
secondary filter, and the engine-maintained resolved list, held here as
item ids into the engine's item store. -/
structure UserQuery where
  serviceType : String
  queryType : RecType
  filter : Filter
  items : List Nat
  deriving DecidableEq, Repr

/-- `ServiceDiscovery::LookupMode`. -/
inductive LookupMode
  | MulticastDNS | UnicastDNS
  deriving DecidableEq, Repr

/-- A DNS answer record (`QJDns::Record`): only the fields the engine
reads.  `address` is already the textual form (`r.address.toString()`). -/
structure Record where
  name : String
  ttl : Nat
  texts : List String
  port : Nat
  address : String
  deriving DecidableEq, Repr

/-- The state of one `ServiceDiscovery` object.  `jdnsActive` embeds
`m_jdns != nullptr`; `items` is the append-only store of heap-allocated
`ServiceDiscoveryItem` objects (ids play the role of pointers — Qt's
`deleteLater` defers destruction past the running slot, so dropping every
reference models deletion); `cancelLog` records every id passed to
`QJDns::queryCancel`; `nextQueryId`/`nextItemId` model allocation. -/
structure SDState where
  running : Bool
  networkReady : Bool
  lookupReady : Bool
  jdnsActive : Bool
  lookupMode : LookupMode
  unicastErrorThreshold : Nat
  timerActive : Bool
  filter : Filter
  userQueries : List UserQuery
  serviceItemsMap : Assoc String (List Nat)
  serviceTypeMap : Assoc String RecType
  queryIdTypeMap : Assoc Nat RecType
  queryIdServiceMap : Assoc Nat String
  queryIdItemMap : Assoc Nat Nat
  items : Assoc Nat ItemData
  nextQueryId : Nat
  nextItemId : Nat
  cancelLog : List Nat
  deriving DecidableEq, Repr

/-- Initial state of a fresh `ServiceDiscovery` object (constructor,
lines 226–253): not running, nothing ready, multicast mode, error
threshold 2. -/
def initState : SDState :=
  { running := false, networkReady := false, lookupReady := false,
    jdnsActive := false, lookupMode := .MulticastDNS,
    unicastErrorThreshold := 2, timerActive := false,
    filter := { name := "", txtRecords := [] }, userQueries := [],
    serviceItemsMap := [], serviceTypeMap := [], queryIdTypeMap := [],
    queryIdServiceMap := [], queryIdItemMap := [], items := [],
    nextQueryId := 0, nextItemId := 0, cancelLog := [] }

/-- Read an item from the store (dereference of a `ServiceDiscoveryItem*`;
every id the engine dereferences is live on reachable states). -/
def getItemD (st : SDState) (iid : Nat) : ItemData :=
  (mget st.items iid).getD ItemData.init

/-- Write an item back to the store (mutation through the pointer). -/
def setItemD (st : SDState) (iid : Nat) (it : ItemData) : SDState :=
  { st with items := mset st.items iid it }

/-! ## Filtering (lines 876–913) -/

/-- `ServiceDiscovery::filterServiceDiscoveryItem` (lines 876–897):
name check via `QString::contains` of the wildcard expression, then the
TXT patterns applied left-to-right as successive `QStringList::filter`
passes; fails if the surviving list is empty. -/
def filterServiceDiscoveryItem (item : ItemData) (f : Filter) : Bool :=
  if !(f.name = "" || globContains f.name item.name) then
    false
  else if !f.txtRecords.isEmpty then
    let txtRecords := f.txtRecords.foldl
      (fun acc pat => acc.filter (fun s => globContains pat s)) item.txtRecords
    if txtRecords.isEmpty then false else true
  else true

/-- `ServiceDiscovery::filterServiceDiscoveryItems` (lines 899–913): keep
the items passing both the primary and the secondary filter. -/
def filterServiceDiscoveryItems (st : SDState) (iids : List Nat)
    (primary secondary : Filter) : List Nat :=
  iids.filter (fun iid =>
    filterServiceDiscoveryItem (getItemD st iid) primary &&
    filterServiceDiscoveryItem (getItemD st iid) secondary)

/-- The filter predicate as §4.6 of the spec words it: the *whole* name
matches the glob, and the TXT patterns are applied as successive
whole-string glob filters.  Kept separate from
`filterServiceDiscoveryItem` (which the source defines via substring
containment) to compare code against spec. -/
def specMatches (item : ItemData) (f : Filter) : Bool :=
  (f.name = "" || globMatch f.name item.name) &&
  (f.txtRecords.isEmpty ||
    !(f.txtRecords.foldl
        (fun acc pat => acc.filter (fun s => globMatch pat s))
        item.txtRecords).isEmpty)

/-! ## Projection to user queries and instance-table operations

Every `QMapIterator` loop below visits a snapshot of the keys and each
iteration only touches the data of the key it visits, so the fold order is
immaterial; the C++ loops that run backwards over a `QList` by index
(`clearItems`, `purgeItems`) likewise act element-wise and keep the order
of the surviving entries, so they are written as forward recursion. -/

/-- `ServiceDiscovery::updateServiceType` (lines 815–855): push the
instance list of `serviceType`, filtered unless the query's record type
is `A`, to every user query declared for that type. -/
def updateServiceType (st : SDState) (serviceType : String) : SDState :=
  match mget st.serviceItemsMap serviceType with
  | none => st
  | some iids =>
    { st with userQueries := st.userQueries.map (fun q =>
        if q.serviceType = serviceType then
          if q.queryType = RecType.A then
            { q with items := iids }
          else
            { q with items := filterServiceDiscoveryItems st iids st.filter q.filter }
        else q) }

/-- `ServiceDiscovery::stopItemQueries` (lines 772–788): cancel every
registry id resolving `iid` and drop it from both registry maps. -/
def stopItemQueries (st : SDState) (iid : Nat) : SDState :=
  let ids := (st.queryIdItemMap.filter (fun p => p.2 == iid)).map Prod.fst
  { st with
    cancelLog := st.cancelLog ++ ids,
    queryIdItemMap := st.queryIdItemMap.filter (fun p => !(p.2 == iid)),
    queryIdTypeMap := st.queryIdTypeMap.filter (fun p => !(ids.contains p.1)) }

/-- `ServiceDiscovery::clearItems` (lines 1001–1025): stop the sub-queries
of every item under `type`, install the empty list, republish. -/
def clearItems (st : SDState) (type : String) : SDState :=
  match mget st.serviceItemsMap type with
  | none => st
  | some iids =>
    let st2 := iids.foldl stopItemQueries st
    let st3 := { st2 with serviceItemsMap := mset st2.serviceItemsMap type [] }
    updateServiceType st3 type

/-- `ServiceDiscovery::addServiceType` (lines 790–801). -/
def addServiceType (st : SDState) (serviceType : String) (queryType : RecType) :
    SDState :=
  if (mget st.serviceItemsMap serviceType).isSome then st
  else { st with
    serviceItemsMap := mset st.serviceItemsMap serviceType [],
    serviceTypeMap := mset st.serviceTypeMap serviceType queryType }

/-- `ServiceDiscovery::removeServiceType` (lines 803–813). -/
def removeServiceType (st : SDState) (serviceType : String) : SDState :=
  if (mget st.serviceItemsMap serviceType).isSome then
    let st2 := clearItems st serviceType
    { st2 with serviceItemsMap := mdel st2.serviceItemsMap serviceType,
               serviceTypeMap := mdel st2.serviceTypeMap serviceType }
  else st

/-- `ServiceDiscovery::removeAllServiceTypes` (lines 857–865). -/
def removeAllServiceTypes (st : SDState) : SDState :=
  (st.serviceItemsMap.map Prod.fst).foldl removeServiceType st

/-- `ServiceDiscovery::updateAllServiceTypes` (lines 867–874). -/
def updateAllServiceTypes (st : SDState) : SDState :=
  (st.serviceItemsMap.map Prod.fst).foldl updateServiceType st

/-- `ServiceDiscovery::addItem` (lines 915–943): `none` embeds the
`nullptr` return for an unknown service type; otherwise the existing item
of that name, or a freshly allocated one appended to the list. -/
def addItem (st : SDState) (name type : String) : Option (Nat × SDState) :=
  match mget st.serviceItemsMap type with
  | none => none
  | some iids =>
    match iids.find? (fun iid => (getItemD st iid).name == name) with
    | some iid => some (iid, st)
    | none =>
      let iid := st.nextItemId
      let it := { ItemData.init with name := name, type := type }
      some (iid, { st with
        items := mset st.items iid it,
        nextItemId := iid + 1,
        serviceItemsMap := mset st.serviceItemsMap type (iids ++ [iid]) })

/-- `ServiceDiscovery::getItem` (lines 945–967). -/
def getItem (st : SDState) (name type : String) : Option Nat :=
  match mget st.serviceItemsMap type with
  | none => none
  | some iids => iids.find? (fun iid => (getItemD st iid).name == name)

/-- `ServiceDiscovery::updateItem` (lines 969–973). -/
def updateItem (st : SDState) (type : String) : SDState :=
  updateServiceType st type

/-- `ServiceDiscovery::removeItem` (lines 975–999): remove the first item
of that name, stopping its sub-queries first. -/
def removeItem (st : SDState) (name type : String) : SDState :=
  match mget st.serviceItemsMap type with
  | none => st
  | some iids =>
    match iids.find? (fun iid => (getItemD st iid).name == name) with
    | none => st
    | some iid =>
      let newList := iids.eraseP (fun i2 => (getItemD st i2).name == name)
      let st2 := stopItemQueries st iid
      let st3 := { st2 with serviceItemsMap := mset st2.serviceItemsMap type newList }
      updateServiceType st3 type

/-- The loop body of `ServiceDiscovery::purgeItems` (lines 1043–1062):
returns the state after the per-item store/registry effects, the list of
surviving items (order kept) and the `modified` flag. -/
def purgeLoop : SDState → List Nat → SDState × List Nat × Bool
  | st, [] => (st, [], false)
  | st, iid :: rest =>
    let it := getItemD st iid
    if it.updated = false then
      let st2 := setItemD st iid { it with errorCount := it.errorCount + 1 }
      if it.errorCount + 1 > st.unicastErrorThreshold then
        let st3 := stopItemQueries st2 iid
        let r := purgeLoop st3 rest
        (r.1, r.2.1, true)
      else
        let r := purgeLoop st2 rest
        (r.1, iid :: r.2.1, r.2.2)
    else
      let st2 := setItemD st iid { it with updated := false }
      let r := purgeLoop st2 rest
      (r.1, iid :: r.2.1, r.2.2)

/-- `ServiceDiscovery::purgeItems` (lines 1028–1069): run the loop; only
when an item was removed is the pruned list installed and the service
type republished. -/
def purgeItems (st : SDState) (serviceType : String) : SDState :=
  match mget st.serviceItemsMap serviceType with
  | none => st
  | some iids =>
    let r := purgeLoop st iids
    if r.2.2 then
      updateServiceType
        { r.1 with serviceItemsMap := mset r.1.serviceItemsMap serviceType r.2.1 }
        serviceType
    else r.1

/-! ## Query lifecycle (lines 659–770) -/

/-- `ServiceDiscovery::startQuery` (lines 677–699): no-op when a query for
the type is already registered, otherwise allocate a backend query id and
register it under the declared query type. -/
def startQuery (st : SDState) (serviceType : String) : SDState :=
  if st.queryIdServiceMap.any (fun p => p.2 == serviceType) then st
  else
    let queryType := (mget st.serviceTypeMap serviceType).getD .Unknown
    let queryId := st.nextQueryId
    { st with
      nextQueryId := queryId + 1,
      queryIdTypeMap := mset st.queryIdTypeMap queryId queryType,
      queryIdServiceMap := mset st.queryIdServiceMap queryId serviceType }

/-- `ServiceDiscovery::stopQuery` (lines 701–731): no-op when no query for
the type is registered; otherwise cancel it, drop the registry entries and
clear the instance table for the type. -/
def stopQuery (st : SDState) (serviceType : String) : SDState :=
  match st.queryIdServiceMap.find? (fun p => p.2 == serviceType) with
  | none => st
  | some p =>
    let st2 := { st with
      cancelLog := st.cancelLog ++ [p.1],
      queryIdTypeMap := mdel st.queryIdTypeMap p.1,
      queryIdServiceMap := mdel st.queryIdServiceMap p.1 }
    clearItems st2 serviceType

/-- `ServiceDiscovery::refreshQuery` (lines 733–770): cancel the running
query, purge outdated items, start a new query. -/
def refreshQuery (st : SDState) (serviceType : String) : SDState :=
  match st.queryIdServiceMap.find? (fun p => p.2 == serviceType) with
  | none => st
  | some p =>
    let queryType := (mget st.serviceTypeMap serviceType).getD .Unknown
    let st2 := { st with
      cancelLog := st.cancelLog ++ [p.1],
      queryIdTypeMap := mdel st.queryIdTypeMap p.1,
      queryIdServiceMap := mdel st.queryIdServiceMap p.1 }
    let st3 := purgeItems st2 serviceType
    let queryId := st3.nextQueryId
    { st3 with
      nextQueryId := queryId + 1,
      queryIdTypeMap := mset st3.queryIdTypeMap queryId queryType,
      queryIdServiceMap := mset st3.queryIdServiceMap queryId serviceType }

/-- `ServiceDiscovery::startQueries` (lines 659–666). -/
def startQueries (st : SDState) : SDState :=
  (st.serviceItemsMap.map Prod.fst).foldl startQuery st

/-- `ServiceDiscovery::stopQueries` (lines 668–675). -/
def stopQueries (st : SDState) : SDState :=
  (st.serviceItemsMap.map Prod.fst).foldl stopQuery st

/-- `ServiceDiscovery::unicastLookup` (lines 416–423). -/
def unicastLookup (st : SDState) : SDState :=
  (st.serviceItemsMap.map Prod.fst).foldl refreshQuery st

/-! ## Facade operations and lifecycle (lines 350–657) -/

/-- `ServiceDiscovery::updateServices` (lines 512–561): walk the declared
user queries adding their service types (and starting queries when live),
then stop and remove every type no longer demanded, then refill all
queries with fresh data. -/
def updateServices (st : SDState) : SDState :=
  let oldKeys := st.serviceItemsMap.map Prod.fst
  let st1 := st.userQueries.foldl
    (fun acc q =>
      if q.serviceType ≠ "" then
        let acc2 := addServiceType acc q.serviceType q.queryType
        if acc2.running && acc2.networkReady then startQuery acc2 q.serviceType
        else acc2
      else acc) st
  let demanded :=
    (st.userQueries.filter (fun q => !(q.serviceType == ""))).map
      (fun q => q.serviceType)
  let leftovers := oldKeys.filter (fun S => !(demanded.contains S))
  let st2 := leftovers.foldl
    (fun acc S =>
      let acc2 := if acc.running && acc.networkReady then stopQuery acc S else acc
      removeServiceType acc2 S) st1
  updateAllServiceTypes st2

/-- `ServiceDiscovery::updateFilter` (lines 563–566). -/
def updateFilter (st : SDState) : SDState := updateAllServiceTypes st

/-- `ServiceDiscovery::setFilter` (lines 649–657). -/
def setFilter (st : SDState) (f : Filter) : SDState :=
  if st.filter = f then st
  else updateAllServiceTypes { st with filter := f }

/-- `ServiceDiscovery::updateNameServers` (lines 568–607): returns early
unless a lookup engine exists and the mode is unicast; the nameserver list
handed to `QJDns::setNameServers` has no effect on the discovery state, so
only the trailing `unicastLookup()` when running is modelled. -/
def updateNameServers (st : SDState) : SDState :=
  if st.jdnsActive = false ∨ st.lookupMode ≠ .UnicastDNS then st
  else if st.running then unicastLookup st
  else st

/-- `ServiceDiscovery::setRunning` (lines 482–510). -/
def setRunning (st : SDState) (arg : Bool) : SDState :=
  if st.running = arg then st
  else
    let st1 := { st with running := arg }
    if st1.networkReady = false then st1
    else if st1.running then
      let st2 := startQueries st1
      if st2.lookupMode = .UnicastDNS then { st2 with timerActive := true } else st2
    else
      let st2 :=
        if st1.lookupMode = .UnicastDNS then { st1 with timerActive := false }
        else st1
      stopQueries st2

/-- `ServiceDiscovery::initializeMdns` (lines 273–348): `initOk` stands
for the result of `QJDns::init`; on success the engine becomes
lookup-ready, pushes nameservers in unicast mode, and when running starts
all queries (and the unicast refresh timer). -/
def initializeMdns (st : SDState) (initOk : Bool) : SDState × Bool :=
  if st.jdnsActive then (st, true)
  else if initOk = false then (st, false)
  else
    let st1 := { st with jdnsActive := true, lookupReady := true }
    let st2 := if st1.lookupMode = .UnicastDNS then updateNameServers st1 else st1
    let st3 :=
      if st2.running then
        let stA := updateServices st2
        if stA.lookupMode = .UnicastDNS then { stA with timerActive := true }
        else stA
      else st2
    (st3, true)

/-- `ServiceDiscovery::deinitializeMdns` (lines 350–384): when running,
stop the unicast timer, remove all service types and clear the three
registry maps; in every case drop the engine and reset `lookupReady`. -/
def deinitializeMdns (st : SDState) : SDState :=
  if st.jdnsActive = false then st
  else
    let st1 :=
      if st.running then
        let stA :=
          if st.lookupMode = .UnicastDNS then { st with timerActive := false }
          else st
        let stB := removeAllServiceTypes stA
        { stB with queryIdItemMap := [], queryIdServiceMap := [],
                   queryIdTypeMap := [] }
      else st
    { st1 with jdnsActive := false, lookupReady := false }

/-- `ServiceDiscovery::networkSessionOpened` (lines 386–397). -/
def networkSessionOpened (st : SDState) (initOk : Bool) : SDState :=
  let st1 := { st with networkReady := true }
  let r := initializeMdns st1 initOk
  if r.2 then r.1 else { r.1 with networkReady := false }

/-- `ServiceDiscovery::networkSessionClosed` (lines 399–405). -/
def networkSessionClosed (st : SDState) : SDState :=
  let st1 := deinitializeMdns st
  { st1 with networkReady := false }

/-- `ServiceDiscovery::setLookupMode` (lines 619–647). -/
def setLookupMode (st : SDState) (m : LookupMode) (initOk : Bool) : SDState :=
  if st.lookupMode = m then st
  else
    let ready := st.lookupReady
    let st1 := if ready then deinitializeMdns st else st
    let st2 := { st1 with lookupMode := m }
    if ready then
      let r := initializeMdns st2 initOk
      if r.2 then r.1 else { r.1 with networkReady := false }
    else st2

/-! ## Result ingestion (lines 1071–1179) -/

/-- First index at which the two-character sequence `._` starts
(`QString::indexOf("._")` as an `Option`). -/
def idxDotUnderscore : List Char → Option Nat
  | [] => none
  | '.' :: '_' :: _ => some 0
  | _ :: rest => (idxDotUnderscore rest).map (· + 1)

/-- `r.name.left(r.name.indexOf("._"))` (line 1087): `indexOf` yields −1
when `._` does not occur and `QString::left` of a negative count returns
the whole string. -/
def ptrInstanceName (s : String) : String :=
  match idxDotUnderscore s.data with
  | some n => { data := s.data.take n }
  | none => s

/-- The fully-resolved check at the end of each record iteration
(lines 1169–1177): when no requests are outstanding republish the type,
mark the item updated and reset its error count. -/
def finalizeRecord (st : SDState) (iid : Nat) : SDState :=
  if (getItemD st iid).outstanding.isEmpty then
    let st2 := updateItem st (getItemD st iid).type
    setItemD st2 iid { getItemD st2 iid with updated := true, errorCount := 0 }
  else st

/-- One iteration of the answer-record loop of
`ServiceDiscovery::resultsReady` (lines 1077–1178), dispatching on the
record type registered for the delivering query id.  `none` embeds the
null-pointer dereferences the C++ would perform: `addItem` returning
`nullptr` in the PTR branch, and `m_queryIdItemMap.value(id)` returning
`nullptr` in the TXT/SRV/A branches. -/
def processRecord (st : SDState) (id : Nat) (qtype : RecType) (r : Record) :
    Option SDState :=
  if qtype = .Ptr then
    let serviceType := (mget st.queryIdServiceMap id).getD ""
    let name := ptrInstanceName r.name
    if r.ttl > 0 then
      match addItem st name serviceType with
      | none => none
      | some (iid, st1) =>
        let txtId := st1.nextQueryId
        let st2 := { st1 with nextQueryId := txtId + 1 }
        let st3 := setItemD st2 iid
          { getItemD st2 iid with
            outstanding := (getItemD st2 iid).outstanding ++ [txtId] }
        let st4 := { st3 with
          queryIdTypeMap := mset st3.queryIdTypeMap txtId .Txt,
          queryIdItemMap := mset st3.queryIdItemMap txtId iid }
        let srvId := st4.nextQueryId
        let st5 := { st4 with nextQueryId := srvId + 1 }
        let st6 := setItemD st5 iid
          { getItemD st5 iid with
            outstanding := (getItemD st5 iid).outstanding ++ [srvId] }
        let st7 := { st6 with
          queryIdTypeMap := mset st6.queryIdTypeMap srvId .Srv,
          queryIdItemMap := mset st6.queryIdItemMap srvId iid }
        some (finalizeRecord st7 iid)
    else
      some (removeItem st name serviceType)
  else if qtype = .Txt then
    match mget st.queryIdItemMap id with
    | none => none
    | some iid =>
      let st1 := { st with cancelLog := st.cancelLog ++ [id] }
      let st2 := setItemD st1 iid
        { getItemD st1 iid with
          outstanding := (getItemD st1 iid).outstanding.filter (fun q => !(q == id)) }
      let st3 := { st2 with
        queryIdTypeMap := mdel st2.queryIdTypeMap id,
        queryIdItemMap := mdel st2.queryIdItemMap id }
      let st4 := setItemD st3 iid { getItemD st3 iid with txtRecords := r.texts }
      some (finalizeRecord st4 iid)
  else if qtype = .Srv then
    match mget st.queryIdItemMap id with
    | none => none
    | some iid =>
      let st1 := { st with cancelLog := st.cancelLog ++ [id] }
      let st2 := setItemD st1 iid
        { getItemD st1 iid with
          outstanding := (getItemD st1 iid).outstanding.filter (fun q => !(q == id)) }
      let st3 := { st2 with
        queryIdTypeMap := mdel st2.queryIdTypeMap id,
        queryIdItemMap := mdel st2.queryIdItemMap id }
      let aId := st3.nextQueryId
      let st4 := { st3 with nextQueryId := aId + 1 }
      let st5 := setItemD st4 iid
        { getItemD st4 iid with
          outstanding := (getItemD st4 iid).outstanding ++ [aId] }
      let st6 := { st5 with
        queryIdTypeMap := mset st5.queryIdTypeMap aId .A,
        queryIdItemMap := mset st5.queryIdItemMap aId iid }
      let st7 := setItemD st6 iid
        { getItemD st6 iid with hostName := r.name, port := r.port }
      some (finalizeRecord st7 iid)
  else if qtype = .A ∨ qtype = .Aaaa then
    match mget st.queryIdItemMap id with
    | none => none
    | some iid =>
      let st1 := { st with cancelLog := st.cancelLog ++ [id] }
      let st2 := setItemD st1 iid
        { getItemD st1 iid with
          outstanding := (getItemD st1 iid).outstanding.filter (fun q => !(q == id)) }
      let st3 := { st2 with
        queryIdTypeMap := mdel st2.queryIdTypeMap id,
        queryIdItemMap := mdel st2.queryIdItemMap id }
      let st4 := setItemD st3 iid { getItemD st3 iid with hostAddress := r.address }
      some (finalizeRecord st4 iid)
  else
    some st

/-- `ServiceDiscovery::resultsReady` (lines 1071–1179): the record type is
looked up once (`QMap::value` yields the zero value `Unknown` for an
unregistered id, so no branch fires and the state is untouched), then
every answer record is processed in order. -/
def resultsReady (st : SDState) (id : Nat) (records : List Record) :
    Option SDState :=
  let qtype := (mget st.queryIdTypeMap id).getD .Unknown
  records.foldlM (fun acc r => processRecord acc id qtype r) st

/-! ## The event system

Each slot or callback of the single-threaded event loop is one atomic
transition.  `netOpened`/`setMode` carry the success of `QJDns::init`;
`timerFire` is the unicast refresh timer; `results` may carry any id —
the backend delivers answers for live queries and, late, for cancelled
ones.  `setServiceLists` rebinds the declared queries (fresh
`ServiceDiscoveryQuery` objects start with empty item lists). -/
inductive Event
  | netOpened (initOk : Bool)
  | netClosed
  | setRun (b : Bool)
  | setMode (m : LookupMode) (initOk : Bool)
  | updServices
  | updFilter
  | setFilt (f : Filter)
  | setServiceLists (qs : List (String × RecType × Filter))
  | updNameServers
  | timerFire
  | results (id : Nat) (records : List Record)
  | setThreshold (n : Nat)

/-- One event-loop step; `none` embeds undefined behaviour (a null-pointer
dereference inside `resultsReady`). -/
def step (st : SDState) : Event → Option SDState
  | .netOpened ok => some (networkSessionOpened st ok)
  | .netClosed => some (networkSessionClosed st)
  | .setRun b => some (setRunning st b)
  | .setMode m ok => some (setLookupMode st m ok)
  | .updServices => some (updateServices st)
  | .updFilter => some (updateFilter st)
  | .setFilt f => some (setFilter st f)
  | .setServiceLists qs =>
      let uqs := qs.map (fun t =>
        { serviceType := t.1, queryType := t.2.1, filter := t.2.2,
          items := [] : UserQuery })
      some { st with userQueries := uqs }
  | .updNameServers => some (updateNameServers st)
  | .timerFire => if st.timerActive then some (unicastLookup st) else some st
  | .results id records => resultsReady st id records
  | .setThreshold n => some { st with unicastErrorThreshold := n }

/-- States reachable from a freshly constructed engine. -/
inductive Reachable : SDState → Prop
  | init : Reachable initState
  | next {st st2 : SDState} {e : Event} :
      Reachable st → step st e = some st2 → Reachable st2

/-! ## Further association-list lemmas -/

section AssocLemmas2

variable {κ α : Type} [DecidableEq κ]

theorem mem_mset_nodup {m : Assoc κ α} (hm : NodupKeys m) {k : κ} {v : α}
    {p : κ × α} (h : p ∈ mset m k v) : p = (k, v) ∨ (p ∈ m ∧ p.1 ≠ k) := by
  induction m with
  | nil => simpa [mset] using h
  | cons q rest ih =>
    obtain ⟨k2, v2⟩ := q
    simp only [NodupKeys, List.map_cons, List.nodup_cons] at hm
    by_cases hk : k = k2
    · rw [mset, if_pos hk] at h
      rcases List.mem_cons.mp h with h | h
      · exact Or.inl h
      · refine Or.inr ⟨List.mem_cons_of_mem _ h, ?_⟩
        intro he
        subst hk
        exact hm.1 (he ▸ List.mem_map_of_mem Prod.fst h)
    · rw [mset, if_neg hk] at h
      rcases List.mem_cons.mp h with h | h
      · refine Or.inr ⟨h ▸ List.mem_cons_self _ _, ?_⟩
        subst h; exact fun he => hk he.symm
      · rcases ih hm.2 h with h2 | h2
        · exact Or.inl h2
        · exact Or.inr ⟨List.mem_cons_of_mem _ h2.1, h2.2⟩

theorem mem_mset_self (m : Assoc κ α) (k : κ) (v : α) : (k, v) ∈ mset m k v := by
  induction m with
  | nil => simp [mset]
  | cons q rest ih =>
    obtain ⟨k2, v2⟩ := q
    by_cases hk : k = k2
    · rw [mset, if_pos hk]
      exact List.mem_cons_self _ _
    · rw [mset, if_neg hk]
      exact List.mem_cons_of_mem _ ih

theorem mem_mset_of_mem_ne {m : Assoc κ α} {k : κ} {v : α} {p : κ × α}
    (h : p ∈ m) (hne : p.1 ≠ k) : p ∈ mset m k v := by
  induction m with
  | nil => simp at h
  | cons q rest ih =>
    obtain ⟨k2, v2⟩ := q
    by_cases hk : k = k2
    · rw [mset, if_pos hk]
      rcases List.mem_cons.mp h with h | h
      · exact absurd (by rw [h, hk]) hne
      · exact List.mem_cons_of_mem _ h
    · rw [mset, if_neg hk]
      rcases List.mem_cons.mp h with h | h
      · exact h ▸ List.mem_cons_self _ _
      · exact List.mem_cons_of_mem _ (ih h)

theorem mem_mset_self_of_mem {m : Assoc κ α} {k : κ} {v : α}
    (h : (mget m k).isSome) : (k, v) ∈ mset m k v := by
  induction m with
  | nil => simp [mget] at h
  | cons q rest ih =>
    obtain ⟨k2, v2⟩ := q
    by_cases hk : k = k2
    · rw [mset, if_pos hk]
      exact List.mem_cons_self _ _
    · rw [mget, if_neg hk] at h
      rw [mset, if_neg hk]
      exact List.mem_cons_of_mem _ (ih h)

theorem mem_mdel_of_mem {m : Assoc κ α} {k : κ} {p : κ × α}
    (h : p ∈ m) (hne : p.1 ≠ k) : p ∈ mdel m k := by
  induction m with
  | nil => simp at h
  | cons q rest ih =>
    obtain ⟨k2, v2⟩ := q
    by_cases hk : k2 = k
    · rw [mdel, if_pos hk]
      rcases List.mem_cons.mp h with h | h
      · exact absurd (by rw [h]; exact hk) hne
      · exact ih h
    · rw [mdel, if_neg hk]
      rcases List.mem_cons.mp h with h | h
      · exact h ▸ List.mem_cons_self _ _
      · exact List.mem_cons_of_mem _ (ih h)

theorem mget_mset_isSome {m : Assoc κ α} {k x : κ} {v : α}
    (h : (mget m x).isSome) : (mget (mset m k v) x).isSome := by
  by_cases hx : x = k
  · subst hx; simp [mget_mset_self]
  · rw [mget_mset_ne m v hx]; exact h

/-- `mget` through a filter on keys. -/
theorem mget_filterKeys (m : Assoc κ α) (f : κ → Bool) (k : κ) :
    mget (m.filter (fun p => f p.1)) k = if f k then mget m k else none := by
  induction m with
  | nil => cases hf : f k <;> simp [mget, hf]
  | cons q rest ih =>
    obtain ⟨k2, v2⟩ := q
    rw [List.filter_cons]
    by_cases hk : k = k2
    · subst hk
      cases hf : f k
      · simp [hf, ih]
      · simp [hf, mget, ih]
    · cases hf2 : f k2
      · cases hfk : f k <;> simp [hf2, hfk, ih, mget, hk]
      · cases hfk : f k <;> simp [hf2, hfk, ih, mget, hk]

/-- `mget` through a filter on values, for maps with unique keys. -/
theorem mget_filterVal_nodup {m : Assoc κ α} (hm : NodupKeys m)
    (f : α → Bool) (k : κ) :
    mget (m.filter (fun p => f p.2)) k =
      (mget m k).bind (fun v => if f v then some v else none) := by
  induction m with
  | nil => simp [mget]
  | cons q rest ih =>
    obtain ⟨k2, v2⟩ := q
    simp only [NodupKeys, List.map_cons, List.nodup_cons] at hm
    rw [List.filter_cons]
    by_cases hf : f v2
    · simp only [hf, if_true]
      by_cases hk : k = k2
      · subst hk
        simp [mget, hf]
      · rw [mget, if_neg hk, mget, if_neg hk]
        exact ih hm.2
    · simp only [hf]
      by_cases hk : k = k2
      · subst hk
        rw [mget, if_pos rfl]
        have : mget rest k = none := by
          rw [mget_eq_none_iff]
          intro p hp he
          exact hm.1 (he ▸ List.mem_map_of_mem Prod.fst hp)
        simp only [Bool.false_eq_true, if_false, ih hm.2, this]
        simp [hf]
      · rw [mget, if_neg hk]
        exact ih hm.2

end AssocLemmas2

/-! ## Generic fold lemmas -/

theorem foldl_field {β γ : Type} (f : SDState → β → SDState) (g : SDState → γ)
    (hf : ∀ st b, g (f st b) = g st) :
    ∀ (l : List β) (st : SDState), g (l.foldl f st) = g st := by
  intro l
  induction l with
  | nil => intro st; rfl
  | cons b rest ih => intro st; rw [List.foldl_cons, ih, hf]

theorem foldl_pred {β : Type} (f : SDState → β → SDState) (P : SDState → Prop)
    (hf : ∀ st b, P st → P (f st b)) :
    ∀ (l : List β) (st : SDState), P st → P (l.foldl f st) := by
  intro l
  induction l with
  | nil => intro st h; exact h
  | cons b rest ih => intro st h; exact ih _ (hf _ _ h)

/-! ## The reachable-state invariant -/

/-- The registry is empty and every instance table is empty. -/
def Clean (st : SDState) : Prop :=
  st.queryIdTypeMap = [] ∧ st.queryIdServiceMap = [] ∧ st.queryIdItemMap = [] ∧
  ∀ p ∈ st.serviceItemsMap, p.2 = ([] : List Nat)

/-- Registry/table part of the reachable-state invariant. -/
structure InvCore (st : SDState) : Prop where
  ndItems : NodupKeys st.serviceItemsMap
  ndQS : NodupKeys st.queryIdServiceMap
  ndQI : NodupKeys st.queryIdItemMap
  flagsNet : st.networkReady = st.lookupReady
  flagsJdns : st.lookupReady = st.jdnsActive
  downEmpty : st.networkReady = false → Clean st
  stopEmpty : st.running = false → Clean st
  ptrInj : ∀ p ∈ st.queryIdServiceMap, ∀ q ∈ st.queryIdServiceMap,
      p.2 = q.2 → p = q
  ptrService : ∀ p ∈ st.queryIdServiceMap, (mget st.serviceItemsMap p.2).isSome
  typeDom : ∀ p ∈ st.queryIdTypeMap,
      (mget st.queryIdServiceMap p.1).isSome ∨ (mget st.queryIdItemMap p.1).isSome
  subTypes : ∀ p ∈ st.queryIdItemMap,
      mget st.queryIdTypeMap p.1 = some .Txt ∨
      mget st.queryIdTypeMap p.1 = some .Srv ∨
      mget st.queryIdTypeMap p.1 = some .A
  domDisj : ∀ id : Nat,
      ¬((mget st.queryIdServiceMap id).isSome ∧
        (mget st.queryIdItemMap id).isSome)
  freshQT : ∀ p ∈ st.queryIdTypeMap, p.1 < st.nextQueryId
  freshQS : ∀ p ∈ st.queryIdServiceMap, p.1 < st.nextQueryId
  freshQI : ∀ p ∈ st.queryIdItemMap, p.1 < st.nextQueryId
  itemLive : ∀ p ∈ st.queryIdItemMap, ∃ q ∈ st.serviceItemsMap, p.2 ∈ q.2

/-- Every id listed in a user query is in the instance table of the
query's service type. -/
def UqOk (st : SDState) : Prop :=
  ∀ u ∈ st.userQueries, ∀ iid ∈ u.items,
    ∃ l, mget st.serviceItemsMap u.serviceType = some l ∧ iid ∈ l

/-- Every non-empty instance table has a registered scan for its type
(each item was created by an answer to a live scan, and every path that
drops a scan also empties or drops the table). -/
def LiveOk (st : SDState) : Prop :=
  ∀ p ∈ st.serviceItemsMap, p.2 ≠ [] → ∃ q ∈ st.queryIdServiceMap, q.2 = p.1

/-- The reachable-state invariant. -/
def Inv (st : SDState) : Prop := InvCore st ∧ LiveOk st ∧ UqOk st

/-! ## Invariant preservation: leaf operations -/

theorem invCore_of_uq {st : SDState} (h : InvCore st) (uqs : List UserQuery) :
    InvCore { st with userQueries := uqs } :=
  { ndItems := h.ndItems, ndQS := h.ndQS, ndQI := h.ndQI,
    flagsNet := h.flagsNet, flagsJdns := h.flagsJdns,
    downEmpty := h.downEmpty, stopEmpty := h.stopEmpty,
    ptrInj := h.ptrInj, ptrService := h.ptrService, typeDom := h.typeDom,
    subTypes := h.subTypes, domDisj := h.domDisj, freshQT := h.freshQT,
    freshQS := h.freshQS, freshQI := h.freshQI, itemLive := h.itemLive }

theorem invCore_of_items {st : SDState} (h : InvCore st) (its : Assoc Nat ItemData) :
    InvCore { st with items := its } :=
  { ndItems := h.ndItems, ndQS := h.ndQS, ndQI := h.ndQI,
    flagsNet := h.flagsNet, flagsJdns := h.flagsJdns,
    downEmpty := h.downEmpty, stopEmpty := h.stopEmpty,
    ptrInj := h.ptrInj, ptrService := h.ptrService, typeDom := h.typeDom,
    subTypes := h.subTypes, domDisj := h.domDisj, freshQT := h.freshQT,
    freshQS := h.freshQS, freshQI := h.freshQI, itemLive := h.itemLive }

theorem invCore_setItemD {st : SDState} (h : InvCore st) (iid : Nat)
    (it : ItemData) : InvCore (setItemD st iid it) :=
  invCore_of_items h _

theorem uqok_of_items {st : SDState} (h : UqOk st) (its : Assoc Nat ItemData) :
    UqOk { st with items := its } := h

theorem uqok_setItemD {st : SDState} (h : UqOk st) (iid : Nat) (it : ItemData) :
    UqOk (setItemD st iid it) := h

theorem invCore_updateServiceType {st : SDState} (h : InvCore st) (S : String) :
    InvCore (updateServiceType st S) := by
  unfold updateServiceType
  split
  · exact h
  · exact invCore_of_uq h _

@[simp] theorem updateServiceType_serviceItemsMap (st : SDState) (S : String) :
    (updateServiceType st S).serviceItemsMap = st.serviceItemsMap := by
  unfold updateServiceType; split <;> rfl

@[simp] theorem updateServiceType_queryIdTypeMap (st : SDState) (S : String) :
    (updateServiceType st S).queryIdTypeMap = st.queryIdTypeMap := by
  unfold updateServiceType; split <;> rfl

@[simp] theorem updateServiceType_queryIdServiceMap (st : SDState) (S : String) :
    (updateServiceType st S).queryIdServiceMap = st.queryIdServiceMap := by
  unfold updateServiceType; split <;> rfl

@[simp] theorem updateServiceType_queryIdItemMap (st : SDState) (S : String) :
    (updateServiceType st S).queryIdItemMap = st.queryIdItemMap := by
  unfold updateServiceType; split <;> rfl

@[simp] theorem updateServiceType_cancelLog (st : SDState) (S : String) :
    (updateServiceType st S).cancelLog = st.cancelLog := by
  unfold updateServiceType; split <;> rfl

@[simp] theorem updateServiceType_running (st : SDState) (S : String) :
    (updateServiceType st S).running = st.running := by
  unfold updateServiceType; split <;> rfl

@[simp] theorem updateServiceType_networkReady (st : SDState) (S : String) :
    (updateServiceType st S).networkReady = st.networkReady := by
  unfold updateServiceType; split <;> rfl

@[simp] theorem updateServiceType_lookupReady (st : SDState) (S : String) :
    (updateServiceType st S).lookupReady = st.lookupReady := by
  unfold updateServiceType; split <;> rfl

@[simp] theorem updateServiceType_jdnsActive (st : SDState) (S : String) :
    (updateServiceType st S).jdnsActive = st.jdnsActive := by
  unfold updateServiceType; split <;> rfl

@[simp] theorem updateServiceType_lookupMode (st : SDState) (S : String) :
    (updateServiceType st S).lookupMode = st.lookupMode := by
  unfold updateServiceType; split <;> rfl

@[simp] theorem updateServiceType_timerActive (st : SDState) (S : String) :
    (updateServiceType st S).timerActive = st.timerActive := by
  unfold updateServiceType; split <;> rfl

@[simp] theorem updateServiceType_unicastErrorThreshold (st : SDState) (S : String) :
    (updateServiceType st S).unicastErrorThreshold = st.unicastErrorThreshold := by
  unfold updateServiceType; split <;> rfl

@[simp] theorem updateServiceType_nextQueryId (st : SDState) (S : String) :
    (updateServiceType st S).nextQueryId = st.nextQueryId := by
  unfold updateServiceType; split <;> rfl

@[simp] theorem updateServiceType_nextItemId (st : SDState) (S : String) :
    (updateServiceType st S).nextItemId = st.nextItemId := by
  unfold updateServiceType; split <;> rfl

@[simp] theorem updateServiceType_serviceTypeMap (st : SDState) (S : String) :
    (updateServiceType st S).serviceTypeMap = st.serviceTypeMap := by
  unfold updateServiceType; split <;> rfl

@[simp] theorem updateServiceType_items (st : SDState) (S : String) :
    (updateServiceType st S).items = st.items := by
  unfold updateServiceType; split <;> rfl

@[simp] theorem updateServiceType_filter (st : SDState) (S : String) :
    (updateServiceType st S).filter = st.filter := by
  unfold updateServiceType; split <;> rfl

/-- When the type has an instance list, `updateServiceType` maps every
user query of the type to the (filtered) current list and leaves the
other queries untouched. -/
theorem updateServiceType_userQueries_some {st : SDState} {S : String}
    {iids : List Nat} (hget : mget st.serviceItemsMap S = some iids) :
    (updateServiceType st S).userQueries = st.userQueries.map (fun q =>
      if q.serviceType = S then
        if q.queryType = RecType.A then { q with items := iids }
        else { q with items :=
          filterServiceDiscoveryItems st iids st.filter q.filter }
      else q) := by
  unfold updateServiceType
  rw [hget]

/-- `updateServiceType` keeps a user query's ids inside the current list
of its service type; queries of the updated type receive a sublist of the
current list, other queries are untouched. -/
theorem uqok_updateServiceType_some {st : SDState} {S : String} {iids : List Nat}
    (hget : mget st.serviceItemsMap S = some iids)
    (h : ∀ u ∈ st.userQueries, u.serviceType ≠ S → ∀ iid ∈ u.items,
        ∃ l, mget st.serviceItemsMap u.serviceType = some l ∧ iid ∈ l) :
    UqOk (updateServiceType st S) := by
  unfold updateServiceType
  rw [hget]
  intro u hu iid hiid
  simp only at hu
  rcases List.mem_map.mp hu with ⟨u0, hu0, he⟩
  by_cases hS : u0.serviceType = S
  · rw [if_pos hS] at he
    by_cases hA : u0.queryType = RecType.A
    · rw [if_pos hA] at he
      subst he
      simp only at hiid ⊢
      exact ⟨iids, by rw [hS]; exact hget, hiid⟩
    · rw [if_neg hA] at he
      subst he
      simp only at hiid ⊢
      refine ⟨iids, by rw [hS]; exact hget, ?_⟩
      exact (List.mem_filter.mp hiid).1
  · rw [if_neg hS] at he
    subst he
    exact h u0 hu0 hS iid hiid

theorem uqok_updateServiceType {st : SDState} (hOk : UqOk st) (S : String) :
    UqOk (updateServiceType st S) := by
  cases hget : mget st.serviceItemsMap S with
  | none =>
    unfold updateServiceType
    rw [hget]
    exact hOk
  | some iids =>
    exact uqok_updateServiceType_some hget (fun u hu _ => hOk u hu)

theorem liveOk_updateServiceType {st : SDState} (h : LiveOk st) (S : String) :
    LiveOk (updateServiceType st S) := by
  intro p hp hne
  rw [updateServiceType_serviceItemsMap] at hp
  rw [updateServiceType_queryIdServiceMap]
  exact h p hp hne

theorem inv_updateServiceType {st : SDState} (h : Inv st) (S : String) :
    Inv (updateServiceType st S) :=
  ⟨invCore_updateServiceType h.1 S, liveOk_updateServiceType h.2.1 S,
    uqok_updateServiceType h.2.2 S⟩

/-! ### stopItemQueries -/

theorem mem_cancelIds_iff {m : Assoc Nat Nat} {iid k : Nat} :
    (k ∈ (m.filter (fun p => p.2 == iid)).map Prod.fst) ↔ (k, iid) ∈ m := by
  constructor
  · intro h
    rcases List.mem_map.mp h with ⟨p, hp, he⟩
    rcases List.mem_filter.mp hp with ⟨hpm, hpv⟩
    have : p.2 = iid := by simpa using hpv
    have : p = (k, iid) := by
      obtain ⟨a, b⟩ := p
      simp only at he this
      rw [he, this]
    exact this ▸ hpm
  · intro h
    exact List.mem_map.mpr ⟨(k, iid),
      List.mem_filter.mpr ⟨h, by simp⟩, rfl⟩

theorem stopItemQueries_queryIdItemMap (st : SDState) (iid : Nat) :
    (stopItemQueries st iid).queryIdItemMap =
      st.queryIdItemMap.filter (fun p => !(p.2 == iid)) := rfl

theorem stopItemQueries_queryIdTypeMap (st : SDState) (iid : Nat) :
    (stopItemQueries st iid).queryIdTypeMap =
      st.queryIdTypeMap.filter (fun p =>
        !(((st.queryIdItemMap.filter (fun q => q.2 == iid)).map
            Prod.fst).contains p.1)) := rfl

theorem stopItemQueries_cancelLog2 (st : SDState) (iid : Nat) :
    (stopItemQueries st iid).cancelLog =
      st.cancelLog ++
        (st.queryIdItemMap.filter (fun q => q.2 == iid)).map Prod.fst := rfl

/-- The registered type of a query id that does not resolve `iid` is
unchanged by `stopItemQueries`. -/
theorem mget_stopItemQueries_typeMap {st : SDState}
    (hQI : NodupKeys st.queryIdItemMap) {iid k : Nat}
    (hk : mget st.queryIdItemMap k ≠ some iid) :
    mget (stopItemQueries st iid).queryIdTypeMap k =
      mget st.queryIdTypeMap k := by
  rw [stopItemQueries_queryIdTypeMap,
    mget_filterKeys st.queryIdTypeMap
      (fun x => !(((st.queryIdItemMap.filter (fun q => q.2 == iid)).map
        Prod.fst).contains x)) k]
  rw [if_pos]
  rw [Bool.not_eq_true']
  rw [← Bool.not_eq_true]
  intro hmem
  rw [List.elem_iff] at hmem
  exact hk (mget_of_mem_nodup hQI (mem_cancelIds_iff.mp hmem))

theorem mget_stopItemQueries_itemMap {st : SDState}
    (hQI : NodupKeys st.queryIdItemMap) (iid k : Nat) :
    mget (stopItemQueries st iid).queryIdItemMap k =
      (mget st.queryIdItemMap k).bind
        (fun v => if !(v == iid) then some v else none) := by
  rw [stopItemQueries_queryIdItemMap]
  exact mget_filterVal_nodup hQI (fun v => !(v == iid)) k

theorem invCore_stopItemQueries {st : SDState} (h : InvCore st) (iid : Nat) :
    InvCore (stopItemQueries st iid) := by
  refine
    { ndItems := h.ndItems, ndQS := h.ndQS,
      ndQI := ?_,
      flagsNet := h.flagsNet, flagsJdns := h.flagsJdns,
      downEmpty := ?_, stopEmpty := ?_,
      ptrInj := h.ptrInj, ptrService := h.ptrService,
      typeDom := ?_, subTypes := ?_, domDisj := ?_,
      freshQT := ?_, freshQS := h.freshQS, freshQI := ?_,
      itemLive := ?_ }
  · rw [stopItemQueries_queryIdItemMap]
    exact nodup_filter _ h.ndQI
  · intro hn
    obtain ⟨c1, c2, c3, c4⟩ := h.downEmpty hn
    refine ⟨?_, c2, ?_, c4⟩
    · rw [stopItemQueries_queryIdTypeMap, c1]; rfl
    · rw [stopItemQueries_queryIdItemMap, c3]; rfl
  · intro hn
    obtain ⟨c1, c2, c3, c4⟩ := h.stopEmpty hn
    refine ⟨?_, c2, ?_, c4⟩
    · rw [stopItemQueries_queryIdTypeMap, c1]; rfl
    · rw [stopItemQueries_queryIdItemMap, c3]; rfl
  · intro p hp
    rw [stopItemQueries_queryIdTypeMap] at hp
    obtain ⟨hpm, hpf⟩ := mem_of_mem_filter2 hp
    rcases h.typeDom p hpm with hs | hi
    · exact Or.inl hs
    · right
      rw [mget_stopItemQueries_itemMap h.ndQI]
      cases hg : mget st.queryIdItemMap p.1 with
      | none => rw [hg] at hi; simp at hi
      | some i2 =>
        by_cases hieq : i2 = iid
        · exfalso
          subst hieq
          have hm2 : (p.1, i2) ∈ st.queryIdItemMap := mem_of_mget hg
          have hm3 : p.1 ∈ (st.queryIdItemMap.filter
              (fun q => q.2 == i2)).map Prod.fst := mem_cancelIds_iff.mpr hm2
          have hmem : (List.map Prod.fst (List.filter (fun q => q.2 == i2)
              st.queryIdItemMap)).contains p.1 = true := List.elem_iff.mpr hm3
          rw [hmem] at hpf
          exact Bool.noConfusion hpf
        · simp [hieq]
  · intro p hp
    rw [stopItemQueries_queryIdItemMap] at hp
    obtain ⟨hpm, hpf⟩ := mem_of_mem_filter2 hp
    have hv : p.2 ≠ iid := by simpa using hpf
    have hget2 : mget st.queryIdItemMap p.1 = some p.2 :=
      mget_of_mem_nodup h.ndQI hpm
    have hne : mget st.queryIdItemMap p.1 ≠ some iid := by
      rw [hget2]
      intro he
      exact hv (by injection he)
    rw [mget_stopItemQueries_typeMap h.ndQI hne]
    exact h.subTypes p hpm
  · intro id hid
    obtain ⟨hs, hi⟩ := hid
    rw [mget_stopItemQueries_itemMap h.ndQI] at hi
    cases hg : mget st.queryIdItemMap id with
    | none => rw [hg] at hi; simp at hi
    | some v => exact h.domDisj id ⟨hs, by rw [hg]; rfl⟩
  · intro p hp
    rw [stopItemQueries_queryIdTypeMap] at hp
    exact h.freshQT p (mem_of_mem_filter2 hp).1
  · intro p hp
    rw [stopItemQueries_queryIdItemMap] at hp
    exact h.freshQI p (mem_of_mem_filter2 hp).1
  · intro p hp
    rw [stopItemQueries_queryIdItemMap] at hp
    exact h.itemLive p (mem_of_mem_filter2 hp).1

theorem uqok_stopItemQueries {st : SDState} (h : UqOk st) (iid : Nat) :
    UqOk (stopItemQueries st iid) := h

theorem stopItemQueries_frame (st : SDState) (iid : Nat) :
    (stopItemQueries st iid).serviceItemsMap = st.serviceItemsMap ∧
    (stopItemQueries st iid).queryIdServiceMap = st.queryIdServiceMap ∧
    (stopItemQueries st iid).userQueries = st.userQueries ∧
    (stopItemQueries st iid).items = st.items ∧
    (stopItemQueries st iid).running = st.running ∧
    (stopItemQueries st iid).networkReady = st.networkReady ∧
    (stopItemQueries st iid).nextQueryId = st.nextQueryId ∧
    (stopItemQueries st iid).serviceTypeMap = st.serviceTypeMap :=
  ⟨rfl, rfl, rfl, rfl, rfl, rfl, rfl, rfl⟩

theorem cancelLog_stopItemQueries {st : SDState} {x : Nat} (iid : Nat)
    (h : x ∈ st.cancelLog) : x ∈ (stopItemQueries st iid).cancelLog := by
  unfold stopItemQueries
  exact List.mem_append_left _ h

/-- Sub-queries surviving `stopItemQueries` do not resolve `iid`. -/
theorem stopItemQueries_no_iid {st : SDState} {iid : Nat} {p : Nat × Nat}
    (hp : p ∈ (stopItemQueries st iid).queryIdItemMap) :
    p ∈ st.queryIdItemMap ∧ p.2 ≠ iid := by
  rw [stopItemQueries_queryIdItemMap] at hp
  obtain ⟨hm, hf⟩ := mem_of_mem_filter2 hp
  exact ⟨hm, by simpa using hf⟩

/-! ### clearItems -/

theorem foldl_stopItemQueries_itemMap :
    ∀ (l : List Nat) (st : SDState) (p : Nat × Nat),
      p ∈ (l.foldl stopItemQueries st).queryIdItemMap →
      p ∈ st.queryIdItemMap ∧ ∀ iid ∈ l, p.2 ≠ iid := by
  intro l
  induction l with
  | nil =>
    intro st p hp
    exact ⟨hp, by simp⟩
  | cons a rest ih =>
    intro st p hp
    rw [List.foldl_cons] at hp
    obtain ⟨h1, h2⟩ := ih (stopItemQueries st a) p hp
    obtain ⟨h3, h4⟩ := stopItemQueries_no_iid h1
    refine ⟨h3, ?_⟩
    intro iid hiid
    rcases List.mem_cons.mp hiid with hiid | hiid
    · exact hiid ▸ h4
    · exact h2 iid hiid

theorem foldl_stopItemQueries_serviceItemsMap (l : List Nat) (st : SDState) :
    (l.foldl stopItemQueries st).serviceItemsMap = st.serviceItemsMap :=
  foldl_field stopItemQueries (fun s => s.serviceItemsMap) (fun _ _ => rfl) l st

theorem foldl_stopItemQueries_queryIdServiceMap (l : List Nat) (st : SDState) :
    (l.foldl stopItemQueries st).queryIdServiceMap = st.queryIdServiceMap :=
  foldl_field stopItemQueries (fun s => s.queryIdServiceMap) (fun _ _ => rfl) l st

theorem foldl_stopItemQueries_userQueries (l : List Nat) (st : SDState) :
    (l.foldl stopItemQueries st).userQueries = st.userQueries :=
  foldl_field stopItemQueries (fun s => s.userQueries) (fun _ _ => rfl) l st

@[simp] theorem clearItems_queryIdServiceMap (st : SDState) (S : String) :
    (clearItems st S).queryIdServiceMap = st.queryIdServiceMap := by
  unfold clearItems
  split
  · rfl
  · rename_i iids hget
    rw [updateServiceType_queryIdServiceMap]
    exact foldl_field stopItemQueries (fun s => s.queryIdServiceMap)
      (fun _ _ => rfl) iids st

@[simp] theorem clearItems_running (st : SDState) (S : String) :
    (clearItems st S).running = st.running := by
  unfold clearItems
  split
  · rfl
  · rename_i iids hget
    rw [updateServiceType_running]
    exact foldl_field stopItemQueries (fun s => s.running) (fun _ _ => rfl) iids st

@[simp] theorem clearItems_networkReady (st : SDState) (S : String) :
    (clearItems st S).networkReady = st.networkReady := by
  unfold clearItems
  split
  · rfl
  · rename_i iids hget
    rw [updateServiceType_networkReady]
    exact foldl_field stopItemQueries (fun s => s.networkReady)
      (fun _ _ => rfl) iids st

@[simp] theorem clearItems_lookupReady (st : SDState) (S : String) :
    (clearItems st S).lookupReady = st.lookupReady := by
  unfold clearItems
  split
  · rfl
  · rename_i iids hget
    rw [updateServiceType_lookupReady]
    exact foldl_field stopItemQueries (fun s => s.lookupReady)
      (fun _ _ => rfl) iids st

@[simp] theorem clearItems_jdnsActive (st : SDState) (S : String) :
    (clearItems st S).jdnsActive = st.jdnsActive := by
  unfold clearItems
  split
  · rfl
  · rename_i iids hget
    rw [updateServiceType_jdnsActive]
    exact foldl_field stopItemQueries (fun s => s.jdnsActive)
      (fun _ _ => rfl) iids st

@[simp] theorem clearItems_nextQueryId (st : SDState) (S : String) :
    (clearItems st S).nextQueryId = st.nextQueryId := by
  unfold clearItems
  split
  · rfl
  · rename_i iids hget
    rw [updateServiceType_nextQueryId]
    exact foldl_field stopItemQueries (fun s => s.nextQueryId)
      (fun _ _ => rfl) iids st

@[simp] theorem clearItems_serviceTypeMap (st : SDState) (S : String) :
    (clearItems st S).serviceTypeMap = st.serviceTypeMap := by
  unfold clearItems
  split
  · rfl
  · rename_i iids hget
    rw [updateServiceType_serviceTypeMap]
    exact foldl_field stopItemQueries (fun s => s.serviceTypeMap)
      (fun _ _ => rfl) iids st

@[simp] theorem clearItems_items (st : SDState) (S : String) :
    (clearItems st S).items = st.items := by
  unfold clearItems
  split
  · rfl
  · rename_i iids hget
    rw [updateServiceType_items]
    exact foldl_field stopItemQueries (fun s => s.items) (fun _ _ => rfl) iids st

@[simp] theorem clearItems_lookupMode (st : SDState) (S : String) :
    (clearItems st S).lookupMode = st.lookupMode := by
  unfold clearItems
  split
  · rfl
  · rename_i iids hget
    rw [updateServiceType_lookupMode]
    exact foldl_field stopItemQueries (fun s => s.lookupMode)
      (fun _ _ => rfl) iids st

@[simp] theorem clearItems_timerActive (st : SDState) (S : String) :
    (clearItems st S).timerActive = st.timerActive := by
  unfold clearItems
  split
  · rfl
  · rename_i iids hget
    rw [updateServiceType_timerActive]
    exact foldl_field stopItemQueries (fun s => s.timerActive)
      (fun _ _ => rfl) iids st

@[simp] theorem clearItems_unicastErrorThreshold (st : SDState) (S : String) :
    (clearItems st S).unicastErrorThreshold = st.unicastErrorThreshold := by
  unfold clearItems
  split
  · rfl
  · rename_i iids hget
    rw [updateServiceType_unicastErrorThreshold]
    exact foldl_field stopItemQueries (fun s => s.unicastErrorThreshold)
      (fun _ _ => rfl) iids st

@[simp] theorem clearItems_filter (st : SDState) (S : String) :
    (clearItems st S).filter = st.filter := by
  unfold clearItems
  split
  · rfl
  · rename_i iids hget
    rw [updateServiceType_filter]
    exact foldl_field stopItemQueries (fun s => s.filter) (fun _ _ => rfl) iids st

/-- The instance table after `clearItems`: the cleared type maps to `[]`,
other types are untouched. -/
theorem clearItems_serviceItemsMap_mget (st : SDState) (S x : String) :
    mget (clearItems st S).serviceItemsMap x =
      if x = S then (mget st.serviceItemsMap S).map (fun _ => [])
      else mget st.serviceItemsMap x := by
  unfold clearItems
  split
  · rename_i hget
    by_cases hx : x = S
    · subst hx; simp [hget]
    · simp [hx]
  · rename_i iids hget
    rw [updateServiceType_serviceItemsMap]
    show mget (mset _ S []) x = _
    rw [foldl_stopItemQueries_serviceItemsMap]
    by_cases hx : x = S
    · subst hx
      rw [mget_mset_self, hget]
      simp
    · rw [mget_mset_ne _ _ hx, if_neg hx]

/-- Sub-query registry entries surviving `clearItems` existed before and do
not point into the cleared list. -/
theorem clearItems_itemMap_sub {st : SDState} {S : String} {iids : List Nat}
    (hget : mget st.serviceItemsMap S = some iids) {p : Nat × Nat}
    (hp : p ∈ (clearItems st S).queryIdItemMap) :
    p ∈ st.queryIdItemMap ∧ p.2 ∉ iids := by
  unfold clearItems at hp
  rw [hget] at hp
  rw [updateServiceType_queryIdItemMap] at hp
  have hp2 : p ∈ (iids.foldl stopItemQueries st).queryIdItemMap := hp
  obtain ⟨h1, h2⟩ := foldl_stopItemQueries_itemMap iids st p hp2
  exact ⟨h1, fun hmem => h2 p.2 hmem rfl⟩

theorem invCore_clearItems {st : SDState} (h : InvCore st) (S : String) :
    InvCore (clearItems st S) := by
  unfold clearItems
  split
  · exact h
  · rename_i iids hget
    have hfold : InvCore (iids.foldl stopItemQueries st) :=
      foldl_pred stopItemQueries InvCore
        (fun s b hs => invCore_stopItemQueries hs b) iids st h
    apply invCore_updateServiceType
    have hitems : (iids.foldl stopItemQueries st).serviceItemsMap =
        st.serviceItemsMap := foldl_stopItemQueries_serviceItemsMap iids st
    refine
      { ndItems := ?_, ndQS := hfold.ndQS, ndQI := hfold.ndQI,
        flagsNet := hfold.flagsNet, flagsJdns := hfold.flagsJdns,
        downEmpty := ?_, stopEmpty := ?_,
        ptrInj := hfold.ptrInj, ptrService := ?_,
        typeDom := hfold.typeDom, subTypes := hfold.subTypes,
        domDisj := hfold.domDisj,
        freshQT := hfold.freshQT, freshQS := hfold.freshQS,
        freshQI := hfold.freshQI, itemLive := ?_ }
    · exact nodup_mset hfold.ndItems S []
    · intro hn
      obtain ⟨c1, c2, c3, c4⟩ := hfold.downEmpty hn
      refine ⟨c1, c2, c3, ?_⟩
      intro p hp
      rcases mem_mset hp with hp2 | hp2
      · rw [hp2]
      · exact c4 p hp2
    · intro hn
      obtain ⟨c1, c2, c3, c4⟩ := hfold.stopEmpty hn
      refine ⟨c1, c2, c3, ?_⟩
      intro p hp
      rcases mem_mset hp with hp2 | hp2
      · rw [hp2]
      · exact c4 p hp2
    · intro p hp
      exact mget_mset_isSome (hfold.ptrService p hp)
    · intro p hp
      obtain ⟨q, hq, hqm⟩ := hfold.itemLive p hp
      by_cases hqS : q.1 = S
      · exfalso
        have hq2 : q ∈ st.serviceItemsMap := hitems ▸ hq
        have : mget st.serviceItemsMap q.1 = some q.2 :=
          mget_of_mem_nodup h.ndItems hq2
        rw [hqS, hget] at this
        have hqiids : q.2 = iids := by injection this with hh; exact hh.symm
        obtain ⟨_, hnot⟩ := foldl_stopItemQueries_itemMap iids st p hp
        exact hnot p.2 (hqiids ▸ hqm) rfl
      · exact ⟨q, mem_mset_of_mem_ne hq hqS, hqm⟩

theorem uqok_clearItems {st : SDState} (hOk : UqOk st) (S : String) :
    UqOk (clearItems st S) := by
  unfold clearItems
  split
  · exact hOk
  · rename_i iids hget
    refine uqok_updateServiceType_some (mget_mset_self _ _ _) ?_
    intro u hu hneS iid hiid
    have hu2 : u ∈ st.userQueries := by
      rw [foldl_stopItemQueries_userQueries] at hu
      exact hu
    obtain ⟨l, hl, hmem⟩ := hOk u hu2 iid hiid
    refine ⟨l, ?_, hmem⟩
    show mget (mset _ S []) u.serviceType = some l
    rw [mget_mset_ne _ _ hneS, foldl_stopItemQueries_serviceItemsMap]
    exact hl

/-- `LiveOk` after `clearItems`, needing liveness only away from the
cleared type. -/
theorem liveOk_clearItems {st : SDState} (S : String)
    (hnd : NodupKeys st.serviceItemsMap)
    (hlive : ∀ p ∈ st.serviceItemsMap, p.2 ≠ [] → p.1 ≠ S →
      ∃ q ∈ st.queryIdServiceMap, q.2 = p.1) :
    LiveOk (clearItems st S) := by
  unfold clearItems
  split
  · rename_i hget
    intro p hp hne
    refine hlive p hp hne ?_
    intro he
    have := mget_isSome_of_mem hp
    rw [he, hget] at this
    exact Bool.noConfusion this
  · rename_i iids hget
    intro p hp hne
    rw [updateServiceType_serviceItemsMap] at hp
    rw [updateServiceType_queryIdServiceMap]
    have hp2 : p ∈ mset (iids.foldl stopItemQueries st).serviceItemsMap S [] :=
      hp
    have hnd2 : NodupKeys (iids.foldl stopItemQueries st).serviceItemsMap := by
      rw [foldl_stopItemQueries_serviceItemsMap]
      exact hnd
    rcases mem_mset_nodup hnd2 hp2 with hp3 | hp3
    · exact absurd (congrArg Prod.snd hp3) hne
    · obtain ⟨hp4, hp5⟩ := hp3
      rw [foldl_stopItemQueries_serviceItemsMap] at hp4
      show ∃ q ∈ (iids.foldl stopItemQueries st).queryIdServiceMap, q.2 = p.1
      rw [foldl_stopItemQueries_queryIdServiceMap]
      exact hlive p hp4 hne hp5

theorem inv_clearItems {st : SDState} (h : Inv st) (S : String) :
    Inv (clearItems st S) :=
  ⟨invCore_clearItems h.1 S,
    liveOk_clearItems S h.1.ndItems (fun p hp hne _ => h.2.1 p hp hne),
    uqok_clearItems h.2.2 S⟩

/-- `cancelLog` only grows. -/
theorem clearItems_cancelLog_mono {st : SDState} {x : Nat} (S : String)
    (h : x ∈ st.cancelLog) : x ∈ (clearItems st S).cancelLog := by
  unfold clearItems
  split
  · exact h
  · rename_i iids hget
    rw [updateServiceType_cancelLog]
    have : ∀ (l : List Nat) (st2 : SDState), x ∈ st2.cancelLog →
        x ∈ (l.foldl stopItemQueries st2).cancelLog := by
      intro l
      induction l with
      | nil => intro st2 hx; exact hx
      | cons a rest ih =>
        intro st2 hx
        exact ih _ (cancelLog_stopItemQueries a hx)
    exact this iids st h


/-! ### addServiceType / removeServiceType -/

@[simp] theorem addServiceType_queryIdServiceMap (st : SDState) (S : String)
    (qt : RecType) :
    (addServiceType st S qt).queryIdServiceMap = st.queryIdServiceMap := by
  unfold addServiceType; split <;> rfl

@[simp] theorem addServiceType_queryIdTypeMap (st : SDState) (S : String)
    (qt : RecType) :
    (addServiceType st S qt).queryIdTypeMap = st.queryIdTypeMap := by
  unfold addServiceType; split <;> rfl

@[simp] theorem addServiceType_queryIdItemMap (st : SDState) (S : String)
    (qt : RecType) :
    (addServiceType st S qt).queryIdItemMap = st.queryIdItemMap := by
  unfold addServiceType; split <;> rfl

@[simp] theorem addServiceType_running (st : SDState) (S : String) (qt : RecType) :
    (addServiceType st S qt).running = st.running := by
  unfold addServiceType; split <;> rfl

@[simp] theorem addServiceType_networkReady (st : SDState) (S : String)
    (qt : RecType) :
    (addServiceType st S qt).networkReady = st.networkReady := by
  unfold addServiceType; split <;> rfl

@[simp] theorem addServiceType_userQueries (st : SDState) (S : String)
    (qt : RecType) :
    (addServiceType st S qt).userQueries = st.userQueries := by
  unfold addServiceType; split <;> rfl

@[simp] theorem addServiceType_cancelLog (st : SDState) (S : String)
    (qt : RecType) :
    (addServiceType st S qt).cancelLog = st.cancelLog := by
  unfold addServiceType; split <;> rfl

/-- After `addServiceType` the type is present. -/
theorem addServiceType_present (st : SDState) (S : String) (qt : RecType) :
    (mget (addServiceType st S qt).serviceItemsMap S).isSome := by
  unfold addServiceType
  split
  · rename_i hs; exact hs
  · show (mget (mset _ S []) S).isSome
    rw [mget_mset_self]
    rfl

theorem addServiceType_itemsMap_mget_ne (st : SDState) {S x : String}
    (qt : RecType) (hx : x ≠ S) :
    mget (addServiceType st S qt).serviceItemsMap x =
      mget st.serviceItemsMap x := by
  unfold addServiceType
  split
  · rfl
  · exact mget_mset_ne _ _ hx

theorem invCore_addServiceType {st : SDState} (h : InvCore st) (S : String)
    (qt : RecType) : InvCore (addServiceType st S qt) := by
  unfold addServiceType
  split
  · exact h
  · rename_i hnone
    have hget : mget st.serviceItemsMap S = none := by
      cases hg : mget st.serviceItemsMap S with
      | none => rfl
      | some l => rw [hg] at hnone; simp at hnone
    refine
      { ndItems := nodup_mset h.ndItems S [], ndQS := h.ndQS, ndQI := h.ndQI,
        flagsNet := h.flagsNet, flagsJdns := h.flagsJdns,
        downEmpty := ?_, stopEmpty := ?_, ptrInj := h.ptrInj,
        ptrService := ?_, typeDom := h.typeDom, subTypes := h.subTypes,
        domDisj := h.domDisj,
        freshQT := h.freshQT, freshQS := h.freshQS, freshQI := h.freshQI,
        itemLive := ?_ }
    · intro hn
      obtain ⟨c1, c2, c3, c4⟩ := h.downEmpty hn
      refine ⟨c1, c2, c3, ?_⟩
      intro p hp
      rcases mem_mset hp with hp2 | hp2
      · rw [hp2]
      · exact c4 p hp2
    · intro hn
      obtain ⟨c1, c2, c3, c4⟩ := h.stopEmpty hn
      refine ⟨c1, c2, c3, ?_⟩
      intro p hp
      rcases mem_mset hp with hp2 | hp2
      · rw [hp2]
      · exact c4 p hp2
    · intro p hp
      exact mget_mset_isSome (h.ptrService p hp)
    · intro p hp
      obtain ⟨q, hq, hqm⟩ := h.itemLive p hp
      have hqS : q.1 ≠ S := by
        intro he
        have := mget_isSome_of_mem hq
        rw [he, hget] at this
        exact Bool.noConfusion this
      exact ⟨q, mem_mset_of_mem_ne hq hqS, hqm⟩

theorem uqok_addServiceType {st : SDState} (hOk : UqOk st) (S : String)
    (qt : RecType) : UqOk (addServiceType st S qt) := by
  unfold addServiceType
  split
  · exact hOk
  · rename_i hnone
    intro u hu iid hiid
    obtain ⟨l, hl, hm⟩ := hOk u hu iid hiid
    refine ⟨l, ?_, hm⟩
    have huS : u.serviceType ≠ S := by
      intro he
      rw [he] at hl
      rw [hl] at hnone
      simp at hnone
    show mget (mset _ S []) u.serviceType = some l
    rw [mget_mset_ne _ _ huS]
    exact hl

theorem liveOk_addServiceType {st : SDState} (h : LiveOk st) (S : String)
    (qt : RecType) : LiveOk (addServiceType st S qt) := by
  unfold addServiceType
  split
  · exact h
  · intro p hp hne
    rcases mem_mset hp with hp2 | hp2
    · exact absurd (congrArg Prod.snd hp2) hne
    · exact h p hp2 hne

theorem inv_addServiceType {st : SDState} (h : Inv st) (S : String)
    (qt : RecType) : Inv (addServiceType st S qt) :=
  ⟨invCore_addServiceType h.1 S qt, liveOk_addServiceType h.2.1 S qt,
    uqok_addServiceType h.2.2 S qt⟩

@[simp] theorem removeServiceType_queryIdServiceMap (st : SDState) (S : String) :
    (removeServiceType st S).queryIdServiceMap = st.queryIdServiceMap := by
  unfold removeServiceType
  split
  · show (clearItems st S).queryIdServiceMap = _
    exact clearItems_queryIdServiceMap st S
  · rfl

@[simp] theorem removeServiceType_running (st : SDState) (S : String) :
    (removeServiceType st S).running = st.running := by
  unfold removeServiceType
  split
  · show (clearItems st S).running = _
    exact clearItems_running st S
  · rfl

@[simp] theorem removeServiceType_networkReady (st : SDState) (S : String) :
    (removeServiceType st S).networkReady = st.networkReady := by
  unfold removeServiceType
  split
  · show (clearItems st S).networkReady = _
    exact clearItems_networkReady st S
  · rfl

@[simp] theorem removeServiceType_nextQueryId (st : SDState) (S : String) :
    (removeServiceType st S).nextQueryId = st.nextQueryId := by
  unfold removeServiceType
  split
  · show (clearItems st S).nextQueryId = _
    exact clearItems_nextQueryId st S
  · rfl

theorem removeServiceType_itemsMap_mget (st : SDState) (S x : String) :
    mget (removeServiceType st S).serviceItemsMap x =
      if x = S then none else mget st.serviceItemsMap x := by
  unfold removeServiceType
  split
  · show mget (mdel (clearItems st S).serviceItemsMap S) x = _
    by_cases hx : x = S
    · subst hx
      rw [mget_mdel_self, if_pos rfl]
    · rw [mget_mdel_ne _ hx, if_neg hx, clearItems_serviceItemsMap_mget,
        if_neg hx]
  · rename_i hnone
    by_cases hx : x = S
    · subst hx
      rw [if_pos rfl]
      cases hg : mget st.serviceItemsMap x with
      | none => rfl
      | some l => rw [hg] at hnone; simp at hnone
    · rw [if_neg hx]

theorem inv_removeServiceType {st : SDState} (h : Inv st) {S : String}
    (hno : ∀ p ∈ st.queryIdServiceMap, p.2 ≠ S) :
    Inv (removeServiceType st S) := by
  unfold removeServiceType
  split
  · rename_i hsome
    obtain ⟨hc, hlv, hu⟩ := inv_clearItems h S
    set st2 := clearItems st S with hst2
    have hmgetS : mget st2.serviceItemsMap S = some [] := by
      rw [hst2, clearItems_serviceItemsMap_mget, if_pos rfl]
      cases hg : mget st.serviceItemsMap S with
      | none => rw [hg] at hsome; exact Bool.noConfusion hsome
      | some l => rfl
    refine ⟨?_, ?_, ?_⟩
    · refine
        { ndItems := nodup_mdel hc.ndItems S, ndQS := hc.ndQS, ndQI := hc.ndQI,
          flagsNet := hc.flagsNet, flagsJdns := hc.flagsJdns,
          downEmpty := ?_, stopEmpty := ?_, ptrInj := hc.ptrInj,
          ptrService := ?_, typeDom := hc.typeDom, subTypes := hc.subTypes,
          domDisj := hc.domDisj,
          freshQT := hc.freshQT, freshQS := hc.freshQS, freshQI := hc.freshQI,
          itemLive := ?_ }
      · intro hn
        obtain ⟨c1, c2, c3, c4⟩ := hc.downEmpty hn
        exact ⟨c1, c2, c3, fun p hp => c4 p (mem_mdel hp).1⟩
      · intro hn
        obtain ⟨c1, c2, c3, c4⟩ := hc.stopEmpty hn
        exact ⟨c1, c2, c3, fun p hp => c4 p (mem_mdel hp).1⟩
      · intro p hp
        have hp2 : p ∈ st.queryIdServiceMap := by
          have : st2.queryIdServiceMap = st.queryIdServiceMap :=
            clearItems_queryIdServiceMap st S
          rw [← this]
          exact hp
        have hne : p.2 ≠ S := hno p hp2
        show (mget (mdel st2.serviceItemsMap S) p.2).isSome
        rw [mget_mdel_ne _ hne]
        exact hc.ptrService p hp
      · intro p hp
        obtain ⟨q, hq, hqm⟩ := hc.itemLive p hp
        have hqS : q.1 ≠ S := by
          intro he
          have := mget_of_mem_nodup hc.ndItems hq
          rw [he, hmgetS] at this
          have : q.2 = [] := by injection this with hh; exact hh.symm
          rw [this] at hqm
          simp at hqm
        exact ⟨q, mem_mdel_of_mem hq hqS, hqm⟩
    · intro p hp hne
      exact hlv p (mem_mdel hp).1 hne
    · intro u hu2 iid hiid
      obtain ⟨l, hl, hm⟩ := hu u hu2 iid hiid
      by_cases huS : u.serviceType = S
      · exfalso
        rw [huS, hmgetS] at hl
        have : l = [] := by injection hl with hh; exact hh.symm
        rw [this] at hm
        simp at hm
      · refine ⟨l, ?_, hm⟩
        show mget (mdel st2.serviceItemsMap S) u.serviceType = some l
        rw [mget_mdel_ne _ huS]
        exact hl
  · exact h


/-! ### addItem / removeItem -/

/-- `addItem` succeeds exactly when the service type is known (C++ returns
`nullptr` only on the missing-type path). -/
theorem addItem_isSome {st : SDState} {S : String} (name : String)
    (h : (mget st.serviceItemsMap S).isSome) : (addItem st name S).isSome := by
  unfold addItem
  cases hg : mget st.serviceItemsMap S with
  | none => rw [hg] at h; exact Bool.noConfusion h
  | some iids =>
    cases hf : iids.find? (fun iid => (getItemD st iid).name == name) <;>
      simp [hf]

theorem addItem_frame {st st2 : SDState} {S name : String} {iid : Nat}
    (hadd : addItem st name S = some (iid, st2)) :
    st2.queryIdTypeMap = st.queryIdTypeMap ∧
    st2.queryIdServiceMap = st.queryIdServiceMap ∧
    st2.queryIdItemMap = st.queryIdItemMap ∧
    st2.userQueries = st.userQueries ∧
    st2.nextQueryId = st.nextQueryId ∧
    st2.running = st.running ∧
    st2.networkReady = st.networkReady ∧
    st2.lookupReady = st.lookupReady ∧
    st2.jdnsActive = st.jdnsActive ∧
    st2.cancelLog = st.cancelLog := by
  cases hg : mget st.serviceItemsMap S with
  | none =>
    rw [addItem, hg] at hadd
    exact Option.noConfusion hadd
  | some iids =>
    rw [addItem, hg] at hadd
    simp only [] at hadd
    cases hf : iids.find? (fun i2 => (getItemD st i2).name == name) with
    | some i2 =>
      rw [hf] at hadd
      simp only [Option.some.injEq, Prod.mk.injEq] at hadd
      obtain ⟨h1, h2⟩ := hadd
      subst h2
      exact ⟨rfl, rfl, rfl, rfl, rfl, rfl, rfl, rfl, rfl, rfl⟩
    | none =>
      rw [hf] at hadd
      simp only [Option.some.injEq, Prod.mk.injEq] at hadd
      obtain ⟨h1, h2⟩ := hadd
      subst h2
      exact ⟨rfl, rfl, rfl, rfl, rfl, rfl, rfl, rfl, rfl, rfl⟩

/-- The returned item is in the table of its type. -/
theorem addItem_item_in {st st2 : SDState} {S name : String} {iid : Nat}
    (hnd : NodupKeys st.serviceItemsMap)
    (hadd : addItem st name S = some (iid, st2)) :
    ∃ l, mget st2.serviceItemsMap S = some l ∧ iid ∈ l := by
  cases hg : mget st.serviceItemsMap S with
  | none =>
    rw [addItem, hg] at hadd
    exact Option.noConfusion hadd
  | some iids =>
    rw [addItem, hg] at hadd
    simp only [] at hadd
    cases hf : iids.find? (fun i2 => (getItemD st i2).name == name) with
    | some i2 =>
      rw [hf] at hadd
      simp only [Option.some.injEq, Prod.mk.injEq] at hadd
      obtain ⟨h1, h2⟩ := hadd
      subst h2
      subst h1
      exact ⟨iids, hg, List.mem_of_find?_eq_some hf⟩
    | none =>
      rw [hf] at hadd
      simp only [Option.some.injEq, Prod.mk.injEq] at hadd
      obtain ⟨h1, h2⟩ := hadd
      subst h2
      subst h1
      refine ⟨iids ++ [st.nextItemId], ?_, by simp⟩
      show mget (mset st.serviceItemsMap S (iids ++ [st.nextItemId])) S = _
      exact mget_mset_self _ _ _

/-- Tables of other types are untouched by `addItem`. -/
theorem addItem_itemsMap_ne {st st2 : SDState} {S name : String} {iid : Nat}
    (hadd : addItem st name S = some (iid, st2)) {x : String} (hx : x ≠ S) :
    mget st2.serviceItemsMap x = mget st.serviceItemsMap x := by
  cases hg : mget st.serviceItemsMap S with
  | none =>
    rw [addItem, hg] at hadd
    exact Option.noConfusion hadd
  | some iids =>
    rw [addItem, hg] at hadd
    simp only [] at hadd
    cases hf : iids.find? (fun i2 => (getItemD st i2).name == name) with
    | some i2 =>
      rw [hf] at hadd
      simp only [Option.some.injEq, Prod.mk.injEq] at hadd
      obtain ⟨h1, h2⟩ := hadd
      subst h2
      rfl
    | none =>
      rw [hf] at hadd
      simp only [Option.some.injEq, Prod.mk.injEq] at hadd
      obtain ⟨h1, h2⟩ := hadd
      subst h2
      exact mget_mset_ne _ _ hx

theorem inv_addItem {st st2 : SDState} {S name : String} {iid : Nat}
    (h : Inv st) (hptr : ∃ q ∈ st.queryIdServiceMap, q.2 = S)
    (hadd : addItem st name S = some (iid, st2)) : Inv st2 := by
  cases hg : mget st.serviceItemsMap S with
  | none =>
    rw [addItem, hg] at hadd
    exact Option.noConfusion hadd
  | some iids =>
    rw [addItem, hg] at hadd
    simp only [] at hadd
    cases hf : iids.find? (fun i2 => (getItemD st i2).name == name) with
    | some i2 =>
      rw [hf] at hadd
      simp only [Option.some.injEq, Prod.mk.injEq] at hadd
      obtain ⟨h1, h2⟩ := hadd
      subst h2
      exact h
    | none =>
      rw [hf] at hadd
      simp only [Option.some.injEq, Prod.mk.injEq] at hadd
      obtain ⟨h1, h2⟩ := hadd
      subst h2
      obtain ⟨hc, hlv, hu⟩ := h
      have hnotdown : st.networkReady = true := by
        by_contra hn
        obtain ⟨q, hq, hqv⟩ := hptr
        obtain ⟨c1, c2, c3, c4⟩ := hc.downEmpty (by simpa using hn)
        rw [c2] at hq
        simp at hq
      have hnotstopped : st.running = true := by
        by_contra hn
        obtain ⟨q, hq, hqv⟩ := hptr
        obtain ⟨c1, c2, c3, c4⟩ := hc.stopEmpty (by simpa using hn)
        rw [c2] at hq
        simp at hq
      refine ⟨?_, ?_, ?_⟩
      · refine
          { ndItems := nodup_mset hc.ndItems S _, ndQS := hc.ndQS,
            ndQI := hc.ndQI, flagsNet := hc.flagsNet,
            flagsJdns := hc.flagsJdns,
            downEmpty := ?_, stopEmpty := ?_, ptrInj := hc.ptrInj,
            ptrService := ?_, typeDom := hc.typeDom, subTypes := hc.subTypes,
            domDisj := hc.domDisj,
            freshQT := hc.freshQT, freshQS := hc.freshQS,
            freshQI := hc.freshQI, itemLive := ?_ }
        · intro hn
          exact absurd (hnotdown ▸ hn) (by simp)
        · intro hn
          exact absurd (hnotstopped ▸ hn) (by simp)
        · intro p hp
          exact mget_mset_isSome (hc.ptrService p hp)
        · intro p hp
          obtain ⟨q, hq, hqm⟩ := hc.itemLive p hp
          by_cases hqS : q.1 = S
          · have hql : q.2 = iids := by
              have h3 := mget_of_mem_nodup hc.ndItems hq
              rw [hqS, hg] at h3
              injection h3 with hh
              exact hh.symm
            refine ⟨(S, iids ++ [st.nextItemId]), ?_, ?_⟩
            · exact mem_mset_self_of_mem (by rw [hg]; rfl)
            · exact List.mem_append_left _ (hql ▸ hqm)
          · exact ⟨q, mem_mset_of_mem_ne hq hqS, hqm⟩
      · intro p hp hne
        rcases mem_mset_nodup hc.ndItems hp with hp2 | hp2
        · obtain ⟨q, hq, hqv⟩ := hptr
          rw [hp2]
          exact ⟨q, hq, hqv⟩
        · exact hlv p hp2.1 hne
      · intro u hu2 iid2 hiid2
        obtain ⟨l, hl, hm⟩ := hu u hu2 iid2 hiid2
        by_cases huS : u.serviceType = S
        · have hliids : l = iids := by
            rw [huS, hg] at hl
            injection hl with hh
            exact hh.symm
          refine ⟨iids ++ [st.nextItemId], ?_, ?_⟩
          · show mget (mset st.serviceItemsMap S _) u.serviceType = _
            rw [huS]
            exact mget_mset_self _ _ _
          · exact List.mem_append_left _ (hliids ▸ hm)
        · refine ⟨l, ?_, hm⟩
          show mget (mset st.serviceItemsMap S _) u.serviceType = some l
          rw [mget_mset_ne _ _ huS]
          exact hl

theorem inv_removeItem {st : SDState} (h : Inv st) (name S : String) :
    Inv (removeItem st name S) := by
  cases hg : mget st.serviceItemsMap S with
  | none =>
    rw [removeItem, hg]
    exact h
  | some iids =>
    rw [removeItem, hg]
    cases hf : iids.find? (fun i2 => (getItemD st i2).name == name) with
    | none =>
      simp only [hf]
      exact h
    | some iid =>
      simp only [hf]
      obtain ⟨hc, hlv, hu⟩ := h
      have hiniids : iid ∈ iids := List.mem_of_find?_eq_some hf
      have hc2 : InvCore (stopItemQueries st iid) := invCore_stopItemQueries hc iid
      have hitems2 : (stopItemQueries st iid).serviceItemsMap =
          st.serviceItemsMap := rfl
      refine ⟨?_, ?_, ?_⟩
      · apply invCore_updateServiceType
        refine
          { ndItems := nodup_mset hc2.ndItems S _, ndQS := hc2.ndQS,
            ndQI := hc2.ndQI, flagsNet := hc2.flagsNet,
            flagsJdns := hc2.flagsJdns,
            downEmpty := ?_, stopEmpty := ?_, ptrInj := hc2.ptrInj,
            ptrService := ?_, typeDom := hc2.typeDom, subTypes := hc2.subTypes,
            domDisj := hc2.domDisj,
            freshQT := hc2.freshQT, freshQS := hc2.freshQS,
            freshQI := hc2.freshQI, itemLive := ?_ }
        · intro hn
          exfalso
          obtain ⟨c1, c2, c3, c4⟩ := hc.downEmpty hn
          have : iids = [] := c4 (S, iids) (mem_of_mget hg)
          rw [this] at hiniids
          simp at hiniids
        · intro hn
          exfalso
          obtain ⟨c1, c2, c3, c4⟩ := hc.stopEmpty hn
          have : iids = [] := c4 (S, iids) (mem_of_mget hg)
          rw [this] at hiniids
          simp at hiniids
        · intro p hp
          exact mget_mset_isSome (hc2.ptrService p hp)
        · intro p hp
          obtain ⟨hpold, hpne⟩ := stopItemQueries_no_iid hp
          obtain ⟨q, hq, hqm⟩ := hc.itemLive p hpold
          by_cases hqS : q.1 = S
          · have hql : q.2 = iids := by
              have := mget_of_mem_nodup hc.ndItems hq
              rw [hqS, hg] at this
              injection this with hh
              exact hh.symm
            refine ⟨(S, iids.eraseP (fun i2 => (getItemD st i2).name == name)),
              ?_, ?_⟩
            · exact mem_mset_self_of_mem (by rw [show (stopItemQueries st
                iid).serviceItemsMap = st.serviceItemsMap from rfl, hg]; rfl)
            · exact mem_eraseP_of_ne (hql ▸ hqm) hf hpne
          · exact ⟨q, mem_mset_of_mem_ne hq hqS, hqm⟩
      · apply liveOk_updateServiceType
        intro p hp hne
        rcases mem_mset_nodup hc2.ndItems hp with hp2 | hp2
        · rw [hp2]
          show ∃ q ∈ (stopItemQueries st iid).queryIdServiceMap, q.2 = S
          apply hlv (S, iids) (mem_of_mget hg)
          intro he
          have he2 : iids = [] := he
          rw [he2] at hiniids
          simp at hiniids
        · exact hlv p hp2.1 hne
      · apply uqok_updateServiceType_some
        · show mget (mset (stopItemQueries st iid).serviceItemsMap S _) S = _
          exact mget_mset_self _ _ _
        · intro u hu2 hneS iid2 hiid2
          obtain ⟨l, hl, hm⟩ := hu u hu2 iid2 hiid2
          refine ⟨l, ?_, hm⟩
          show mget (mset (stopItemQueries st iid).serviceItemsMap S _)
            u.serviceType = some l
          rw [mget_mset_ne _ _ hneS]
          exact hl


/-! ### purgeItems -/

theorem purgeLoop_field {γ : Type} (g : SDState → γ)
    (h1 : ∀ st iid it, g (setItemD st iid it) = g st)
    (h2 : ∀ st iid, g (stopItemQueries st iid) = g st) :
    ∀ (l : List Nat) (st : SDState), g (purgeLoop st l).1 = g st := by
  intro l
  induction l with
  | nil => intro st; rfl
  | cons iid rest ih =>
    intro st
    simp only [purgeLoop]
    split
    · split
      · exact (ih (stopItemQueries (setItemD st iid
          { getItemD st iid with
            errorCount := (getItemD st iid).errorCount + 1 }) iid)).trans
          ((h2 _ _).trans (h1 _ _ _))
      · exact (ih (setItemD st iid
          { getItemD st iid with
            errorCount := (getItemD st iid).errorCount + 1 })).trans (h1 _ _ _)
    · exact (ih (setItemD st iid
        { getItemD st iid with updated := false })).trans (h1 _ _ _)

theorem purgeLoop_serviceItemsMap (l : List Nat) (st : SDState) :
    (purgeLoop st l).1.serviceItemsMap = st.serviceItemsMap :=
  purgeLoop_field (fun s => s.serviceItemsMap) (fun _ _ _ => rfl)
    (fun _ _ => rfl) l st

theorem purgeLoop_queryIdServiceMap (l : List Nat) (st : SDState) :
    (purgeLoop st l).1.queryIdServiceMap = st.queryIdServiceMap :=
  purgeLoop_field (fun s => s.queryIdServiceMap) (fun _ _ _ => rfl)
    (fun _ _ => rfl) l st

theorem purgeLoop_userQueries (l : List Nat) (st : SDState) :
    (purgeLoop st l).1.userQueries = st.userQueries :=
  purgeLoop_field (fun s => s.userQueries) (fun _ _ _ => rfl)
    (fun _ _ => rfl) l st

theorem purgeLoop_filter (l : List Nat) (st : SDState) :
    (purgeLoop st l).1.filter = st.filter :=
  purgeLoop_field (fun s => s.filter) (fun _ _ _ => rfl)
    (fun _ _ => rfl) l st

theorem invCore_purgeLoop :
    ∀ (l : List Nat) (st : SDState), InvCore st → InvCore (purgeLoop st l).1 := by
  intro l
  induction l with
  | nil => intro st h; exact h
  | cons iid rest ih =>
    intro st h
    simp only [purgeLoop]
    split
    · split
      · exact ih _ (invCore_stopItemQueries (invCore_setItemD h iid _) iid)
      · exact ih _ (invCore_setItemD h iid _)
    · exact ih _ (invCore_setItemD h iid _)

theorem uqok_purgeLoop :
    ∀ (l : List Nat) (st : SDState), UqOk st → UqOk (purgeLoop st l).1 := by
  intro l
  induction l with
  | nil => intro st h; exact h
  | cons iid rest ih =>
    intro st h
    simp only [purgeLoop]
    split
    · split
      · exact ih _ (uqok_stopItemQueries (uqok_setItemD h iid _) iid)
      · exact ih _ (uqok_setItemD h iid _)
    · exact ih _ (uqok_setItemD h iid _)

theorem purgeLoop_itemMap :
    ∀ (l : List Nat) (st : SDState) (p : Nat × Nat),
      p ∈ (purgeLoop st l).1.queryIdItemMap →
      p ∈ st.queryIdItemMap ∧ (p.2 ∈ l → p.2 ∈ (purgeLoop st l).2.1) := by
  intro l
  induction l with
  | nil =>
    intro st p hp
    exact ⟨hp, fun hmem => absurd hmem (by simp)⟩
  | cons iid rest ih =>
    intro st p hp
    simp only [purgeLoop] at hp ⊢
    by_cases hupd : (getItemD st iid).updated = false
    · rw [if_pos hupd] at hp ⊢
      by_cases hthr : (getItemD st iid).errorCount + 1 > st.unicastErrorThreshold
      · rw [if_pos hthr] at hp ⊢
        obtain ⟨h1, h2⟩ := ih _ p hp
        obtain ⟨h3, h4⟩ := stopItemQueries_no_iid h1
        refine ⟨h3, ?_⟩
        intro hmem
        rcases List.mem_cons.mp hmem with hmem | hmem
        · exact absurd hmem h4
        · exact h2 hmem
      · rw [if_neg hthr] at hp ⊢
        obtain ⟨h1, h2⟩ := ih _ p hp
        refine ⟨h1, ?_⟩
        intro hmem
        rcases List.mem_cons.mp hmem with hmem | hmem
        · exact hmem ▸ List.mem_cons_self _ _
        · exact List.mem_cons_of_mem _ (h2 hmem)
    · rw [if_neg hupd] at hp ⊢
      obtain ⟨h1, h2⟩ := ih _ p hp
      refine ⟨h1, ?_⟩
      intro hmem
      rcases List.mem_cons.mp hmem with hmem | hmem
      · exact hmem ▸ List.mem_cons_self _ _
      · exact List.mem_cons_of_mem _ (h2 hmem)

theorem purgeLoop_nil_of_nil (st : SDState) : purgeLoop st [] = (st, [], false) :=
  rfl

theorem invCore_purgeItems {st : SDState} (hc : InvCore st) (S : String) :
    InvCore (purgeItems st S) := by
  cases hg : mget st.serviceItemsMap S with
  | none =>
    rw [purgeItems, hg]
    exact hc
  | some iids =>
    rw [purgeItems, hg]
    simp only []
    by_cases hmod : (purgeLoop st iids).2.2 = true
    · rw [if_pos hmod]
      have hiids : iids ≠ [] := by
        intro he
        rw [he] at hmod
        exact Bool.noConfusion hmod
      have hfr1 : (purgeLoop st iids).1.serviceItemsMap = st.serviceItemsMap :=
        purgeLoop_serviceItemsMap iids st
      have hfr2 : (purgeLoop st iids).1.queryIdServiceMap =
          st.queryIdServiceMap := purgeLoop_queryIdServiceMap iids st
      have hc2 : InvCore (purgeLoop st iids).1 := invCore_purgeLoop iids st hc
      apply invCore_updateServiceType
      refine
        { ndItems := ?_, ndQS := hc2.ndQS, ndQI := hc2.ndQI,
          flagsNet := hc2.flagsNet, flagsJdns := hc2.flagsJdns,
          downEmpty := ?_, stopEmpty := ?_, ptrInj := hc2.ptrInj,
          ptrService := ?_, typeDom := hc2.typeDom, subTypes := hc2.subTypes,
          domDisj := hc2.domDisj,
          freshQT := hc2.freshQT, freshQS := hc2.freshQS,
          freshQI := hc2.freshQI, itemLive := ?_ }
      · exact nodup_mset hc2.ndItems S _
      · intro hn
        exfalso
        have hn2 : st.networkReady = false := by
          have h3 : (purgeLoop st iids).1.networkReady = st.networkReady :=
            purgeLoop_field (fun s => s.networkReady) (fun _ _ _ => rfl)
              (fun _ _ => rfl) iids st
          rw [← h3]
          exact hn
        obtain ⟨c1, c2, c3, c4⟩ := hc.downEmpty hn2
        exact hiids (c4 (S, iids) (mem_of_mget hg))
      · intro hn
        exfalso
        have hn2 : st.running = false := by
          have h3 : (purgeLoop st iids).1.running = st.running :=
            purgeLoop_field (fun s => s.running) (fun _ _ _ => rfl)
              (fun _ _ => rfl) iids st
          rw [← h3]
          exact hn
        obtain ⟨c1, c2, c3, c4⟩ := hc.stopEmpty hn2
        exact hiids (c4 (S, iids) (mem_of_mget hg))
      · intro p hp
        exact mget_mset_isSome (hc2.ptrService p hp)
      · intro p hp
        obtain ⟨hpold, hpin⟩ := purgeLoop_itemMap iids st p hp
        obtain ⟨q, hq, hqm⟩ := hc.itemLive p hpold
        by_cases hqS : q.1 = S
        · have hql : q.2 = iids := by
            have h3 := mget_of_mem_nodup hc.ndItems hq
            rw [hqS, hg] at h3
            injection h3 with hh
            exact hh.symm
          refine ⟨(S, (purgeLoop st iids).2.1), ?_, ?_⟩
          · refine mem_mset_self_of_mem ?_
            rw [hfr1, hg]
            rfl
          · exact hpin (hql ▸ hqm)
        · refine ⟨q, mem_mset_of_mem_ne ?_ hqS, hqm⟩
          rw [hfr1]
          exact hq
    · rw [if_neg hmod]
      exact invCore_purgeLoop iids st hc

theorem liveOkE_purgeItems {st : SDState} (hc : InvCore st) (S : String)
    (hle : ∀ p ∈ st.serviceItemsMap, p.2 ≠ [] → p.1 ≠ S →
      ∃ q ∈ st.queryIdServiceMap, q.2 = p.1) :
    ∀ p ∈ (purgeItems st S).serviceItemsMap, p.2 ≠ [] → p.1 ≠ S →
      ∃ q ∈ (purgeItems st S).queryIdServiceMap, q.2 = p.1 := by
  cases hg : mget st.serviceItemsMap S with
  | none =>
    rw [purgeItems, hg]
    exact hle
  | some iids =>
    rw [purgeItems, hg]
    simp only []
    by_cases hmod : (purgeLoop st iids).2.2 = true
    · rw [if_pos hmod]
      have hfr1 : (purgeLoop st iids).1.serviceItemsMap = st.serviceItemsMap :=
        purgeLoop_serviceItemsMap iids st
      have hfr2 : (purgeLoop st iids).1.queryIdServiceMap =
          st.queryIdServiceMap := purgeLoop_queryIdServiceMap iids st
      intro p hp hne hpS
      rw [updateServiceType_serviceItemsMap] at hp
      rw [updateServiceType_queryIdServiceMap]
      have hp2 : p ∈ mset (purgeLoop st iids).1.serviceItemsMap S
          (purgeLoop st iids).2.1 := hp
      rcases mem_mset_nodup (by rw [hfr1]; exact hc.ndItems) hp2 with hp3 | hp3
      · exact absurd (congrArg Prod.fst hp3) hpS
      · obtain ⟨hp4, hp5⟩ := hp3
        rw [hfr1] at hp4
        show ∃ q ∈ (mset (purgeLoop st iids).1.serviceItemsMap S
          (purgeLoop st iids).2.1, (purgeLoop st iids).1).2.queryIdServiceMap,
          q.2 = p.1
        rw [hfr2]
        exact hle p hp4 hne hpS
    · rw [if_neg hmod]
      intro p hp hne hpS
      rw [purgeLoop_serviceItemsMap] at hp
      show ∃ q ∈ (purgeLoop st iids).1.queryIdServiceMap, q.2 = p.1
      rw [purgeLoop_queryIdServiceMap]
      exact hle p hp hne hpS

theorem uqok_purgeItems {st : SDState} (hc : InvCore st) (hu : UqOk st)
    (S : String) : UqOk (purgeItems st S) := by
  cases hg : mget st.serviceItemsMap S with
  | none =>
    rw [purgeItems, hg]
    exact hu
  | some iids =>
    rw [purgeItems, hg]
    simp only []
    by_cases hmod : (purgeLoop st iids).2.2 = true
    · rw [if_pos hmod]
      have hfr1 : (purgeLoop st iids).1.serviceItemsMap = st.serviceItemsMap :=
        purgeLoop_serviceItemsMap iids st
      have hfr3 : (purgeLoop st iids).1.userQueries = st.userQueries :=
        purgeLoop_userQueries iids st
      apply uqok_updateServiceType_some
      · show mget (mset (purgeLoop st iids).1.serviceItemsMap S _) S = _
        exact mget_mset_self _ _ _
      · intro u hu2 hneS iid2 hiid2
        have hu3 : u ∈ st.userQueries := by
          rw [hfr3] at hu2
          exact hu2
        obtain ⟨l, hl, hm⟩ := hu u hu3 iid2 hiid2
        refine ⟨l, ?_, hm⟩
        show mget (mset (purgeLoop st iids).1.serviceItemsMap S _)
          u.serviceType = some l
        rw [mget_mset_ne _ _ hneS, hfr1]
        exact hl
    · rw [if_neg hmod]
      exact uqok_purgeLoop iids st hu

@[simp] theorem purgeItems_queryIdServiceMap (st : SDState) (S : String) :
    (purgeItems st S).queryIdServiceMap = st.queryIdServiceMap := by
  cases hg : mget st.serviceItemsMap S with
  | none => rw [purgeItems, hg]
  | some iids =>
    rw [purgeItems, hg]
    simp only []
    split
    · rw [updateServiceType_queryIdServiceMap]
      exact purgeLoop_queryIdServiceMap iids st
    · exact purgeLoop_queryIdServiceMap iids st

@[simp] theorem purgeItems_running (st : SDState) (S : String) :
    (purgeItems st S).running = st.running := by
  cases hg : mget st.serviceItemsMap S with
  | none => rw [purgeItems, hg]
  | some iids =>
    rw [purgeItems, hg]
    simp only []
    split
    · rw [updateServiceType_running]
      exact purgeLoop_field (fun s => s.running) (fun _ _ _ => rfl)
        (fun _ _ => rfl) iids st
    · exact purgeLoop_field (fun s => s.running) (fun _ _ _ => rfl)
        (fun _ _ => rfl) iids st

@[simp] theorem purgeItems_networkReady (st : SDState) (S : String) :
    (purgeItems st S).networkReady = st.networkReady := by
  cases hg : mget st.serviceItemsMap S with
  | none => rw [purgeItems, hg]
  | some iids =>
    rw [purgeItems, hg]
    simp only []
    split
    · rw [updateServiceType_networkReady]
      exact purgeLoop_field (fun s => s.networkReady) (fun _ _ _ => rfl)
        (fun _ _ => rfl) iids st
    · exact purgeLoop_field (fun s => s.networkReady) (fun _ _ _ => rfl)
        (fun _ _ => rfl) iids st

@[simp] theorem purgeItems_nextQueryId (st : SDState) (S : String) :
    (purgeItems st S).nextQueryId = st.nextQueryId := by
  cases hg : mget st.serviceItemsMap S with
  | none => rw [purgeItems, hg]
  | some iids =>
    rw [purgeItems, hg]
    simp only []
    split
    · rw [updateServiceType_nextQueryId]
      exact purgeLoop_field (fun s => s.nextQueryId) (fun _ _ _ => rfl)
        (fun _ _ => rfl) iids st
    · exact purgeLoop_field (fun s => s.nextQueryId) (fun _ _ _ => rfl)
        (fun _ _ => rfl) iids st

@[simp] theorem purgeItems_serviceTypeMap (st : SDState) (S : String) :
    (purgeItems st S).serviceTypeMap = st.serviceTypeMap := by
  cases hg : mget st.serviceItemsMap S with
  | none => rw [purgeItems, hg]
  | some iids =>
    rw [purgeItems, hg]
    simp only []
    split
    · rw [updateServiceType_serviceTypeMap]
      exact purgeLoop_field (fun s => s.serviceTypeMap) (fun _ _ _ => rfl)
        (fun _ _ => rfl) iids st
    · exact purgeLoop_field (fun s => s.serviceTypeMap) (fun _ _ _ => rfl)
        (fun _ _ => rfl) iids st

theorem purgeItems_itemsMap_isSome {st : SDState} {x : String} (S : String)
    (h : (mget st.serviceItemsMap x).isSome) :
    (mget (purgeItems st S).serviceItemsMap x).isSome := by
  cases hg : mget st.serviceItemsMap S with
  | none => rw [purgeItems, hg]; exact h
  | some iids =>
    rw [purgeItems, hg]
    simp only []
    split
    · rw [updateServiceType_serviceItemsMap]
      show (mget (mset (purgeLoop st iids).1.serviceItemsMap S _) x).isSome
      rw [purgeLoop_serviceItemsMap]
      exact mget_mset_isSome h
    · rw [purgeLoop_serviceItemsMap]
      exact h


/-! ### startQuery / stopQuery / refreshQuery -/

/-- `startQuery` is a no-op when a query for the type is already
registered (lines 681–688). -/
theorem startQuery_noop {st : SDState} {S : String}
    (h : ∃ p ∈ st.queryIdServiceMap, p.2 = S) : startQuery st S = st := by
  unfold startQuery
  rw [if_pos]
  obtain ⟨p, hp, hv⟩ := h
  exact List.any_eq_true.mpr ⟨p, hp, by simp [hv]⟩

/-- `stopQuery` is a no-op when no query for the type is registered
(lines 718–721). -/
theorem stopQuery_noop {st : SDState} {S : String}
    (h : ∀ p ∈ st.queryIdServiceMap, p.2 ≠ S) : stopQuery st S = st := by
  have hf : st.queryIdServiceMap.find? (fun p => p.2 == S) = none := by
    rw [List.find?_eq_none]
    intro p hp
    simp [h p hp]
  rw [stopQuery, hf]

theorem inv_startQuery {st : SDState} (h : Inv st) {S : String}
    (hrun : st.running = true) (hnet : st.networkReady = true)
    (hS : (mget st.serviceItemsMap S).isSome) : Inv (startQuery st S) := by
  unfold startQuery
  split
  · exact h
  · rename_i hnone
    have hnoS : ∀ p ∈ st.queryIdServiceMap, p.2 ≠ S := by
      intro p hp he
      exact hnone (List.any_eq_true.mpr ⟨p, hp, by simp [he]⟩)
    obtain ⟨hc, hlv, hu⟩ := h
    refine ⟨?_, ?_, ?_⟩
    · refine
        { ndItems := hc.ndItems, ndQS := nodup_mset hc.ndQS _ _,
          ndQI := hc.ndQI, flagsNet := hc.flagsNet, flagsJdns := hc.flagsJdns,
          downEmpty := ?_, stopEmpty := ?_, ptrInj := ?_, ptrService := ?_,
          typeDom := ?_, subTypes := ?_, domDisj := ?_,
          freshQT := ?_, freshQS := ?_, freshQI := ?_, itemLive := hc.itemLive }
      · intro hn
        have hn2 : st.networkReady = false := hn
        rw [hnet] at hn2
        exact Bool.noConfusion hn2
      · intro hn
        have hn2 : st.running = false := hn
        rw [hrun] at hn2
        exact Bool.noConfusion hn2
      · intro p hp q hq hpq
        rcases mem_mset_nodup hc.ndQS hp with hp2 | hp2 <;>
          rcases mem_mset_nodup hc.ndQS hq with hq2 | hq2
        · rw [hp2, hq2]
        · exfalso
          have hqS : q.2 = S := by rw [← hpq, hp2]
          exact hnoS q hq2.1 hqS
        · exfalso
          have hpS : p.2 = S := by rw [hpq, hq2]
          exact hnoS p hp2.1 hpS
        · exact hc.ptrInj p hp2.1 q hq2.1 hpq
      · intro p hp
        rcases mem_mset_nodup hc.ndQS hp with hp2 | hp2
        · rw [hp2]
          exact hS
        · exact hc.ptrService p hp2.1
      · intro p hp
        rcases mem_mset hp with hp2 | hp2
        · left
          rw [hp2]
          show (mget (mset st.queryIdServiceMap st.nextQueryId S)
            st.nextQueryId).isSome
          rw [mget_mset_self]
          rfl
        · have hne : p.1 ≠ st.nextQueryId := by
            intro he
            have h3 := hc.freshQT p hp2
            rw [he] at h3
            exact absurd h3 (lt_irrefl _)
          rcases hc.typeDom p hp2 with hs | hi
          · left
            show (mget (mset st.queryIdServiceMap st.nextQueryId S) p.1).isSome
            rw [mget_mset_ne _ _ hne]
            exact hs
          · right
            exact hi
      · intro p hp
        have hne : p.1 ≠ st.nextQueryId := by
          intro he
          have h3 := hc.freshQI p hp
          rw [he] at h3
          exact absurd h3 (lt_irrefl _)
        have hgoal := hc.subTypes p hp
        show mget (mset st.queryIdTypeMap st.nextQueryId _) p.1 = _ ∨
          mget (mset st.queryIdTypeMap st.nextQueryId _) p.1 = _ ∨
          mget (mset st.queryIdTypeMap st.nextQueryId _) p.1 = _
        rw [mget_mset_ne _ _ hne]
        exact hgoal
      · intro id hid
        obtain ⟨hs, hi⟩ := hid
        by_cases hide : id = st.nextQueryId
        · rw [hide] at hi
          cases hg : mget st.queryIdItemMap st.nextQueryId with
          | none => rw [hg] at hi; exact Bool.noConfusion hi
          | some v =>
            have h3 : st.nextQueryId < st.nextQueryId :=
              hc.freshQI (st.nextQueryId, v) (mem_of_mget hg)
            exact absurd h3 (lt_irrefl _)
        · have hs2 : (mget st.queryIdServiceMap id).isSome := by
            have h4 : (mget (mset st.queryIdServiceMap st.nextQueryId S)
                id).isSome := hs
            rw [mget_mset_ne _ _ hide] at h4
            exact h4
          exact hc.domDisj id ⟨hs2, hi⟩
      · intro p hp
        rcases mem_mset hp with hp2 | hp2
        · rw [hp2]
          exact Nat.lt_succ_self _
        · exact Nat.lt_trans (hc.freshQT p hp2) (Nat.lt_succ_self _)
      · intro p hp
        rcases mem_mset hp with hp2 | hp2
        · rw [hp2]
          exact Nat.lt_succ_self _
        · exact Nat.lt_trans (hc.freshQS p hp2) (Nat.lt_succ_self _)
      · intro p hp
        exact Nat.lt_trans (hc.freshQI p hp) (Nat.lt_succ_self _)
    · intro p hp hne
      obtain ⟨q, hq, hqv⟩ := hlv p hp hne
      have hqn : q.1 ≠ st.nextQueryId := by
        intro he
        have h3 := hc.freshQS q hq
        rw [he] at h3
        exact absurd h3 (lt_irrefl _)
      exact ⟨q, mem_mset_of_mem_ne hq hqn, hqv⟩
    · exact hu


/-- Removing one registered scan (cancel + drop both registry entries)
preserves the core invariant. -/
theorem invCore_unreg {st : SDState} (hc : InvCore st) {p0 : Nat × String}
    (hp0mem : p0 ∈ st.queryIdServiceMap) :
    InvCore { st with
      cancelLog := st.cancelLog ++ [p0.1],
      queryIdTypeMap := mdel st.queryIdTypeMap p0.1,
      queryIdServiceMap := mdel st.queryIdServiceMap p0.1 } := by
  refine
    { ndItems := hc.ndItems, ndQS := nodup_mdel hc.ndQS _,
      ndQI := hc.ndQI, flagsNet := hc.flagsNet, flagsJdns := hc.flagsJdns,
      downEmpty := ?_, stopEmpty := ?_, ptrInj := ?_, ptrService := ?_,
      typeDom := ?_, subTypes := ?_, domDisj := ?_,
      freshQT := ?_, freshQS := ?_, freshQI := hc.freshQI,
      itemLive := hc.itemLive }
  · intro hn
    exfalso
    obtain ⟨c1, c2, c3, c4⟩ := hc.downEmpty hn
    rw [c2] at hp0mem
    simp at hp0mem
  · intro hn
    exfalso
    obtain ⟨c1, c2, c3, c4⟩ := hc.stopEmpty hn
    rw [c2] at hp0mem
    simp at hp0mem
  · intro p hp q hq hpq
    exact hc.ptrInj p (mem_mdel hp).1 q (mem_mdel hq).1 hpq
  · intro p hp
    exact hc.ptrService p (mem_mdel hp).1
  · intro p hp
    obtain ⟨hpm, hpne⟩ := mem_mdel hp
    rcases hc.typeDom p hpm with hs | hi
    · left
      show (mget (mdel st.queryIdServiceMap p0.1) p.1).isSome
      rw [mget_mdel_ne _ hpne]
      exact hs
    · right
      exact hi
  · intro p hp
    have hne : p.1 ≠ p0.1 := by
      intro he
      apply hc.domDisj p0.1
      refine ⟨mget_isSome_of_mem hp0mem, ?_⟩
      rw [← he]
      exact mget_isSome_of_mem hp
    have hgoal := hc.subTypes p hp
    show mget (mdel st.queryIdTypeMap p0.1) p.1 = _ ∨
      mget (mdel st.queryIdTypeMap p0.1) p.1 = _ ∨
      mget (mdel st.queryIdTypeMap p0.1) p.1 = _
    rw [mget_mdel_ne _ hne]
    exact hgoal
  · intro id hid
    obtain ⟨hs, hi⟩ := hid
    by_cases hide : id = p0.1
    · have h4 : (mget (mdel st.queryIdServiceMap p0.1) id).isSome := hs
      rw [hide, mget_mdel_self] at h4
      exact Bool.noConfusion h4
    · have h4 : (mget (mdel st.queryIdServiceMap p0.1) id).isSome := hs
      rw [mget_mdel_ne _ hide] at h4
      exact hc.domDisj id ⟨h4, hi⟩
  · intro p hp
    exact hc.freshQT p (mem_mdel hp).1
  · intro p hp
    exact hc.freshQS p (mem_mdel hp).1

theorem inv_stopQuery {st : SDState} (h : Inv st) (S : String) :
    Inv (stopQuery st S) := by
  cases hf : st.queryIdServiceMap.find? (fun p => p.2 == S) with
  | none =>
    rw [stopQuery, hf]
    exact h
  | some p0 =>
    rw [stopQuery, hf]
    simp only []
    obtain ⟨hc, hlv, hu⟩ := h
    have hp0mem : p0 ∈ st.queryIdServiceMap := List.mem_of_find?_eq_some hf
    have hp0S : p0.2 = S := by
      have h3 := List.find?_some hf
      simpa using h3
    have hc2 : InvCore { st with
        cancelLog := st.cancelLog ++ [p0.1],
        queryIdTypeMap := mdel st.queryIdTypeMap p0.1,
        queryIdServiceMap := mdel st.queryIdServiceMap p0.1 } :=
      invCore_unreg hc hp0mem
    have hu2 : UqOk { st with
        cancelLog := st.cancelLog ++ [p0.1],
        queryIdTypeMap := mdel st.queryIdTypeMap p0.1,
        queryIdServiceMap := mdel st.queryIdServiceMap p0.1 } := hu
    have hnd2 : NodupKeys ({ st with
        cancelLog := st.cancelLog ++ [p0.1],
        queryIdTypeMap := mdel st.queryIdTypeMap p0.1,
        queryIdServiceMap := mdel st.queryIdServiceMap p0.1 } :
          SDState).serviceItemsMap := hc.ndItems
    refine ⟨invCore_clearItems hc2 S, ?_, uqok_clearItems hu2 S⟩
    apply liveOk_clearItems S hnd2
    intro p hp hne hpS
    obtain ⟨q, hq, hqv⟩ := hlv p hp hne
    have hqne : q.1 ≠ p0.1 := by
      intro he
      have hq1 : mget st.queryIdServiceMap q.1 = some q.2 :=
        mget_of_mem_nodup hc.ndQS hq
      have hq2 : mget st.queryIdServiceMap p0.1 = some p0.2 :=
        mget_of_mem_nodup hc.ndQS hp0mem
      rw [he, hq2] at hq1
      have : p0.2 = q.2 := by injection hq1
      rw [hqv, hp0S] at this
      exact hpS this.symm
    exact ⟨q, mem_mdel_of_mem hq hqne, hqv⟩

@[simp] theorem stopQuery_running (st : SDState) (S : String) :
    (stopQuery st S).running = st.running := by
  cases hf : st.queryIdServiceMap.find? (fun p => p.2 == S) with
  | none => rw [stopQuery, hf]
  | some p0 =>
    rw [stopQuery, hf]
    simp only []
    rw [clearItems_running]

@[simp] theorem stopQuery_networkReady (st : SDState) (S : String) :
    (stopQuery st S).networkReady = st.networkReady := by
  cases hf : st.queryIdServiceMap.find? (fun p => p.2 == S) with
  | none => rw [stopQuery, hf]
  | some p0 =>
    rw [stopQuery, hf]
    simp only []
    rw [clearItems_networkReady]

@[simp] theorem stopQuery_lookupReady (st : SDState) (S : String) :
    (stopQuery st S).lookupReady = st.lookupReady := by
  cases hf : st.queryIdServiceMap.find? (fun p => p.2 == S) with
  | none => rw [stopQuery, hf]
  | some p0 =>
    rw [stopQuery, hf]
    simp only []
    rw [clearItems_lookupReady]

@[simp] theorem stopQuery_jdnsActive (st : SDState) (S : String) :
    (stopQuery st S).jdnsActive = st.jdnsActive := by
  cases hf : st.queryIdServiceMap.find? (fun p => p.2 == S) with
  | none => rw [stopQuery, hf]
  | some p0 =>
    rw [stopQuery, hf]
    simp only []
    rw [clearItems_jdnsActive]

@[simp] theorem stopQuery_lookupMode (st : SDState) (S : String) :
    (stopQuery st S).lookupMode = st.lookupMode := by
  cases hf : st.queryIdServiceMap.find? (fun p => p.2 == S) with
  | none => rw [stopQuery, hf]
  | some p0 =>
    rw [stopQuery, hf]
    simp only []
    rw [clearItems_lookupMode]

@[simp] theorem stopQuery_timerActive (st : SDState) (S : String) :
    (stopQuery st S).timerActive = st.timerActive := by
  cases hf : st.queryIdServiceMap.find? (fun p => p.2 == S) with
  | none => rw [stopQuery, hf]
  | some p0 =>
    rw [stopQuery, hf]
    simp only []
    rw [clearItems_timerActive]

/-- Service-map entries surviving `stopQuery`. -/
theorem stopQuery_serviceMap_sub {st : SDState} {S : String} {q : Nat × String}
    (hq : q ∈ (stopQuery st S).queryIdServiceMap) :
    q ∈ st.queryIdServiceMap := by
  cases hf : st.queryIdServiceMap.find? (fun p => p.2 == S) with
  | none =>
    rw [stopQuery, hf] at hq
    exact hq
  | some p0 =>
    rw [stopQuery, hf] at hq
    simp only [] at hq
    rw [clearItems_queryIdServiceMap] at hq
    exact (mem_mdel hq).1

/-- After `stopQuery st S` no query for `S` remains (uniqueness from the
invariant). -/
theorem stopQuery_no_val {st : SDState} (hc : InvCore st) (S : String) :
    ∀ q ∈ (stopQuery st S).queryIdServiceMap, q.2 ≠ S := by
  cases hf : st.queryIdServiceMap.find? (fun p => p.2 == S) with
  | none =>
    rw [stopQuery, hf]
    intro q hq he
    have h3 := List.find?_eq_none.mp hf q hq
    simp [he] at h3
  | some p0 =>
    rw [stopQuery, hf]
    simp only []
    intro q hq he
    rw [clearItems_queryIdServiceMap] at hq
    obtain ⟨hqm, hqne⟩ := mem_mdel hq
    have hp0mem : p0 ∈ st.queryIdServiceMap := List.mem_of_find?_eq_some hf
    have hp0S : p0.2 = S := by
      have h3 := List.find?_some hf
      simpa using h3
    have : q = p0 := hc.ptrInj q hqm p0 hp0mem (by rw [he, hp0S])
    exact hqne (by rw [this])

/-- The cancelled PTR id lands in the log. -/
theorem stopQuery_cancel {st : SDState} (hc : InvCore st) {S : String}
    {q : Nat × String} (hq : q ∈ st.queryIdServiceMap) (hv : q.2 = S) :
    q.1 ∈ (stopQuery st S).cancelLog := by
  cases hf : st.queryIdServiceMap.find? (fun p => p.2 == S) with
  | none =>
    exfalso
    have h3 := List.find?_eq_none.mp hf q hq
    simp [hv] at h3
  | some p0 =>
    rw [stopQuery, hf]
    simp only []
    have hp0mem : p0 ∈ st.queryIdServiceMap := List.mem_of_find?_eq_some hf
    have hp0S : p0.2 = S := by
      have h3 := List.find?_some hf
      simpa using h3
    have hqp0 : q = p0 := hc.ptrInj q hq p0 hp0mem (by rw [hv, hp0S])
    apply clearItems_cancelLog_mono
    subst hqp0
    exact List.mem_append_right _ (List.mem_singleton.mpr rfl)

theorem stopQuery_cancelLog_mono {st : SDState} {x : Nat} (S : String)
    (h : x ∈ st.cancelLog) : x ∈ (stopQuery st S).cancelLog := by
  cases hf : st.queryIdServiceMap.find? (fun p => p.2 == S) with
  | none =>
    rw [stopQuery, hf]
    exact h
  | some p0 =>
    rw [stopQuery, hf]
    simp only []
    apply clearItems_cancelLog_mono
    exact List.mem_append_left _ h

/-- Instance tables after `stopQuery`: the stopped type is emptied when a
query existed; others are untouched. -/
theorem stopQuery_itemsMap_mget_ne {st : SDState} {S x : String} (hx : x ≠ S) :
    mget (stopQuery st S).serviceItemsMap x = mget st.serviceItemsMap x := by
  cases hf : st.queryIdServiceMap.find? (fun p => p.2 == S) with
  | none => rw [stopQuery, hf]
  | some p0 =>
    rw [stopQuery, hf]
    simp only []
    rw [clearItems_serviceItemsMap_mget, if_neg hx]

/-- With the invariant, any list still stored under the stopped type is
empty afterwards. -/
theorem stopQuery_list_empty {st : SDState} (hInv : Inv st) {S : String}
    {l : List Nat} (hl : mget (stopQuery st S).serviceItemsMap S = some l) :
    l = [] := by
  cases hf : st.queryIdServiceMap.find? (fun p => p.2 == S) with
  | none =>
    rw [stopQuery, hf] at hl
    by_contra hne
    obtain ⟨q, hq, hqv⟩ := hInv.2.1 (S, l) (mem_of_mget hl) hne
    have h3 := List.find?_eq_none.mp hf q hq
    simp [hqv] at h3
  | some p0 =>
    rw [stopQuery, hf] at hl
    simp only [] at hl
    rw [clearItems_serviceItemsMap_mget, if_pos rfl] at hl
    cases hg : mget st.serviceItemsMap S with
    | none =>
      rw [show ({ st with
          cancelLog := st.cancelLog ++ [p0.1],
          queryIdTypeMap := mdel st.queryIdTypeMap p0.1,
          queryIdServiceMap :=
            mdel st.queryIdServiceMap p0.1 } : SDState).serviceItemsMap =
        st.serviceItemsMap from rfl, hg] at hl
      exact Option.noConfusion hl
    | some l2 =>
      rw [show ({ st with
          cancelLog := st.cancelLog ++ [p0.1],
          queryIdTypeMap := mdel st.queryIdTypeMap p0.1,
          queryIdServiceMap :=
            mdel st.queryIdServiceMap p0.1 } : SDState).serviceItemsMap =
        st.serviceItemsMap from rfl, hg] at hl
      simp only [Option.map_some'] at hl
      injection hl with hh
      exact hh.symm

/-- Registering a fresh scan id for a type with no live scan preserves the
invariant (common tail of `startQuery` and `refreshQuery`). -/
theorem inv_insertScan {st : SDState} {S : String} (hc : InvCore st)
    (hle : ∀ p ∈ st.serviceItemsMap, p.2 ≠ [] → p.1 ≠ S →
      ∃ q ∈ st.queryIdServiceMap, q.2 = p.1)
    (hu : UqOk st) (hnoS : ∀ p ∈ st.queryIdServiceMap, p.2 ≠ S)
    (hrun : st.running = true) (hnet : st.networkReady = true)
    (hS : (mget st.serviceItemsMap S).isSome) (qt : RecType) :
    Inv { st with
      nextQueryId := st.nextQueryId + 1,
      queryIdTypeMap := mset st.queryIdTypeMap st.nextQueryId qt,
      queryIdServiceMap := mset st.queryIdServiceMap st.nextQueryId S } := by
  refine ⟨?_, ?_, ?_⟩
  · refine
      { ndItems := hc.ndItems, ndQS := nodup_mset hc.ndQS _ _,
        ndQI := hc.ndQI, flagsNet := hc.flagsNet, flagsJdns := hc.flagsJdns,
        downEmpty := ?_, stopEmpty := ?_, ptrInj := ?_, ptrService := ?_,
        typeDom := ?_, subTypes := ?_, domDisj := ?_,
        freshQT := ?_, freshQS := ?_, freshQI := ?_, itemLive := hc.itemLive }
    · intro hn
      have hn2 : st.networkReady = false := hn
      rw [hnet] at hn2
      exact Bool.noConfusion hn2
    · intro hn
      have hn2 : st.running = false := hn
      rw [hrun] at hn2
      exact Bool.noConfusion hn2
    · intro p hp q hq hpq
      rcases mem_mset_nodup hc.ndQS hp with hp2 | hp2 <;>
        rcases mem_mset_nodup hc.ndQS hq with hq2 | hq2
      · rw [hp2, hq2]
      · exfalso
        have hqS : q.2 = S := by rw [← hpq, hp2]
        exact hnoS q hq2.1 hqS
      · exfalso
        have hpS : p.2 = S := by rw [hpq, hq2]
        exact hnoS p hp2.1 hpS
      · exact hc.ptrInj p hp2.1 q hq2.1 hpq
    · intro p hp
      rcases mem_mset_nodup hc.ndQS hp with hp2 | hp2
      · rw [hp2]
        exact hS
      · exact hc.ptrService p hp2.1
    · intro p hp
      rcases mem_mset hp with hp2 | hp2
      · left
        rw [hp2]
        show (mget (mset st.queryIdServiceMap st.nextQueryId S)
          st.nextQueryId).isSome
        rw [mget_mset_self]
        rfl
      · have hne : p.1 ≠ st.nextQueryId := by
          intro he
          have h3 := hc.freshQT p hp2
          rw [he] at h3
          exact absurd h3 (lt_irrefl _)
        rcases hc.typeDom p hp2 with hs | hi
        · left
          show (mget (mset st.queryIdServiceMap st.nextQueryId S) p.1).isSome
          rw [mget_mset_ne _ _ hne]
          exact hs
        · right
          exact hi
    · intro p hp
      have hne : p.1 ≠ st.nextQueryId := by
        intro he
        have h3 := hc.freshQI p hp
        rw [he] at h3
        exact absurd h3 (lt_irrefl _)
      have hgoal := hc.subTypes p hp
      show mget (mset st.queryIdTypeMap st.nextQueryId _) p.1 = _ ∨
        mget (mset st.queryIdTypeMap st.nextQueryId _) p.1 = _ ∨
        mget (mset st.queryIdTypeMap st.nextQueryId _) p.1 = _
      rw [mget_mset_ne _ _ hne]
      exact hgoal
    · intro id hid
      obtain ⟨hs, hi⟩ := hid
      by_cases hide : id = st.nextQueryId
      · rw [hide] at hi
        cases hg : mget st.queryIdItemMap st.nextQueryId with
        | none => rw [hg] at hi; exact Bool.noConfusion hi
        | some v =>
          have h3 : st.nextQueryId < st.nextQueryId :=
            hc.freshQI (st.nextQueryId, v) (mem_of_mget hg)
          exact absurd h3 (lt_irrefl _)
      · have hs2 : (mget st.queryIdServiceMap id).isSome := by
          have h4 : (mget (mset st.queryIdServiceMap st.nextQueryId S)
              id).isSome := hs
          rw [mget_mset_ne _ _ hide] at h4
          exact h4
        exact hc.domDisj id ⟨hs2, hi⟩
    · intro p hp
      rcases mem_mset hp with hp2 | hp2
      · rw [hp2]
        exact Nat.lt_succ_self _
      · exact Nat.lt_trans (hc.freshQT p hp2) (Nat.lt_succ_self _)
    · intro p hp
      rcases mem_mset hp with hp2 | hp2
      · rw [hp2]
        exact Nat.lt_succ_self _
      · exact Nat.lt_trans (hc.freshQS p hp2) (Nat.lt_succ_self _)
    · intro p hp
      exact Nat.lt_trans (hc.freshQI p hp) (Nat.lt_succ_self _)
  · intro p hp hne
    by_cases hpS : p.1 = S
    · refine ⟨(st.nextQueryId, S), ?_, hpS.symm⟩
      show (st.nextQueryId, S) ∈ mset st.queryIdServiceMap st.nextQueryId S
      exact mem_mset_self _ _ _
    · obtain ⟨q, hq, hqv⟩ := hle p hp hne hpS
      have hqn : q.1 ≠ st.nextQueryId := by
        intro he
        have h3 := hc.freshQS q hq
        rw [he] at h3
        exact absurd h3 (lt_irrefl _)
      exact ⟨q, mem_mset_of_mem_ne hq hqn, hqv⟩
  · exact hu

theorem inv_refreshQuery {st : SDState} (h : Inv st) (S : String) :
    Inv (refreshQuery st S) := by
  cases hf : st.queryIdServiceMap.find? (fun p => p.2 == S) with
  | none =>
    rw [refreshQuery, hf]
    exact h
  | some p0 =>
    rw [refreshQuery, hf]
    simp only []
    obtain ⟨hc, hlv, hu⟩ := h
    have hp0mem : p0 ∈ st.queryIdServiceMap := List.mem_of_find?_eq_some hf
    have hp0S : p0.2 = S := by
      have h3 := List.find?_some hf
      simpa using h3
    have hc2 : InvCore { st with
        cancelLog := st.cancelLog ++ [p0.1],
        queryIdTypeMap := mdel st.queryIdTypeMap p0.1,
        queryIdServiceMap := mdel st.queryIdServiceMap p0.1 } :=
      invCore_unreg hc hp0mem
    have hu2 : UqOk { st with
        cancelLog := st.cancelLog ++ [p0.1],
        queryIdTypeMap := mdel st.queryIdTypeMap p0.1,
        queryIdServiceMap := mdel st.queryIdServiceMap p0.1 } := hu
    have hle2 : ∀ p ∈ ({ st with
        cancelLog := st.cancelLog ++ [p0.1],
        queryIdTypeMap := mdel st.queryIdTypeMap p0.1,
        queryIdServiceMap :=
          mdel st.queryIdServiceMap p0.1 } : SDState).serviceItemsMap,
        p.2 ≠ [] → p.1 ≠ S →
        ∃ q ∈ ({ st with
          cancelLog := st.cancelLog ++ [p0.1],
          queryIdTypeMap := mdel st.queryIdTypeMap p0.1,
          queryIdServiceMap :=
            mdel st.queryIdServiceMap p0.1 } : SDState).queryIdServiceMap,
          q.2 = p.1 := by
      intro p hp hne hpS
      obtain ⟨q, hq, hqv⟩ := hlv p hp hne
      have hqne : q.1 ≠ p0.1 := by
        intro he
        have hq1 : mget st.queryIdServiceMap q.1 = some q.2 :=
          mget_of_mem_nodup hc.ndQS hq
        have hq2 : mget st.queryIdServiceMap p0.1 = some p0.2 :=
          mget_of_mem_nodup hc.ndQS hp0mem
        rw [he, hq2] at hq1
        have h5 : p0.2 = q.2 := by injection hq1
        rw [hqv, hp0S] at h5
        exact hpS h5.symm
      exact ⟨q, mem_mdel_of_mem hq hqne, hqv⟩
    have hrun : st.running = true := by
      cases hr : st.running with
      | false =>
        exfalso
        obtain ⟨c1, c2, c3, c4⟩ := hc.stopEmpty hr
        rw [c2] at hp0mem
        simp at hp0mem
      | true => rfl
    have hnet : st.networkReady = true := by
      cases hr : st.networkReady with
      | false =>
        exfalso
        obtain ⟨c1, c2, c3, c4⟩ := hc.downEmpty hr
        rw [c2] at hp0mem
        simp at hp0mem
      | true => rfl
    have hc3 := invCore_purgeItems hc2 S
    have hle3 := liveOkE_purgeItems hc2 S hle2
    have hu3 := uqok_purgeItems hc2 hu2 S
    have hnoS3 : ∀ p ∈ (purgeItems { st with
        cancelLog := st.cancelLog ++ [p0.1],
        queryIdTypeMap := mdel st.queryIdTypeMap p0.1,
        queryIdServiceMap :=
          mdel st.queryIdServiceMap p0.1 } S).queryIdServiceMap,
        p.2 ≠ S := by
      intro p hp hps
      rw [purgeItems_queryIdServiceMap] at hp
      have hp2 : p ∈ mdel st.queryIdServiceMap p0.1 := hp
      obtain ⟨hpm, hpne⟩ := mem_mdel hp2
      have h6 := hc.ptrInj p hpm p0 hp0mem (by rw [hps, hp0S])
      exact hpne (congrArg Prod.fst h6)
    have hrun3 : (purgeItems { st with
        cancelLog := st.cancelLog ++ [p0.1],
        queryIdTypeMap := mdel st.queryIdTypeMap p0.1,
        queryIdServiceMap :=
          mdel st.queryIdServiceMap p0.1 } S).running = true := by
      rw [purgeItems_running]
      exact hrun
    have hnet3 : (purgeItems { st with
        cancelLog := st.cancelLog ++ [p0.1],
        queryIdTypeMap := mdel st.queryIdTypeMap p0.1,
        queryIdServiceMap :=
          mdel st.queryIdServiceMap p0.1 } S).networkReady = true := by
      rw [purgeItems_networkReady]
      exact hnet
    have hSm : (mget ({ st with
        cancelLog := st.cancelLog ++ [p0.1],
        queryIdTypeMap := mdel st.queryIdTypeMap p0.1,
        queryIdServiceMap :=
          mdel st.queryIdServiceMap p0.1 } : SDState).serviceItemsMap
        S).isSome := by
      show (mget st.serviceItemsMap S).isSome
      rw [← hp0S]
      exact hc.ptrService p0 hp0mem
    have hS3 := purgeItems_itemsMap_isSome S hSm
    exact inv_insertScan hc3 hle3 hu3 hnoS3 hrun3 hnet3 hS3 _


/-! ## Invariant preservation: folds and simple field changes -/

theorem inv_of_timer {st : SDState} (h : Inv st) (b : Bool) :
    Inv { st with timerActive := b } := by
  obtain ⟨hc, hlv, hu⟩ := h
  refine ⟨?_, hlv, hu⟩
  exact
    { ndItems := hc.ndItems, ndQS := hc.ndQS, ndQI := hc.ndQI,
      flagsNet := hc.flagsNet, flagsJdns := hc.flagsJdns,
      downEmpty := hc.downEmpty, stopEmpty := hc.stopEmpty,
      ptrInj := hc.ptrInj, ptrService := hc.ptrService, typeDom := hc.typeDom,
      subTypes := hc.subTypes, domDisj := hc.domDisj, freshQT := hc.freshQT,
      freshQS := hc.freshQS, freshQI := hc.freshQI,
      itemLive := hc.itemLive }

theorem inv_of_threshold {st : SDState} (h : Inv st) (n : Nat) :
    Inv { st with unicastErrorThreshold := n } := by
  obtain ⟨hc, hlv, hu⟩ := h
  refine ⟨?_, hlv, hu⟩
  exact
    { ndItems := hc.ndItems, ndQS := hc.ndQS, ndQI := hc.ndQI,
      flagsNet := hc.flagsNet, flagsJdns := hc.flagsJdns,
      downEmpty := hc.downEmpty, stopEmpty := hc.stopEmpty,
      ptrInj := hc.ptrInj, ptrService := hc.ptrService, typeDom := hc.typeDom,
      subTypes := hc.subTypes, domDisj := hc.domDisj, freshQT := hc.freshQT,
      freshQS := hc.freshQS, freshQI := hc.freshQI,
      itemLive := hc.itemLive }

theorem inv_of_filter {st : SDState} (h : Inv st) (f : Filter) :
    Inv { st with filter := f } := by
  obtain ⟨hc, hlv, hu⟩ := h
  refine ⟨?_, hlv, hu⟩
  exact
    { ndItems := hc.ndItems, ndQS := hc.ndQS, ndQI := hc.ndQI,
      flagsNet := hc.flagsNet, flagsJdns := hc.flagsJdns,
      downEmpty := hc.downEmpty, stopEmpty := hc.stopEmpty,
      ptrInj := hc.ptrInj, ptrService := hc.ptrService, typeDom := hc.typeDom,
      subTypes := hc.subTypes, domDisj := hc.domDisj, freshQT := hc.freshQT,
      freshQS := hc.freshQS, freshQI := hc.freshQI,
      itemLive := hc.itemLive }

theorem inv_of_freshUq {st : SDState} (h : Inv st) {uqs : List UserQuery}
    (hup : ∀ u ∈ uqs, u.items = []) :
    Inv { st with userQueries := uqs } := by
  obtain ⟨hc, hlv, hu⟩ := h
  refine ⟨invCore_of_uq hc uqs, hlv, ?_⟩
  intro u hu2 iid hiid
  rw [hup u hu2] at hiid
  simp at hiid

theorem inv_of_running_true {st : SDState} (h : Inv st) :
    Inv { st with running := true } := by
  obtain ⟨hc, hlv, hu⟩ := h
  refine ⟨?_, hlv, hu⟩
  refine
    { ndItems := hc.ndItems, ndQS := hc.ndQS, ndQI := hc.ndQI,
      flagsNet := hc.flagsNet, flagsJdns := hc.flagsJdns,
      downEmpty := hc.downEmpty, stopEmpty := ?_,
      ptrInj := hc.ptrInj, ptrService := hc.ptrService, typeDom := hc.typeDom,
      subTypes := hc.subTypes, domDisj := hc.domDisj, freshQT := hc.freshQT,
      freshQS := hc.freshQS, freshQI := hc.freshQI, itemLive := hc.itemLive }
  intro hn
  exact Bool.noConfusion hn

theorem inv_foldRefresh (l : List String) {st : SDState} (h : Inv st) :
    Inv (l.foldl refreshQuery st) :=
  foldl_pred refreshQuery Inv (fun st2 S hs => inv_refreshQuery hs S) l st h

theorem inv_unicastLookup {st : SDState} (h : Inv st) :
    Inv (unicastLookup st) :=
  inv_foldRefresh _ h

theorem inv_updateNameServers {st : SDState} (h : Inv st) :
    Inv (updateNameServers st) := by
  unfold updateNameServers
  split
  · exact h
  · split
    · exact inv_unicastLookup h
    · exact h

theorem inv_updateAllServiceTypes {st : SDState} (h : Inv st) :
    Inv (updateAllServiceTypes st) :=
  foldl_pred updateServiceType Inv (fun st2 S hs => inv_updateServiceType hs S)
    _ st h

@[simp] theorem startQuery_serviceItemsMap (st : SDState) (S : String) :
    (startQuery st S).serviceItemsMap = st.serviceItemsMap := by
  unfold startQuery; split <;> rfl

@[simp] theorem startQuery_running (st : SDState) (S : String) :
    (startQuery st S).running = st.running := by
  unfold startQuery; split <;> rfl

@[simp] theorem startQuery_networkReady (st : SDState) (S : String) :
    (startQuery st S).networkReady = st.networkReady := by
  unfold startQuery; split <;> rfl

@[simp] theorem startQuery_userQueries (st : SDState) (S : String) :
    (startQuery st S).userQueries = st.userQueries := by
  unfold startQuery; split <;> rfl

theorem inv_foldStart (l : List String) : ∀ {st : SDState}, Inv st →
    st.running = true → st.networkReady = true →
    (∀ S ∈ l, (mget st.serviceItemsMap S).isSome) →
    Inv (l.foldl startQuery st) := by
  induction l with
  | nil => intro st h _ _ _; exact h
  | cons S rest ih =>
    intro st h hrun hnet hl
    rw [List.foldl_cons]
    apply ih
    · exact inv_startQuery h hrun hnet (hl S (List.mem_cons_self S rest))
    · rw [startQuery_running]; exact hrun
    · rw [startQuery_networkReady]; exact hnet
    · intro x hx
      rw [startQuery_serviceItemsMap]
      exact hl x (List.mem_cons_of_mem _ hx)

theorem inv_startQueries {st : SDState} (h : Inv st)
    (hrun : st.running = true) (hnet : st.networkReady = true) :
    Inv (startQueries st) := by
  apply inv_foldStart _ h hrun hnet
  intro S hS
  obtain ⟨p, hp, hpe⟩ := List.mem_map.mp hS
  rw [← hpe]
  exact mget_isSome_of_mem hp


/-! ### Flag equivariance of the stop pipeline

`stopQuery` never reads `running` or `timerActive`, so stopping commutes
with the flag writes done by `setRunning`. -/

theorem stopItemQueries_flags (st : SDState) (b c : Bool) (iid : Nat) :
    stopItemQueries { st with running := b, timerActive := c } iid =
      { stopItemQueries st iid with running := b, timerActive := c } := rfl

theorem foldl_stopItemQueries_flags (l : List Nat) :
    ∀ (st : SDState) (b c : Bool),
    l.foldl stopItemQueries { st with running := b, timerActive := c } =
      { l.foldl stopItemQueries st with running := b, timerActive := c } := by
  induction l with
  | nil => intro st b c; rfl
  | cons i rest ih =>
    intro st b c
    simp only [List.foldl_cons]
    rw [stopItemQueries_flags]
    exact ih (stopItemQueries st i) b c

theorem updateServiceType_flags (st : SDState) (b c : Bool) (S : String) :
    updateServiceType { st with running := b, timerActive := c } S =
      { updateServiceType st S with running := b, timerActive := c } := by
  unfold updateServiceType
  cases hg : mget st.serviceItemsMap S <;> simp only [hg] <;> rfl

theorem clearItems_flags (st : SDState) (b c : Bool) (S : String) :
    clearItems { st with running := b, timerActive := c } S =
      { clearItems st S with running := b, timerActive := c } := by
  unfold clearItems
  cases hg : mget st.serviceItemsMap S with
  | none => simp only [hg]
  | some iids =>
    simp only [hg]
    rw [foldl_stopItemQueries_flags]
    exact updateServiceType_flags
      { iids.foldl stopItemQueries st with
        serviceItemsMap :=
          mset (iids.foldl stopItemQueries st).serviceItemsMap S [] } b c S

theorem stopQuery_flags (st : SDState) (b c : Bool) (S : String) :
    stopQuery { st with running := b, timerActive := c } S =
      { stopQuery st S with running := b, timerActive := c } := by
  unfold stopQuery
  cases hf : st.queryIdServiceMap.find? (fun p => p.2 == S) with
  | none => simp only [hf]
  | some p0 =>
    simp only [hf]
    exact clearItems_flags
      { st with
        cancelLog := st.cancelLog ++ [p0.1],
        queryIdTypeMap := mdel st.queryIdTypeMap p0.1,
        queryIdServiceMap := mdel st.queryIdServiceMap p0.1 } b c S

theorem foldl_stopQuery_flags (l : List String) :
    ∀ (st : SDState) (b c : Bool),
    l.foldl stopQuery { st with running := b, timerActive := c } =
      { l.foldl stopQuery st with running := b, timerActive := c } := by
  induction l with
  | nil => intro st b c; rfl
  | cons S rest ih =>
    intro st b c
    simp only [List.foldl_cons]
    rw [stopQuery_flags]
    exact ih (stopQuery st S) b c

theorem stopQueries_flags (st : SDState) (b c : Bool) :
    stopQueries { st with running := b, timerActive := c } =
      { stopQueries st with running := b, timerActive := c } := by
  unfold stopQueries
  exact foldl_stopQuery_flags _ st b c

/-! ### Stopping every query leaves a clean engine -/

theorem foldStop_clean (l : List String) : ∀ {st : SDState}, Inv st →
    (∀ q ∈ st.queryIdServiceMap, q.2 ∈ l) →
    (∀ p ∈ st.serviceItemsMap, p.1 ∉ l → p.2 = ([] : List Nat)) →
    Inv (l.foldl stopQuery st) ∧ Clean (l.foldl stopQuery st) := by
  induction l with
  | nil =>
    intro st h hq hp
    refine ⟨h, ?_, ?_, ?_, ?_⟩
    · apply eq_nil_of_forall_not_mem
      intro p hpm
      have hqe : st.queryIdServiceMap = [] :=
        eq_nil_of_forall_not_mem (fun q hq2 => by simpa using hq q hq2)
      rcases h.1.typeDom p hpm with hs | hi
      · rw [hqe] at hs
        exact Bool.noConfusion hs
      · obtain ⟨v, hv⟩ := Option.isSome_iff_exists.mp hi
        obtain ⟨q2, hq2, hq2m⟩ := h.1.itemLive (p.1, v) (mem_of_mget hv)
        rw [hp q2 hq2 (by simp)] at hq2m
        simp at hq2m
    · apply eq_nil_of_forall_not_mem
      intro q hq2
      simpa using hq q hq2
    · apply eq_nil_of_forall_not_mem
      intro p hpm
      obtain ⟨q2, hq2, hq2m⟩ := h.1.itemLive p hpm
      rw [hp q2 hq2 (by simp)] at hq2m
      simp at hq2m
    · intro p hpm
      exact hp p hpm (by simp)
  | cons S rest ih =>
    intro st h hq hp
    simp only [List.foldl_cons]
    apply ih (inv_stopQuery h S)
    · intro q hq2
      have hsub := stopQuery_serviceMap_sub hq2
      have hne := stopQuery_no_val h.1 S q hq2
      rcases List.mem_cons.mp (hq q hsub) with he | hm
      · exact absurd he hne
      · exact hm
    · intro p hp2 hnotin
      have hnd2 : NodupKeys (stopQuery st S).serviceItemsMap :=
        (inv_stopQuery h S).1.ndItems
      by_cases hpS : p.1 = S
      · have hm0 : mget (stopQuery st S).serviceItemsMap p.1 = some p.2 :=
          mget_of_mem_nodup hnd2 hp2
        rw [hpS] at hm0
        exact stopQuery_list_empty h hm0
      · have hm : mget (stopQuery st S).serviceItemsMap p.1 = some p.2 :=
          mget_of_mem_nodup hnd2 hp2
        rw [stopQuery_itemsMap_mget_ne hpS] at hm
        have hni : p.1 ∉ S :: rest := by
          intro hcon
          rcases List.mem_cons.mp hcon with he | hm2
          · exact hpS he
          · exact hnotin hm2
        exact hp (p.1, p.2) (mem_of_mget hm) hni

theorem stopQueries_clean {st : SDState} (h : Inv st) :
    Inv (stopQueries st) ∧ Clean (stopQueries st) := by
  unfold stopQueries
  refine foldStop_clean _ h ?_ ?_
  · intro q hq
    obtain ⟨l, hl⟩ := Option.isSome_iff_exists.mp (h.1.ptrService q hq)
    exact List.mem_map.mpr ⟨(q.2, l), mem_of_mget hl, rfl⟩
  · intro p hpm hnot
    exact absurd (List.mem_map.mpr ⟨p, hpm, rfl⟩) hnot

theorem inv_of_clean_flags {st : SDState} (h : Inv st) (hcl : Clean st)
    (b c : Bool) : Inv { st with running := b, timerActive := c } := by
  obtain ⟨hc, hlv, hu⟩ := h
  refine ⟨?_, hlv, hu⟩
  exact
    { ndItems := hc.ndItems, ndQS := hc.ndQS, ndQI := hc.ndQI,
      flagsNet := hc.flagsNet, flagsJdns := hc.flagsJdns,
      downEmpty := fun _ => hcl, stopEmpty := fun _ => hcl,
      ptrInj := hc.ptrInj, ptrService := hc.ptrService, typeDom := hc.typeDom,
      subTypes := hc.subTypes, domDisj := hc.domDisj, freshQT := hc.freshQT,
      freshQS := hc.freshQS, freshQI := hc.freshQI, itemLive := hc.itemLive }

theorem inv_setRunning {st : SDState} (h : Inv st) (b : Bool) :
    Inv (setRunning st b) := by
  unfold setRunning
  split
  · exact h
  · simp only []
    split
    · rename_i hne hn
      cases b with
      | true => exact inv_of_running_true h
      | false =>
        have hcl : Clean st := h.1.downEmpty hn
        exact inv_of_clean_flags h hcl false st.timerActive
    · rename_i hne hn
      have hnet : st.networkReady = true := by
        cases hx : st.networkReady with
        | false => exact absurd hx hn
        | true => rfl
      cases b with
      | true =>
        have h2 := inv_startQueries (inv_of_running_true h) rfl hnet
        split
        · rename_i hrun
          split
          · exact inv_of_timer h2 true
          · exact h2
        · rename_i hcon
          exact absurd rfl hcon
      | false =>
        obtain ⟨hs, hcl⟩ := stopQueries_clean h
        split
        · rename_i hcon
          exact Bool.noConfusion hcon
        · split
          · rw [show ({ ({ st with running := false } : SDState) with timerActive := false } : SDState) = { st with running := false, timerActive := false } from rfl]
            rw [stopQueries_flags]
            exact inv_of_clean_flags hs hcl false false
          · rw [show stopQueries { st with running := false } = { stopQueries st with running := false, timerActive := st.timerActive } from stopQueries_flags st false st.timerActive]
            exact inv_of_clean_flags hs hcl false st.timerActive


/-! ### A clean, flag-consistent state satisfies the invariant -/

theorem inv_of_cleanParts {st : SDState} (hcl : Clean st)
    (hnd : NodupKeys st.serviceItemsMap) (hu : UqOk st)
    (hfn : st.networkReady = st.lookupReady)
    (hfj : st.lookupReady = st.jdnsActive) : Inv st := by
  obtain ⟨c1, c2, c3, c4⟩ := hcl
  refine ⟨?_, ?_, hu⟩
  · refine
      { ndItems := hnd, ndQS := ?_, ndQI := ?_, flagsNet := hfn,
        flagsJdns := hfj, downEmpty := fun _ => ⟨c1, c2, c3, c4⟩,
        stopEmpty := fun _ => ⟨c1, c2, c3, c4⟩, ptrInj := ?_,
        ptrService := ?_, typeDom := ?_, subTypes := ?_, domDisj := ?_,
        freshQT := ?_, freshQS := ?_, freshQI := ?_, itemLive := ?_ }
    · rw [c2]
      simp [NodupKeys]
    · rw [c3]
      simp [NodupKeys]
    · intro p hp
      rw [c2] at hp
      simp at hp
    · intro p hp
      rw [c2] at hp
      simp at hp
    · intro p hp
      rw [c1] at hp
      simp at hp
    · intro p hp
      rw [c3] at hp
      simp at hp
    · intro id hid
      obtain ⟨hs, _⟩ := hid
      rw [c2] at hs
      exact Bool.noConfusion hs
    · intro p hp
      rw [c1] at hp
      simp at hp
    · intro p hp
      rw [c2] at hp
      simp at hp
    · intro p hp
      rw [c3] at hp
      simp at hp
    · intro p hp
      rw [c3] at hp
      simp at hp
  · intro p hp hne
    exact absurd (c4 p hp) hne

theorem inv_of_mode {st : SDState} (h : Inv st) (m : LookupMode) :
    Inv { st with lookupMode := m } := by
  obtain ⟨hc, hlv, hu⟩ := h
  refine ⟨?_, hlv, hu⟩
  exact
    { ndItems := hc.ndItems, ndQS := hc.ndQS, ndQI := hc.ndQI,
      flagsNet := hc.flagsNet, flagsJdns := hc.flagsJdns,
      downEmpty := hc.downEmpty, stopEmpty := hc.stopEmpty,
      ptrInj := hc.ptrInj, ptrService := hc.ptrService, typeDom := hc.typeDom,
      subTypes := hc.subTypes, domDisj := hc.domDisj, freshQT := hc.freshQT,
      freshQS := hc.freshQS, freshQI := hc.freshQI, itemLive := hc.itemLive }

theorem inv_of_net_true {st : SDState} (h : Inv st)
    (hlr : st.lookupReady = true) : Inv { st with networkReady := true } := by
  obtain ⟨hc, hlv, hu⟩ := h
  refine ⟨?_, hlv, hu⟩
  refine
    { ndItems := hc.ndItems, ndQS := hc.ndQS, ndQI := hc.ndQI,
      flagsNet := hlr.symm, flagsJdns := hc.flagsJdns,
      downEmpty := ?_, stopEmpty := hc.stopEmpty,
      ptrInj := hc.ptrInj, ptrService := hc.ptrService, typeDom := hc.typeDom,
      subTypes := hc.subTypes, domDisj := hc.domDisj, freshQT := hc.freshQT,
      freshQS := hc.freshQS, freshQI := hc.freshQI, itemLive := hc.itemLive }
  intro hn
  exact Bool.noConfusion hn

/-! ### removeAllServiceTypes and deinitializeMdns -/

theorem uqok_removeServiceType {st : SDState} (hu : UqOk st) (S : String) :
    UqOk (removeServiceType st S) := by
  unfold removeServiceType
  split
  · rename_i hs
    intro u hu2 iid hiid
    have hu2b : u ∈ (clearItems st S).userQueries := hu2
    obtain ⟨l, hl, hm⟩ := uqok_clearItems hu S u hu2b iid hiid
    by_cases ht : u.serviceType = S
    · exfalso
      rw [ht, clearItems_serviceItemsMap_mget, if_pos rfl] at hl
      obtain ⟨l0, hl0⟩ := Option.isSome_iff_exists.mp hs
      rw [hl0] at hl
      simp only [Option.map_some', Option.some.injEq] at hl
      rw [← hl] at hm
      simp at hm
    · refine ⟨l, ?_, hm⟩
      show mget (mdel (clearItems st S).serviceItemsMap S) u.serviceType = some l
      rw [mget_mdel_ne _ ht]
      exact hl
  · exact hu

theorem removeAll_fold_none (l : List String) : ∀ {st : SDState},
    (∀ x, (mget st.serviceItemsMap x).isSome → x ∈ l) →
    ∀ x, mget ((l.foldl removeServiceType st)).serviceItemsMap x = none := by
  induction l with
  | nil =>
    intro st h x
    cases hg : mget st.serviceItemsMap x with
    | none => exact hg
    | some v => exact absurd (h x (by rw [hg]; rfl)) (by simp)
  | cons S rest ih =>
    intro st h x
    simp only [List.foldl_cons]
    apply ih
    intro y hy
    rw [removeServiceType_itemsMap_mget] at hy
    by_cases hyS : y = S
    · rw [if_pos hyS] at hy
      exact Bool.noConfusion hy
    · rw [if_neg hyS] at hy
      rcases List.mem_cons.mp (h y hy) with he | hm
      · exact absurd he hyS
      · exact hm

theorem removeAllServiceTypes_spec {st : SDState} (hu : UqOk st) :
    (∀ x, mget (removeAllServiceTypes st).serviceItemsMap x = none) ∧
    UqOk (removeAllServiceTypes st) := by
  unfold removeAllServiceTypes
  constructor
  · apply removeAll_fold_none
    intro x hx
    obtain ⟨v, hv⟩ := Option.isSome_iff_exists.mp hx
    exact List.mem_map.mpr ⟨(x, v), mem_of_mget hv, rfl⟩
  · exact foldl_pred removeServiceType UqOk
      (fun st2 S hs => uqok_removeServiceType hs S) _ st hu

@[simp] theorem removeServiceType_lookupMode (st : SDState) (S : String) :
    (removeServiceType st S).lookupMode = st.lookupMode := by
  unfold removeServiceType
  split
  · show (clearItems st S).lookupMode = st.lookupMode
    rw [clearItems_lookupMode]
  · rfl

@[simp] theorem removeAll_running (st : SDState) :
    (removeAllServiceTypes st).running = st.running := by
  unfold removeAllServiceTypes
  exact foldl_field removeServiceType (fun s => s.running)
    (fun s b => removeServiceType_running s b) _ st

@[simp] theorem removeAll_networkReady (st : SDState) :
    (removeAllServiceTypes st).networkReady = st.networkReady := by
  unfold removeAllServiceTypes
  exact foldl_field removeServiceType (fun s => s.networkReady)
    (fun s b => removeServiceType_networkReady s b) _ st

@[simp] theorem removeAll_lookupMode (st : SDState) :
    (removeAllServiceTypes st).lookupMode = st.lookupMode := by
  unfold removeAllServiceTypes
  exact foldl_field removeServiceType (fun s => s.lookupMode)
    (fun s b => removeServiceType_lookupMode s b) _ st

theorem deinit_spec {st : SDState} (h : Inv st) :
    Clean (deinitializeMdns st) ∧
    NodupKeys (deinitializeMdns st).serviceItemsMap ∧
    UqOk (deinitializeMdns st) ∧
    (deinitializeMdns st).jdnsActive = false ∧
    (deinitializeMdns st).lookupReady = false ∧
    (deinitializeMdns st).networkReady = st.networkReady ∧
    (deinitializeMdns st).running = st.running ∧
    (deinitializeMdns st).lookupMode = st.lookupMode := by
  have hbase : ∀ st0 : SDState, UqOk st0 →
      Clean { removeAllServiceTypes st0 with queryIdItemMap := [], queryIdServiceMap := [], queryIdTypeMap := [] } ∧
      (removeAllServiceTypes st0).serviceItemsMap = [] ∧
      UqOk (removeAllServiceTypes st0) := by
    intro st0 hu0
    obtain ⟨hnone, hu1⟩ := removeAllServiceTypes_spec hu0
    have hsim : (removeAllServiceTypes st0).serviceItemsMap = [] := by
      apply eq_nil_of_forall_not_mem
      intro p hp
      have h2 := mget_isSome_of_mem hp
      rw [hnone p.1] at h2
      exact Bool.noConfusion h2
    refine ⟨⟨rfl, rfl, rfl, ?_⟩, hsim, hu1⟩
    intro p hp
    have hp2 : p ∈ (removeAllServiceTypes st0).serviceItemsMap := hp
    rw [hsim] at hp2
    simp at hp2
  unfold deinitializeMdns
  split
  · rename_i hj
    have hlr : st.lookupReady = false := by rw [h.1.flagsJdns, hj]
    have hnet : st.networkReady = false := by rw [h.1.flagsNet, hlr]
    exact ⟨h.1.downEmpty hnet, h.1.ndItems, h.2.2, hj, hlr, rfl, rfl, rfl⟩
  · rename_i hj
    simp only []
    split
    · rename_i hrun
      split
      · rename_i hmode
        obtain ⟨hcl, hsim, hu1⟩ :=
          hbase { st with timerActive := false } h.2.2
        refine ⟨hcl, ?_, hu1, by trivial, by trivial, ?_, ?_, ?_⟩
        · show NodupKeys
            (removeAllServiceTypes { st with timerActive := false }).serviceItemsMap
          rw [hsim]
          simp [NodupKeys]
        · show (removeAllServiceTypes { st with timerActive := false }).networkReady =
            st.networkReady
          rw [removeAll_networkReady]
        · show (removeAllServiceTypes { st with timerActive := false }).running =
            st.running
          rw [removeAll_running]
        · show (removeAllServiceTypes { st with timerActive := false }).lookupMode =
            st.lookupMode
          rw [removeAll_lookupMode]
      · rename_i hmode
        obtain ⟨hcl, hsim, hu1⟩ := hbase st h.2.2
        refine ⟨hcl, ?_, hu1, by trivial, by trivial, ?_, ?_, ?_⟩
        · show NodupKeys (removeAllServiceTypes st).serviceItemsMap
          rw [hsim]
          simp [NodupKeys]
        · show (removeAllServiceTypes st).networkReady = st.networkReady
          rw [removeAll_networkReady]
        · show (removeAllServiceTypes st).running = st.running
          rw [removeAll_running]
        · show (removeAllServiceTypes st).lookupMode = st.lookupMode
          rw [removeAll_lookupMode]
    · rename_i hrun
      have hrun2 : st.running = false := by
        cases hx : st.running with
        | false => rfl
        | true => exact absurd hx hrun
      have hcl : Clean st := h.1.stopEmpty hrun2
      exact ⟨hcl, h.1.ndItems, h.2.2, by trivial, by trivial, by trivial, by trivial, by trivial⟩

theorem inv_networkSessionClosed {st : SDState} (h : Inv st) :
    Inv (networkSessionClosed st) := by
  obtain ⟨hcl, hnd, hu, hj, hlr, hnet, hrun, hmode⟩ := deinit_spec h
  unfold networkSessionClosed
  simp only []
  refine inv_of_cleanParts ?_ ?_ ?_ ?_ ?_
  · exact hcl
  · exact hnd
  · exact hu
  · show (false : Bool) = (deinitializeMdns st).lookupReady
    exact hlr.symm
  · show (deinitializeMdns st).lookupReady = (deinitializeMdns st).jdnsActive
    rw [hlr, hj]


/-! ### updateServices -/

theorem inv_updServices_step1 (acc : SDState) (q : UserQuery) (h : Inv acc) :
    Inv (if q.serviceType ≠ "" then
      (let acc2 := addServiceType acc q.serviceType q.queryType
       if acc2.running && acc2.networkReady then startQuery acc2 q.serviceType
       else acc2)
    else acc) := by
  split
  · simp only []
    split
    · rename_i hg
      simp only [Bool.and_eq_true] at hg
      obtain ⟨hr, hn⟩ := hg
      exact inv_startQuery (inv_addServiceType h q.serviceType q.queryType)
        hr hn (addServiceType_present acc q.serviceType q.queryType)
    · exact inv_addServiceType h q.serviceType q.queryType
  · exact h

theorem inv_updServices_step2 (acc : SDState) (S : String) (h : Inv acc) :
    Inv (removeServiceType
      (if acc.running && acc.networkReady then stopQuery acc S else acc) S) := by
  split
  · exact inv_removeServiceType (inv_stopQuery h S) (stopQuery_no_val h.1 S)
  · rename_i hg
    have hor : acc.running = false ∨ acc.networkReady = false := by
      cases hr : acc.running with
      | false => exact Or.inl rfl
      | true =>
        cases hn : acc.networkReady with
        | false => exact Or.inr rfl
        | true => exact absurd (by rw [hr, hn]; rfl) hg
    have hcl : Clean acc := by
      rcases hor with h1 | h1
      · exact h.1.stopEmpty h1
      · exact h.1.downEmpty h1
    apply inv_removeServiceType h
    intro p hp
    rw [hcl.2.1] at hp
    simp at hp

theorem inv_updateServices {st : SDState} (h : Inv st) :
    Inv (updateServices st) := by
  unfold updateServices
  apply inv_updateAllServiceTypes
  apply foldl_pred _ Inv (fun acc S ha => inv_updServices_step2 acc S ha)
  apply foldl_pred _ Inv (fun acc q ha => inv_updServices_step1 acc q ha)
  exact h

/-! ### initializeMdns and the session slots -/

theorem initializeMdns_active {st : SDState} (ok : Bool)
    (hj : st.jdnsActive = true) : initializeMdns st ok = (st, true) := by
  unfold initializeMdns
  rw [if_pos hj]

theorem inv_initializeMdns {st : SDState} (ok : Bool)
    (hcl : Clean st) (hnd : NodupKeys st.serviceItemsMap) (hu : UqOk st)
    (hlr : st.lookupReady = false) (hj : st.jdnsActive = false)
    (hnet : st.networkReady = true) :
    Inv (if (initializeMdns st ok).2 then (initializeMdns st ok).1
         else { (initializeMdns st ok).1 with networkReady := false }) := by
  unfold initializeMdns
  rw [if_neg (show ¬(st.jdnsActive = true) from by rw [hj]; exact Bool.noConfusion)]
  cases ok with
  | false =>
    split
    · rw [if_neg (show ¬(((st, false) : SDState × Bool).2 = true) from fun h2 => Bool.noConfusion h2)]
      refine inv_of_cleanParts ?_ ?_ ?_ ?_ ?_
      · exact hcl
      · exact hnd
      · exact hu
      · show (false : Bool) = st.lookupReady
        exact hlr.symm
      · show st.lookupReady = st.jdnsActive
        rw [hlr, hj]
    · rename_i hcon
      exact absurd rfl hcon
  | true =>
    rw [if_neg (show ¬((true : Bool) = false) from fun hcon => Bool.noConfusion hcon)]
    have h1 : Inv { st with jdnsActive := true, lookupReady := true } := by
      refine inv_of_cleanParts ?_ ?_ ?_ ?_ ?_
      · exact hcl
      · exact hnd
      · exact hu
      · show st.networkReady = true
        exact hnet
      · rfl
    split
    · simp only []
      split
      · split
        · split
          · exact inv_of_timer
              (inv_updateServices (inv_updateNameServers h1)) true
          · exact inv_updateServices (inv_updateNameServers h1)
        · exact inv_updateNameServers h1
      · split
        · split
          · exact inv_of_timer (inv_updateServices h1) true
          · exact inv_updateServices h1
        · exact h1
    · rename_i hcon
      exact absurd rfl hcon

theorem inv_networkSessionOpened {st : SDState} (h : Inv st) (ok : Bool) :
    Inv (networkSessionOpened st ok) := by
  unfold networkSessionOpened
  simp only []
  by_cases hj : st.jdnsActive = true
  · have hlr : st.lookupReady = true := by rw [h.1.flagsJdns, hj]
    rw [initializeMdns_active ok (show ({ st with networkReady := true } : SDState).jdnsActive = true from hj)]
    rw [if_pos (show ((({ st with networkReady := true } : SDState), true) : SDState × Bool).2 = true from rfl)]
    exact inv_of_net_true h hlr
  · have hj2 : st.jdnsActive = false := by
      cases hx : st.jdnsActive with
      | false => rfl
      | true => exact absurd hx hj
    have hlr : st.lookupReady = false := by rw [h.1.flagsJdns, hj2]
    have hnet0 : st.networkReady = false := by rw [h.1.flagsNet, hlr]
    have hcl : Clean st := h.1.downEmpty hnet0
    exact inv_initializeMdns ok hcl h.1.ndItems h.2.2 hlr hj2 rfl

theorem inv_setLookupMode {st : SDState} (h : Inv st) (m : LookupMode)
    (ok : Bool) : Inv (setLookupMode st m ok) := by
  unfold setLookupMode
  split
  · exact h
  · simp only []
    by_cases hready : st.lookupReady = true
    · rw [if_pos hready, if_pos hready]
      have hnet : st.networkReady = true := by rw [h.1.flagsNet]; exact hready
      obtain ⟨hcl, hnd, hu, hj, hlr, hnetP, hrunP, hmodeP⟩ := deinit_spec h
      refine inv_initializeMdns ok ?_ ?_ ?_ ?_ ?_ ?_
      · exact hcl
      · exact hnd
      · exact hu
      · exact hlr
      · exact hj
      · show (deinitializeMdns st).networkReady = true
        rw [hnetP, hnet]
    · rw [if_neg hready, if_neg hready]
      exact inv_of_mode h m

/-! ### Result ingestion: support lemmas -/

theorem inv_setItemD {st : SDState} (h : Inv st) (iid : Nat) (it : ItemData) :
    Inv (setItemD st iid it) :=
  ⟨invCore_setItemD h.1 iid it, h.2.1, uqok_setItemD h.2.2 iid it⟩

theorem inv_of_cancel {st : SDState} (h : Inv st) (l : List Nat) :
    Inv { st with cancelLog := l } := by
  obtain ⟨hc, hlv, hu⟩ := h
  refine ⟨?_, hlv, hu⟩
  exact
    { ndItems := hc.ndItems, ndQS := hc.ndQS, ndQI := hc.ndQI,
      flagsNet := hc.flagsNet, flagsJdns := hc.flagsJdns,
      downEmpty := hc.downEmpty, stopEmpty := hc.stopEmpty,
      ptrInj := hc.ptrInj, ptrService := hc.ptrService, typeDom := hc.typeDom,
      subTypes := hc.subTypes, domDisj := hc.domDisj, freshQT := hc.freshQT,
      freshQS := hc.freshQS, freshQI := hc.freshQI, itemLive := hc.itemLive }

theorem inv_finalizeRecord {st : SDState} (h : Inv st) (iid : Nat) :
    Inv (finalizeRecord st iid) := by
  unfold finalizeRecord
  split
  · exact inv_setItemD (inv_updateServiceType h (getItemD st iid).type) iid _
  · exact h

@[simp] theorem finalizeRecord_queryIdServiceMap (st : SDState) (iid : Nat) :
    (finalizeRecord st iid).queryIdServiceMap = st.queryIdServiceMap := by
  unfold finalizeRecord
  split
  · exact updateServiceType_queryIdServiceMap st (getItemD st iid).type
  · rfl

@[simp] theorem removeItem_queryIdServiceMap (st : SDState) (name S : String) :
    (removeItem st name S).queryIdServiceMap = st.queryIdServiceMap := by
  unfold removeItem
  cases hg : mget st.serviceItemsMap S with
  | none => simp only [hg]
  | some iids =>
    simp only [hg]
    cases hf : iids.find? (fun i2 => (getItemD st i2).name == name) with
    | none => simp only [hf]
    | some iid =>
      simp only [hf]
      rw [updateServiceType_queryIdServiceMap]
      rfl

theorem live_flags {st : SDState} (h : Inv st) {id : Nat}
    (hid : (mget st.queryIdServiceMap id).isSome) :
    st.running = true ∧ st.networkReady = true := by
  constructor
  · cases hx : st.running with
    | true => rfl
    | false =>
      obtain ⟨c1, c2, c3, c4⟩ := h.1.stopEmpty hx
      rw [c2] at hid
      exact Bool.noConfusion hid
  · cases hx : st.networkReady with
    | true => rfl
    | false =>
      obtain ⟨c1, c2, c3, c4⟩ := h.1.downEmpty hx
      rw [c2] at hid
      exact Bool.noConfusion hid

theorem live_flags_item {st : SDState} (h : Inv st) {id : Nat}
    (hid : (mget st.queryIdItemMap id).isSome) :
    st.running = true ∧ st.networkReady = true := by
  constructor
  · cases hx : st.running with
    | true => rfl
    | false =>
      obtain ⟨c1, c2, c3, c4⟩ := h.1.stopEmpty hx
      rw [c3] at hid
      exact Bool.noConfusion hid
  · cases hx : st.networkReady with
    | true => rfl
    | false =>
      obtain ⟨c1, c2, c3, c4⟩ := h.1.downEmpty hx
      rw [c3] at hid
      exact Bool.noConfusion hid

/-- Registering one fresh sub-query (TXT, SRV or A) for an item that lives
in some instance table, together with the outstanding-list update on the
item store, preserves the invariant. -/
theorem inv_subRegStep (st : SDState) (iid : Nat) (t : RecType) (h : Inv st)
    (hin : ∃ q ∈ st.serviceItemsMap, iid ∈ q.2)
    (hrun : st.running = true) (hnet : st.networkReady = true)
    (ht : t = RecType.Txt ∨ t = RecType.Srv ∨ t = RecType.A) :
    Inv { st with
      items := mset st.items iid { getItemD st iid with outstanding := (getItemD st iid).outstanding ++ [st.nextQueryId] },
      nextQueryId := st.nextQueryId + 1,
      queryIdTypeMap := mset st.queryIdTypeMap st.nextQueryId t,
      queryIdItemMap := mset st.queryIdItemMap st.nextQueryId iid } := by
  obtain ⟨hc, hlv, hu⟩ := h
  refine ⟨?_, ?_, ?_⟩
  · refine
      { ndItems := hc.ndItems, ndQS := hc.ndQS, ndQI := nodup_mset hc.ndQI _ _,
        flagsNet := hc.flagsNet, flagsJdns := hc.flagsJdns,
        downEmpty := ?_, stopEmpty := ?_, ptrInj := hc.ptrInj,
        ptrService := ?_, typeDom := ?_, subTypes := ?_, domDisj := ?_,
        freshQT := ?_, freshQS := ?_, freshQI := ?_, itemLive := ?_ }
    · intro hn
      have hn2 : st.networkReady = false := hn
      rw [hnet] at hn2
      exact Bool.noConfusion hn2
    · intro hn
      have hn2 : st.running = false := hn
      rw [hrun] at hn2
      exact Bool.noConfusion hn2
    · intro p hp
      exact hc.ptrService p hp
    · intro p hp
      rcases mem_mset hp with hp2 | hp2
      · right
        have hk : p.1 = st.nextQueryId := by rw [hp2]
        show (mget (mset st.queryIdItemMap st.nextQueryId iid) p.1).isSome
        rw [hk, mget_mset_self]
        rfl
      · have hne : p.1 ≠ st.nextQueryId := by
          intro he
          have h3 := hc.freshQT p hp2
          rw [he] at h3
          exact absurd h3 (lt_irrefl _)
        rcases hc.typeDom p hp2 with hs | hi
        · left
          exact hs
        · right
          show (mget (mset st.queryIdItemMap st.nextQueryId iid) p.1).isSome
          rw [mget_mset_ne _ _ hne]
          exact hi
    · intro p hp
      rcases mem_mset_nodup hc.ndQI hp with hp2 | hp2
      · have hk : p.1 = st.nextQueryId := by rw [hp2]
        show mget (mset st.queryIdTypeMap st.nextQueryId t) p.1 = _ ∨
          mget (mset st.queryIdTypeMap st.nextQueryId t) p.1 = _ ∨
          mget (mset st.queryIdTypeMap st.nextQueryId t) p.1 = _
        rw [hk, mget_mset_self]
        rcases ht with h1 | h1 | h1
        · left
          rw [h1]
        · right
          left
          rw [h1]
        · right
          right
          rw [h1]
      · obtain ⟨hpm, hpne⟩ := hp2
        have hgoal := hc.subTypes p hpm
        show mget (mset st.queryIdTypeMap st.nextQueryId t) p.1 = _ ∨
          mget (mset st.queryIdTypeMap st.nextQueryId t) p.1 = _ ∨
          mget (mset st.queryIdTypeMap st.nextQueryId t) p.1 = _
        rw [mget_mset_ne _ _ hpne]
        exact hgoal
    · intro id2 hid2
      obtain ⟨hs, hi⟩ := hid2
      have hs2 : (mget st.queryIdServiceMap id2).isSome := hs
      by_cases hide : id2 = st.nextQueryId
      · rw [hide] at hs2
        cases hg : mget st.queryIdServiceMap st.nextQueryId with
        | none =>
          rw [hg] at hs2
          exact Bool.noConfusion hs2
        | some v =>
          exact absurd (hc.freshQS (st.nextQueryId, v) (mem_of_mget hg))
            (lt_irrefl _)
      · have hi2 : (mget st.queryIdItemMap id2).isSome := by
          have h4 : (mget (mset st.queryIdItemMap st.nextQueryId iid)
              id2).isSome := hi
          rw [mget_mset_ne _ _ hide] at h4
          exact h4
        exact hc.domDisj id2 ⟨hs2, hi2⟩
    · intro p hp
      rcases mem_mset hp with hp2 | hp2
      · rw [hp2]
        exact Nat.lt_succ_self _
      · exact Nat.lt_trans (hc.freshQT p hp2) (Nat.lt_succ_self _)
    · intro p hp
      exact Nat.lt_trans (hc.freshQS p hp) (Nat.lt_succ_self _)
    · intro p hp
      rcases mem_mset hp with hp2 | hp2
      · rw [hp2]
        exact Nat.lt_succ_self _
      · exact Nat.lt_trans (hc.freshQI p hp2) (Nat.lt_succ_self _)
    · intro p hp
      rcases mem_mset hp with hp2 | hp2
      · have hv : p.2 = iid := by rw [hp2]
        rw [hv]
        exact hin
      · exact hc.itemLive p hp2
  · exact hlv
  · exact hu

/-- Deregistering one sub-query id (the TXT/SRV/A completion path)
preserves the invariant. -/
theorem inv_unregItem (st : SDState) (id : Nat) (h : Inv st) :
    Inv { st with
      queryIdTypeMap := mdel st.queryIdTypeMap id,
      queryIdItemMap := mdel st.queryIdItemMap id } := by
  obtain ⟨hc, hlv, hu⟩ := h
  refine ⟨?_, ?_, ?_⟩
  · refine
      { ndItems := hc.ndItems, ndQS := hc.ndQS, ndQI := nodup_mdel hc.ndQI _,
        flagsNet := hc.flagsNet, flagsJdns := hc.flagsJdns,
        downEmpty := ?_, stopEmpty := ?_, ptrInj := hc.ptrInj,
        ptrService := ?_, typeDom := ?_, subTypes := ?_, domDisj := ?_,
        freshQT := ?_, freshQS := ?_, freshQI := ?_, itemLive := ?_ }
    · intro hn
      obtain ⟨c1, c2, c3, c4⟩ := hc.downEmpty hn
      refine ⟨?_, c2, ?_, c4⟩
      · rw [c1]
        rfl
      · rw [c3]
        rfl
    · intro hn
      obtain ⟨c1, c2, c3, c4⟩ := hc.stopEmpty hn
      refine ⟨?_, c2, ?_, c4⟩
      · rw [c1]
        rfl
      · rw [c3]
        rfl
    · intro p hp
      exact hc.ptrService p hp
    · intro p hp
      obtain ⟨hpm, hpne⟩ := mem_mdel hp
      rcases hc.typeDom p hpm with hs | hi
      · left
        exact hs
      · right
        show (mget (mdel st.queryIdItemMap id) p.1).isSome
        rw [mget_mdel_ne _ hpne]
        exact hi
    · intro p hp
      obtain ⟨hpm, hpne⟩ := mem_mdel hp
      have hgoal := hc.subTypes p hpm
      show mget (mdel st.queryIdTypeMap id) p.1 = _ ∨
        mget (mdel st.queryIdTypeMap id) p.1 = _ ∨
        mget (mdel st.queryIdTypeMap id) p.1 = _
      rw [mget_mdel_ne _ hpne]
      exact hgoal
    · intro id2 hid2
      obtain ⟨hs, hi⟩ := hid2
      have hs2 : (mget st.queryIdServiceMap id2).isSome := hs
      by_cases hide : id2 = id
      · have h4 : (mget (mdel st.queryIdItemMap id) id2).isSome := hi
        rw [hide, mget_mdel_self] at h4
        exact Bool.noConfusion h4
      · have h4 : (mget (mdel st.queryIdItemMap id) id2).isSome := hi
        rw [mget_mdel_ne _ hide] at h4
        exact hc.domDisj id2 ⟨hs2, h4⟩
    · intro p hp
      exact hc.freshQT p (mem_mdel hp).1
    · intro p hp
      exact hc.freshQS p hp
    · intro p hp
      exact hc.freshQI p (mem_mdel hp).1
    · intro p hp
      exact hc.itemLive p (mem_mdel hp).1
  · exact hlv
  · exact hu


set_option maxHeartbeats 3200000 in
/-- One record of a results callback: the invariant is preserved and the
PTR registry is untouched (hypothesis: a PTR-typed callback only fires for
an id that is registered — maintained along the record loop). -/
theorem processRecord_spec {st : SDState} {id : Nat} {qtype : RecType}
    {r : Record} {st2 : SDState} (h : Inv st)
    (hptr : qtype = RecType.Ptr → (mget st.queryIdServiceMap id).isSome)
    (hres : processRecord st id qtype r = some st2) :
    Inv st2 ∧ st2.queryIdServiceMap = st.queryIdServiceMap := by
  unfold processRecord at hres
  by_cases hq1 : qtype = RecType.Ptr
  · rw [if_pos hq1] at hres
    simp only [] at hres
    have hidm := hptr hq1
    obtain ⟨S0, hS0⟩ := Option.isSome_iff_exists.mp hidm
    by_cases httl : r.ttl > 0
    · rw [if_pos httl] at hres
      cases hadd : addItem st (ptrInstanceName r.name)
          ((mget st.queryIdServiceMap id).getD "") with
      | none =>
        rw [hadd] at hres
        exact Option.noConfusion hres
      | some pr =>
        obtain ⟨iid, st1⟩ := pr
        rw [hadd] at hres
        simp only [Option.some.injEq] at hres
        subst hres
        have hptrS : ∃ q ∈ st.queryIdServiceMap,
            q.2 = (mget st.queryIdServiceMap id).getD "" :=
          ⟨(id, S0), mem_of_mget hS0, by rw [hS0]; rfl⟩
        have h1 : Inv st1 := inv_addItem h hptrS hadd
        obtain ⟨l0, hl0, hl0in⟩ := addItem_item_in h.1.ndItems hadd
        have hin : ∃ q ∈ st1.serviceItemsMap, iid ∈ q.2 :=
          ⟨((mget st.queryIdServiceMap id).getD "", l0), mem_of_mget hl0, hl0in⟩
        obtain ⟨hrun0, hnet0⟩ := live_flags h hidm
        obtain ⟨f1, f2, f3, f4, f5, f6, f7, f8, f9, f10⟩ := addItem_frame hadd
        have hrun1 : st1.running = true := by rw [f6]; exact hrun0
        have hnet1 : st1.networkReady = true := by rw [f7]; exact hnet0
        have h4 := inv_subRegStep st1 iid RecType.Txt h1 hin hrun1 hnet1
          (Or.inl rfl)
        have h7 := inv_subRegStep _ iid RecType.Srv h4 hin hrun1 hnet1
          (Or.inr (Or.inl rfl))
        constructor
        · exact inv_finalizeRecord h7 iid
        · rw [finalizeRecord_queryIdServiceMap]
          exact f2
    · rw [if_neg httl] at hres
      simp only [Option.some.injEq] at hres
      subst hres
      refine ⟨inv_removeItem h _ _, ?_⟩
      rw [removeItem_queryIdServiceMap]
  · rw [if_neg hq1] at hres
    by_cases hq2 : qtype = RecType.Txt
    · rw [if_pos hq2] at hres
      cases hqi : mget st.queryIdItemMap id with
      | none =>
        rw [hqi] at hres
        exact Option.noConfusion hres
      | some iid =>
        rw [hqi] at hres
        simp only [Option.some.injEq] at hres
        subst hres
        have h1 : Inv { st with cancelLog := st.cancelLog ++ [id] } :=
          inv_of_cancel h _
        have h2 := inv_setItemD h1 iid { getItemD st iid with outstanding := (getItemD st iid).outstanding.filter (fun q => !(q == id)) }
        have h3 := inv_unregItem _ id h2
        constructor
        · exact inv_finalizeRecord (inv_setItemD h3 iid _) iid
        · rw [finalizeRecord_queryIdServiceMap]
          rfl
    · rw [if_neg hq2] at hres
      by_cases hq3 : qtype = RecType.Srv
      · rw [if_pos hq3] at hres
        cases hqi : mget st.queryIdItemMap id with
        | none =>
          rw [hqi] at hres
          exact Option.noConfusion hres
        | some iid =>
          rw [hqi] at hres
          simp only [Option.some.injEq] at hres
          subst hres
          have hidm : (mget st.queryIdItemMap id).isSome := by
            rw [hqi]
            rfl
          obtain ⟨hrun0, hnet0⟩ := live_flags_item h hidm
          have hin : ∃ q ∈ st.serviceItemsMap, iid ∈ q.2 :=
            h.1.itemLive (id, iid) (mem_of_mget hqi)
          have h1 : Inv { st with cancelLog := st.cancelLog ++ [id] } :=
            inv_of_cancel h _
          have h2 := inv_setItemD h1 iid { getItemD st iid with outstanding := (getItemD st iid).outstanding.filter (fun q => !(q == id)) }
          have h3 := inv_unregItem _ id h2
          have h6 := inv_subRegStep _ iid RecType.A h3 hin hrun0 hnet0
            (Or.inr (Or.inr rfl))
          constructor
          · exact inv_finalizeRecord (inv_setItemD h6 iid _) iid
          · rw [finalizeRecord_queryIdServiceMap]
            rfl
      · rw [if_neg hq3] at hres
        by_cases hq4 : qtype = RecType.A ∨ qtype = RecType.Aaaa
        · rw [if_pos hq4] at hres
          cases hqi : mget st.queryIdItemMap id with
          | none =>
            rw [hqi] at hres
            exact Option.noConfusion hres
          | some iid =>
            rw [hqi] at hres
            simp only [Option.some.injEq] at hres
            subst hres
            have h1 : Inv { st with cancelLog := st.cancelLog ++ [id] } :=
              inv_of_cancel h _
            have h2 := inv_setItemD h1 iid { getItemD st iid with outstanding := (getItemD st iid).outstanding.filter (fun q => !(q == id)) }
            have h3 := inv_unregItem _ id h2
            constructor
            · exact inv_finalizeRecord (inv_setItemD h3 iid _) iid
            · rw [finalizeRecord_queryIdServiceMap]
              rfl
        · rw [if_neg hq4] at hres
          simp only [Option.some.injEq] at hres
          subst hres
          exact ⟨h, rfl⟩


/-- The PTR branch never sees `addItem` fail: the registered type is a key
of the instance-table map. -/
theorem processRecord_ptr_some {st : SDState} {id : Nat} (r : Record)
    (h : Inv st) (hid : (mget st.queryIdServiceMap id).isSome) :
    (processRecord st id RecType.Ptr r).isSome := by
  unfold processRecord
  rw [if_pos rfl]
  simp only []
  by_cases httl : r.ttl > 0
  · rw [if_pos httl]
    obtain ⟨S0, hS0⟩ := Option.isSome_iff_exists.mp hid
    have hS : (mget st.serviceItemsMap
        ((mget st.queryIdServiceMap id).getD "")).isSome := by
      rw [hS0]
      exact h.1.ptrService (id, S0) (mem_of_mget hS0)
    cases hadd : addItem st (ptrInstanceName r.name)
        ((mget st.queryIdServiceMap id).getD "") with
    | none =>
      have h2 := addItem_isSome (ptrInstanceName r.name) hS
      rw [hadd] at h2
      exact Bool.noConfusion h2
    | some pr =>
      obtain ⟨iid, st1⟩ := pr
      rfl
  · rw [if_neg httl]
    rfl

theorem foldRecords_spec (records : List Record) (id : Nat) (qtype : RecType) :
    ∀ {st st2 : SDState}, Inv st →
    (qtype = RecType.Ptr → (mget st.queryIdServiceMap id).isSome) →
    List.foldlM (fun acc r => processRecord acc id qtype r) st records =
      some st2 →
    Inv st2 ∧ st2.queryIdServiceMap = st.queryIdServiceMap := by
  induction records with
  | nil =>
    intro st st2 h hq hres
    have hres2 : some st = some st2 := hres
    injection hres2 with he
    subst he
    exact ⟨h, rfl⟩
  | cons r rest ih =>
    intro st st2 h hq hres
    rw [List.foldlM_cons] at hres
    cases hp : processRecord st id qtype r with
    | none =>
      rw [hp] at hres
      exact Option.noConfusion hres
    | some acc =>
      rw [hp] at hres
      have hres2 : List.foldlM (fun acc2 r2 => processRecord acc2 id qtype r2)
          acc rest = some st2 := hres
      obtain ⟨h1, hfr⟩ := processRecord_spec h hq hp
      obtain ⟨h2, hfr2⟩ := ih h1
        (fun hqt => by rw [hfr]; exact hq hqt) hres2
      exact ⟨h2, hfr2.trans hfr⟩

theorem foldRecords_ptr_some (records : List Record) (id : Nat) :
    ∀ {st : SDState}, Inv st → (mget st.queryIdServiceMap id).isSome →
    (List.foldlM (fun acc r => processRecord acc id RecType.Ptr r) st
      records).isSome := by
  induction records with
  | nil =>
    intro st h hid
    rfl
  | cons r rest ih =>
    intro st h hid
    rw [List.foldlM_cons]
    cases hp : processRecord st id RecType.Ptr r with
    | none =>
      have h2 := processRecord_ptr_some r h hid
      rw [hp] at h2
      exact Bool.noConfusion h2
    | some acc =>
      obtain ⟨h1, hfr⟩ := processRecord_spec h (fun _ => hid) hp
      have hid2 : (mget acc.queryIdServiceMap id).isSome := by
        rw [hfr]
        exact hid
      exact ih h1 hid2

/-- A live PTR registration binds the id to a service type. -/
theorem ptr_id_service {st : SDState} (h : Inv st) {id : Nat}
    (hqt : mget st.queryIdTypeMap id = some RecType.Ptr) :
    (mget st.queryIdServiceMap id).isSome := by
  rcases h.1.typeDom (id, RecType.Ptr) (mem_of_mget hqt) with hs | hi
  · exact hs
  · exfalso
    obtain ⟨iid, hiid⟩ := Option.isSome_iff_exists.mp hi
    have hx2 : ∀ T : RecType, mget st.queryIdTypeMap id = some T →
        T = RecType.Ptr := by
      intro T hT
      rw [hqt] at hT
      injection hT with hv
      exact hv.symm
    rcases h.1.subTypes (id, iid) (mem_of_mget hiid) with hx | hx | hx
    · exact RecType.noConfusion (hx2 _ hx)
    · exact RecType.noConfusion (hx2 _ hx)
    · exact RecType.noConfusion (hx2 _ hx)

theorem resultsReady_inv {st st2 : SDState} {id : Nat} {records : List Record}
    (h : Inv st) (hres : resultsReady st id records = some st2) : Inv st2 := by
  unfold resultsReady at hres
  simp only [] at hres
  refine (foldRecords_spec records id _ h ?_ hres).1
  intro hq
  cases hqt : mget st.queryIdTypeMap id with
  | none =>
    rw [hqt] at hq
    exact RecType.noConfusion hq
  | some t =>
    rw [hqt] at hq
    have ht : t = RecType.Ptr := hq
    subst ht
    exact ptr_id_service h hqt

theorem resultsReady_ptr_some {st : SDState} {id : Nat} (records : List Record)
    (h : Inv st) (hqt : mget st.queryIdTypeMap id = some RecType.Ptr) :
    (resultsReady st id records).isSome := by
  unfold resultsReady
  simp only []
  have hq : (mget st.queryIdTypeMap id).getD RecType.Unknown = RecType.Ptr := by
    rw [hqt]
    rfl
  simp only [hq]
  exact foldRecords_ptr_some records id h (ptr_id_service h hqt)

/-! ### The reachable-state invariant theorem -/

theorem inv_initState : Inv initState := by
  refine inv_of_cleanParts ⟨rfl, rfl, rfl, ?_⟩ ?_ ?_ rfl rfl
  · intro p hp
    simp [initState] at hp
  · simp [NodupKeys, initState]
  · intro u hu
    simp [initState] at hu

theorem step_inv {st st2 : SDState} {e : Event} (h : Inv st)
    (hs : step st e = some st2) : Inv st2 := by
  cases e with
  | netOpened ok =>
    injection hs with he
    subst he
    exact inv_networkSessionOpened h ok
  | netClosed =>
    injection hs with he
    subst he
    exact inv_networkSessionClosed h
  | setRun b =>
    injection hs with he
    subst he
    exact inv_setRunning h b
  | setMode m ok =>
    injection hs with he
    subst he
    exact inv_setLookupMode h m ok
  | updServices =>
    injection hs with he
    subst he
    exact inv_updateServices h
  | updFilter =>
    injection hs with he
    subst he
    exact inv_updateAllServiceTypes h
  | setFilt f =>
    injection hs with he
    subst he
    unfold setFilter
    split
    · exact h
    · exact inv_updateAllServiceTypes (inv_of_filter h f)
  | setServiceLists qs =>
    injection hs with he
    subst he
    apply inv_of_freshUq h
    intro u hu
    obtain ⟨t, ht, hte⟩ := List.mem_map.mp hu
    rw [← hte]
  | updNameServers =>
    injection hs with he
    subst he
    exact inv_updateNameServers h
  | timerFire =>
    have hs2 : (if st.timerActive = true then some (unicastLookup st)
        else some st) = some st2 := hs
    split at hs2
    · injection hs2 with he
      subst he
      exact inv_unicastLookup h
    · injection hs2 with he
      subst he
      exact h
  | results id records =>
    exact resultsReady_inv h hs
  | setThreshold n =>
    injection hs with he
    subst he
    exact inv_of_threshold h n

/-- Every reachable state of the engine satisfies the invariant. -/
theorem reachable_inv {st : SDState} (h : Reachable st) : Inv st := by
  induction h with
  | init => exact inv_initState
  | next hst hs ih => exact step_inv ih hs


/-! ## Concrete traces

A small run of the engine: session up, one declared query for
`_http._tcp.local`, engine started, one PTR answer delivered. -/

def uq1 : UserQuery :=
  { serviceType := "_http._tcp.local", queryType := RecType.Ptr,
    filter := { name := "", txtRecords := [] }, items := [] }

def T0 : SDState := networkSessionOpened initState true

def T1 : SDState := { T0 with userQueries := [uq1] }

def T2 : SDState := updateServices T1

def T3 : SDState := setRunning T2 true

def rec1 : Record :=
  { name := "myprinter._http._tcp.local", ttl := 120, texts := [],
    port := 0, address := "" }

def T4 : SDState := (resultsReady T3 0 [rec1]).getD initState

theorem reach_T0 : Reachable T0 :=
  Reachable.next Reachable.init (e := Event.netOpened true) rfl

theorem reach_T1 : Reachable T1 :=
  Reachable.next reach_T0
    (e := Event.setServiceLists
      [("_http._tcp.local", RecType.Ptr, { name := "", txtRecords := [] })])
    rfl

theorem reach_T2 : Reachable T2 :=
  Reachable.next reach_T1 (e := Event.updServices) rfl

theorem reach_T3 : Reachable T3 :=
  Reachable.next reach_T2 (e := Event.setRun true) rfl

theorem reach_T4 : Reachable T4 :=
  Reachable.next reach_T3 (e := Event.results 0 [rec1]) (by decide)


/-! ## Claims -/

/-- C1: on every reachable state, the `lookupReady` true→false transition
(`deinitializeMdns`) resets `lookupReady` and clears the whole query
registry (all three id maps) and empties every instance table, regardless
of the current value of the `running` flag. -/
theorem C1_deinit_clears {st : SDState} (h : Reachable st)
    (hlr : st.lookupReady = true) :
    (deinitializeMdns st).lookupReady = false ∧
    (deinitializeMdns st).queryIdTypeMap = [] ∧
    (deinitializeMdns st).queryIdServiceMap = [] ∧
    (deinitializeMdns st).queryIdItemMap = [] ∧
    ∀ p ∈ (deinitializeMdns st).serviceItemsMap, p.2 = ([] : List Nat) := by
  obtain ⟨hcl, hnd, hu, hj, hlr2, hrest⟩ := deinit_spec (reachable_inv h)
  exact ⟨hlr2, hcl.1, hcl.2.1, hcl.2.2.1, hcl.2.2.2⟩

theorem C1_deinit_clears_witness :
    T0.lookupReady = true ∧ (deinitializeMdns T0).lookupReady = false ∧
    (deinitializeMdns T0).queryIdTypeMap = [] :=
  ⟨rfl, (C1_deinit_clears reach_T0 rfl).1, (C1_deinit_clears reach_T0 rfl).2.1⟩

/-- C7: a results callback for a query id that is not in the registry is
silently discarded — the state (instance tables, registry maps and user
query lists included) is completely unchanged. -/
theorem C7_unknown_id_discarded {st : SDState} {id : Nat}
    (hid : mget st.queryIdTypeMap id = none) (records : List Record) :
    resultsReady st id records = some st := by
  unfold resultsReady
  simp only []
  rw [hid]
  have hstep : ∀ (acc : SDState) (r : Record),
      processRecord acc id ((none : Option RecType).getD RecType.Unknown) r =
        some acc := by
    intro acc r
    rfl
  induction records with
  | nil => rfl
  | cons r rest ih =>
    rw [List.foldlM_cons, hstep]
    exact ih

theorem C7_unknown_id_discarded_witness :
    mget T4.queryIdTypeMap 99 = none ∧ resultsReady T4 99 [rec1] = some T4 :=
  ⟨by decide, C7_unknown_id_discarded (by decide) [rec1]⟩

/-- C8: on every reachable state at most one PTR scan is registered per
service type, `startQuery` is a no-op when the type already has a scan and
`stopQuery` is a no-op when it has none. -/
theorem C8_scan_unique_idempotent {st : SDState} (h : Reachable st)
    (S : String) :
    (∀ p ∈ st.queryIdServiceMap, ∀ q ∈ st.queryIdServiceMap,
      p.2 = S → q.2 = S → p = q) ∧
    ((∃ p ∈ st.queryIdServiceMap, p.2 = S) → startQuery st S = st) ∧
    ((∀ p ∈ st.queryIdServiceMap, p.2 ≠ S) → stopQuery st S = st) := by
  refine ⟨?_, startQuery_noop, stopQuery_noop⟩
  intro p hp q hq hpS hqS
  exact (reachable_inv h).1.ptrInj p hp q hq (by rw [hpS, hqS])

theorem C8_scan_unique_idempotent_witness :
    startQuery T3 "_http._tcp.local" = T3 ∧ stopQuery T3 "_other._tcp" = T3 :=
  ⟨(C8_scan_unique_idempotent reach_T3 "_http._tcp.local").2.1 (by decide),
   (C8_scan_unique_idempotent reach_T3 "_other._tcp").2.2 (by decide)⟩

/-- C9: on every reachable state, a results callback whose id is
registered as a PTR query never dereferences a null pointer: the service
type bound to the id is a key of the instance-table map (so `addItem`
returns an item, not `nullptr`), and the whole delivery produces a
successor state. -/
theorem C9_ptr_deref_safe {st : SDState} {id : Nat} (h : Reachable st)
    (hqt : mget st.queryIdTypeMap id = some RecType.Ptr)
    (records : List Record) :
    (mget st.serviceItemsMap
      ((mget st.queryIdServiceMap id).getD "")).isSome ∧
    (resultsReady st id records).isSome := by
  have hInv := reachable_inv h
  have hid := ptr_id_service hInv hqt
  constructor
  · obtain ⟨S0, hS0⟩ := Option.isSome_iff_exists.mp hid
    rw [hS0]
    exact hInv.1.ptrService (id, S0) (mem_of_mget hS0)
  · exact resultsReady_ptr_some records hInv hqt

theorem C9_ptr_deref_safe_witness :
    mget T3.queryIdTypeMap 0 = some RecType.Ptr ∧
    (resultsReady T3 0 [rec1]).isSome :=
  ⟨by decide, (C9_ptr_deref_safe reach_T3 (by decide) [rec1]).2⟩


/-! ### C3: malformed PTR names -/

def rec2 : Record :=
  { name := "noseparator", ttl := 120, texts := [], port := 0, address := "" }

def T7 : SDState := (resultsReady T3 0 [rec2]).getD initState

/-- C3 counterexample: a PTR answer whose name has no `._` is *not*
ignored.  `indexOf("._")` yields −1 and `QString::left(-1)` returns the
whole string, so an instance named by the full record name is created and
TXT and SRV sub-queries are started for it. -/
theorem C3_counterexample :
    Reachable T3 ∧
    idxDotUnderscore "noseparator".data = none ∧
    resultsReady T3 0 [rec2] = some T7 ∧
    mget T7.serviceItemsMap "_http._tcp.local" = some [0] ∧
    (getItemD T7 0).name = "noseparator" ∧
    (1, 0) ∈ T7.queryIdItemMap ∧ (2, 0) ∈ T7.queryIdItemMap :=
  ⟨reach_T3, by decide, by decide, by decide, by decide, by decide, by decide⟩

/-- C3 amended: a PTR name without `._` is processed like any other
answer — the extracted instance name is the whole record name, because
`QString::left` of the −1 returned by `indexOf` truncates nothing. -/
theorem C3_left_of_no_separator {s : String}
    (h : idxDotUnderscore s.data = none) : ptrInstanceName s = s := by
  unfold ptrInstanceName
  rw [h]

theorem C3_left_of_no_separator_witness :
    ptrInstanceName "noseparator" = "noseparator" :=
  C3_left_of_no_separator (by decide)

/-! ### C5: wildcard filtering is substring containment -/

/-- C5 counterexample: the code's name check passes on a proper substring
match (`QString::contains` of the wildcard regexp), where the spec's
"the instance name matches the glob" (anchored) fails. -/
theorem C5_counterexample :
    filterServiceDiscoveryItem { ItemData.init with name := "abc" }
      { name := "b", txtRecords := [] } = true ∧
    specMatches { ItemData.init with name := "abc" }
      { name := "b", txtRecords := [] } = false :=
  ⟨by decide, by decide⟩

theorem globContains_of_globMatch {pat s : String}
    (h : globMatch pat s = true) : globContains pat s = true := by
  unfold globContains
  apply List.any_eq_true.mpr
  refine ⟨s.data, ?_, ?_⟩
  · exact (List.mem_tails _ _).mpr (List.suffix_refl s.data)
  · exact List.any_eq_true.mpr
      ⟨s.data, (List.mem_inits _ _).mpr (List.prefix_refl s.data), h⟩

theorem foldFilter_mono (pats : List String) :
    ∀ (acc1 acc2 : List String), (∀ x ∈ acc1, x ∈ acc2) →
    ∀ x ∈ pats.foldl (fun a p => a.filter (fun s => globMatch p s)) acc1,
      x ∈ pats.foldl (fun a p => a.filter (fun s => globContains p s)) acc2 := by
  induction pats with
  | nil =>
    intro acc1 acc2 hsub x hx
    exact hsub x hx
  | cons p rest ih =>
    intro acc1 acc2 hsub x hx
    simp only [List.foldl_cons] at hx
    simp only [List.foldl_cons]
    refine ih _ _ ?_ x hx
    intro y hy
    rw [List.mem_filter] at hy
    rw [List.mem_filter]
    exact ⟨hsub y hy.1, globContains_of_globMatch hy.2⟩

/-- C5 amended: the code's predicate is the *unanchored* (substring)
variant of the spec's: whenever the whole-string glob reading accepts an
item, the source's containment filter accepts it too; the converse fails
(see the counterexample). -/
theorem C5_spec_implies_code (item : ItemData) (f : Filter)
    (h : specMatches item f = true) :
    filterServiceDiscoveryItem item f = true := by
  unfold specMatches at h
  rw [Bool.and_eq_true] at h
  obtain ⟨hname, htxt⟩ := h
  have hname2 : (f.name = "" || globContains f.name item.name) = true := by
    rw [Bool.or_eq_true] at hname
    rw [Bool.or_eq_true]
    rcases hname with h1 | h1
    · exact Or.inl h1
    · exact Or.inr (globContains_of_globMatch h1)
  unfold filterServiceDiscoveryItem
  split
  · rename_i hcon
    rw [hname2] at hcon
    exact absurd hcon (by decide)
  · split
    · rename_i hcon hne
      simp only []
      split
      · rename_i hfe
        exfalso
        rw [Bool.or_eq_true] at htxt
        rcases htxt with h1 | h1
        · rw [h1] at hne
          exact absurd hne (by decide)
        · have hne2 : (f.txtRecords.foldl
              (fun acc pat => acc.filter (fun s => globMatch pat s))
              item.txtRecords) ≠ [] := by
            intro he
            rw [he] at h1
            exact absurd h1 (by decide)
          obtain ⟨x, hx⟩ := List.exists_mem_of_ne_nil _ hne2
          have hx2 := foldFilter_mono f.txtRecords item.txtRecords
            item.txtRecords (fun y hy => hy) x hx
          cases hl : f.txtRecords.foldl
              (fun acc pat => acc.filter (fun s => globContains pat s))
              item.txtRecords with
          | nil =>
            rw [hl] at hx2
            simp at hx2
          | cons a l =>
            rw [hl] at hfe
            exact Bool.noConfusion hfe
      · rfl
    · rfl

theorem C5_spec_implies_code_witness :
    filterServiceDiscoveryItem { ItemData.init with name := "printer" }
      { name := "print*", txtRecords := [] } = true :=
  C5_spec_implies_code _ _ (by decide)


/-! ### C4: visibility is not gated on resolution -/

def T6 : SDState := updateFilter T4

/-- C4 counterexample: a reachable state in which an instance with
outstanding TXT and SRV requests is listed in a user query's resolved
items — visibility is not gated on an empty outstanding set. -/
theorem C4_counterexample :
    Reachable T6 ∧
    (getItemD T6 0).outstanding = [1, 2] ∧
    (∃ u ∈ T6.userQueries, 0 ∈ u.items) :=
  ⟨Reachable.next reach_T4 (e := Event.updFilter) rfl, by decide, by decide⟩

/-- C4 amended: republication pushes exactly the filtered instance list of
the type — membership depends only on the instance table and the two
filters, never on `outstandingRequests`. -/
theorem C4_visibility_unconditional {st : SDState} {S : String}
    {iids : List Nat} (hS : mget st.serviceItemsMap S = some iids)
    {u : UserQuery} (hu : u ∈ st.userQueries) (hty : u.serviceType = S)
    (hqt : u.queryType ≠ RecType.A) :
    { u with items := iids.filter (fun iid =>
        filterServiceDiscoveryItem (getItemD st iid) st.filter &&
        filterServiceDiscoveryItem (getItemD st iid) u.filter) } ∈
      (updateServiceType st S).userQueries := by
  unfold updateServiceType
  rw [hS]
  simp only []
  apply List.mem_map.mpr
  refine ⟨u, hu, ?_⟩
  rw [if_pos hty, if_neg hqt]
  rfl

theorem C4_visibility_unconditional_witness :
    { uq1 with items := [0].filter (fun iid =>
        filterServiceDiscoveryItem (getItemD T4 iid) T4.filter &&
        filterServiceDiscoveryItem (getItemD T4 iid) uq1.filter) } ∈
      (updateServiceType T4 "_http._tcp.local").userQueries :=
  C4_visibility_unconditional (by decide) (by decide) (by decide) (by decide)

/-! ### C2: duplicate PTR answers restart the sub-queries -/

@[simp] theorem finalizeRecord_queryIdTypeMap (st : SDState) (iid : Nat) :
    (finalizeRecord st iid).queryIdTypeMap = st.queryIdTypeMap := by
  unfold finalizeRecord
  split
  · exact updateServiceType_queryIdTypeMap st (getItemD st iid).type
  · rfl

@[simp] theorem finalizeRecord_queryIdItemMap (st : SDState) (iid : Nat) :
    (finalizeRecord st iid).queryIdItemMap = st.queryIdItemMap := by
  unfold finalizeRecord
  split
  · exact updateServiceType_queryIdItemMap st (getItemD st iid).type
  · rfl

def T5 : SDState := (resultsReady T4 0 [rec1]).getD initState

/-- C2 counterexample: a second PTR announcement of an instance that
already exists with the same (name, type) returns the existing item and
leaves the tables alone — yet fresh TXT and SRV sub-queries (ids 3 and 4)
are registered for it during the same refresh. -/
theorem C2_counterexample :
    Reachable T4 ∧
    addItem T4 (ptrInstanceName rec1.name) "_http._tcp.local" =
      some (0, T4) ∧
    resultsReady T4 0 [rec1] = some T5 ∧
    (3, 0) ∈ T5.queryIdItemMap ∧ (4, 0) ∈ T5.queryIdItemMap ∧
    mget T5.queryIdTypeMap 3 = some RecType.Txt ∧
    mget T5.queryIdTypeMap 4 = some RecType.Srv :=
  ⟨reach_T4, by decide, by decide, by decide, by decide, by decide,
    by decide⟩

/-- C2 amended: when `addItem` returns an existing instance (state
unchanged), the PTR branch still unconditionally starts a fresh TXT and a
fresh SRV sub-query for that instance. -/
theorem C2_dup_restarts_subqueries {st : SDState} (S : String) {id iid : Nat}
    {r : Record} (hS : mget st.queryIdServiceMap id = some S)
    (httl : r.ttl > 0)
    (hfind : addItem st (ptrInstanceName r.name) S = some (iid, st)) :
    ∃ st2, processRecord st id RecType.Ptr r = some st2 ∧
      (st.nextQueryId, iid) ∈ st2.queryIdItemMap ∧
      (st.nextQueryId + 1, iid) ∈ st2.queryIdItemMap ∧
      mget st2.queryIdTypeMap st.nextQueryId = some RecType.Txt ∧
      mget st2.queryIdTypeMap (st.nextQueryId + 1) = some RecType.Srv := by
  unfold processRecord
  rw [if_pos rfl]
  simp only []
  rw [if_pos httl, hS]
  simp only [Option.getD_some]
  rw [hfind]
  simp only []
  refine ⟨_, rfl, ?_, ?_, ?_, ?_⟩
  · rw [finalizeRecord_queryIdItemMap]
    show (st.nextQueryId, iid) ∈
      mset (mset st.queryIdItemMap st.nextQueryId iid) (st.nextQueryId + 1) iid
    exact mem_mset_of_mem_ne (mem_mset_self _ _ _)
      (Nat.ne_of_lt (Nat.lt_succ_self _))
  · rw [finalizeRecord_queryIdItemMap]
    show (st.nextQueryId + 1, iid) ∈
      mset (mset st.queryIdItemMap st.nextQueryId iid) (st.nextQueryId + 1) iid
    exact mem_mset_self _ _ _
  · rw [finalizeRecord_queryIdTypeMap]
    show mget (mset (mset st.queryIdTypeMap st.nextQueryId RecType.Txt)
      (st.nextQueryId + 1) RecType.Srv) st.nextQueryId = some RecType.Txt
    rw [mget_mset_ne _ _ (Nat.ne_of_lt (Nat.lt_succ_self _)), mget_mset_self]
  · rw [finalizeRecord_queryIdTypeMap]
    show mget (mset (mset st.queryIdTypeMap st.nextQueryId RecType.Txt)
      (st.nextQueryId + 1) RecType.Srv) (st.nextQueryId + 1) = some RecType.Srv
    rw [mget_mset_self]

theorem C2_dup_restarts_subqueries_witness :
    ∃ st2, processRecord T4 0 RecType.Ptr rec1 = some st2 ∧
      (3, 0) ∈ st2.queryIdItemMap ∧ (4, 0) ∈ st2.queryIdItemMap ∧
      mget st2.queryIdTypeMap 3 = some RecType.Txt ∧
      mget st2.queryIdTypeMap 4 = some RecType.Srv :=
  C2_dup_restarts_subqueries "_http._tcp.local" (by decide) (by decide)
    (by decide)


/-! ### C10: stopping the engine cancels, clears and republishes -/

theorem cancel_mono_foldStop (l : List String) (x : Nat) :
    ∀ st : SDState, x ∈ st.cancelLog → x ∈ (l.foldl stopQuery st).cancelLog :=
  fun st h => foldl_pred stopQuery (fun s => x ∈ s.cancelLog)
    (fun s S hs => stopQuery_cancelLog_mono S hs) l st h

theorem foldStop_cancel (l : List String) : ∀ {st : SDState}, Inv st →
    ∀ p ∈ st.queryIdServiceMap,
      p.1 ∈ (l.foldl stopQuery st).cancelLog ∨
      p ∈ (l.foldl stopQuery st).queryIdServiceMap := by
  induction l with
  | nil =>
    intro st h p hp
    exact Or.inr hp
  | cons S rest ih =>
    intro st h p hp
    simp only [List.foldl_cons]
    by_cases hpS : p.2 = S
    · left
      exact cancel_mono_foldStop rest p.1 _ (stopQuery_cancel h.1 hp hpS)
    · have hsurv : p ∈ (stopQuery st S).queryIdServiceMap := by
        cases hf : st.queryIdServiceMap.find? (fun q => q.2 == S) with
        | none =>
          rw [stopQuery, hf]
          exact hp
        | some p0 =>
          rw [stopQuery, hf]
          simp only []
          rw [clearItems_queryIdServiceMap]
          have hp0mem : p0 ∈ st.queryIdServiceMap :=
            List.mem_of_find?_eq_some hf
          have hp0S : p0.2 = S := by
            have h3 := List.find?_some hf
            simpa using h3
          apply mem_mdel_of_mem hp
          intro he
          have h1 : mget st.queryIdServiceMap p.1 = some p.2 :=
            mget_of_mem_nodup h.1.ndQS hp
          have h2 : mget st.queryIdServiceMap p0.1 = some p0.2 :=
            mget_of_mem_nodup h.1.ndQS hp0mem
          rw [he, h2] at h1
          injection h1 with h4
          apply hpS
          rw [← h4]
          exact hp0S
      exact ih (inv_stopQuery h S) p hsurv

theorem setRunning_false_eq {st : SDState} (hrun : st.running = true)
    (hnet : st.networkReady = true) :
    setRunning st false = { stopQueries st with running := false, timerActive := if st.lookupMode = LookupMode.UnicastDNS then false else st.timerActive } := by
  unfold setRunning
  rw [if_neg (show ¬(st.running = false) from by rw [hrun]; exact Bool.noConfusion)]
  simp only []
  rw [if_neg (show ¬(st.networkReady = false) from by rw [hnet]; exact Bool.noConfusion)]
  rw [if_neg (show ¬(({ st with running := false } : SDState).running = true) from Bool.noConfusion)]
  by_cases hm : st.lookupMode = LookupMode.UnicastDNS
  · rw [if_pos hm, if_pos hm]
    rw [show ({ ({ st with running := false } : SDState) with timerActive := false } : SDState) = { st with running := false, timerActive := false } from rfl]
    rw [stopQueries_flags]
  · rw [if_neg hm, if_neg hm]
    exact stopQueries_flags st false st.timerActive

/-- C10: turning `running` off while the network is up cancels every live
PTR query (each registered id lands in the cancel log and the registry
ends empty), empties every instance table and leaves every user query's
resolved list empty rather than frozen. -/
theorem C10_stop_clears {st : SDState} (h : Reachable st)
    (hrun : st.running = true) (hnet : st.networkReady = true) :
    (∀ p ∈ st.queryIdServiceMap, p.1 ∈ (setRunning st false).cancelLog) ∧
    (setRunning st false).queryIdServiceMap = [] ∧
    (∀ p ∈ (setRunning st false).serviceItemsMap, p.2 = ([] : List Nat)) ∧
    (∀ u ∈ (setRunning st false).userQueries, u.items = []) := by
  have hInv := reachable_inv h
  obtain ⟨hs, hcl⟩ := stopQueries_clean hInv
  rw [setRunning_false_eq hrun hnet]
  refine ⟨?_, ?_, ?_, ?_⟩
  · intro p hp
    show p.1 ∈ (stopQueries st).cancelLog
    rcases foldStop_cancel _ hInv p hp with hc | hc
    · exact hc
    · exfalso
      have hc2 : p ∈ (stopQueries st).queryIdServiceMap := hc
      rw [hcl.2.1] at hc2
      simp at hc2
  · show (stopQueries st).queryIdServiceMap = []
    exact hcl.2.1
  · intro p hp
    exact hcl.2.2.2 p hp
  · intro u hu
    rw [List.eq_nil_iff_forall_not_mem]
    intro iid hiid
    obtain ⟨l, hl, hm⟩ := hs.2.2 u hu iid hiid
    have h2 : l = [] := hcl.2.2.2 (u.serviceType, l) (mem_of_mget hl)
    rw [h2] at hm
    simp at hm

theorem C10_stop_clears_witness :
    (0 : Nat) ∈ (setRunning T4 false).cancelLog ∧
    (setRunning T4 false).queryIdServiceMap = [] :=
  ⟨(C10_stop_clears reach_T4 (by decide) (by decide)).1
      (0, "_http._tcp.local") (by decide),
    (C10_stop_clears reach_T4 (by decide) (by decide)).2.1⟩


/-! ### C6: the unicast purge pass -/

theorem filter_congr2 {α2 : Type} {l : List α2} {p q : α2 → Bool}
    (h : ∀ x ∈ l, p x = q x) : l.filter p = l.filter q := by
  induction l with
  | nil => rfl
  | cons a rest ih =>
    simp only [List.filter_cons]
    rw [h a (List.mem_cons_self a rest),
      ih (fun x hx => h x (List.mem_cons_of_mem a hx))]

theorem any_congr2 {α2 : Type} {l : List α2} {p q : α2 → Bool}
    (h : ∀ x ∈ l, p x = q x) : l.any p = l.any q := by
  induction l with
  | nil => rfl
  | cons a rest ih =>
    simp only [List.any_cons]
    rw [h a (List.mem_cons_self a rest),
      ih (fun x hx => h x (List.mem_cons_of_mem a hx))]

theorem map_congr2 {α2 β2 : Type} {l : List α2} {f g : α2 → β2}
    (h : ∀ x ∈ l, f x = g x) : l.map f = l.map g := by
  induction l with
  | nil => rfl
  | cons a rest ih =>
    simp only [List.map_cons]
    rw [h a (List.mem_cons_self a rest),
      ih (fun x hx => h x (List.mem_cons_of_mem a hx))]

theorem purgeLoop_getItemD (l : List Nat) : ∀ (st : SDState) {j : Nat},
    j ∉ l → getItemD (purgeLoop st l).1 j = getItemD st j := by
  induction l with
  | nil =>
    intro st j h
    rfl
  | cons i rest ih =>
    intro st j h
    have hji : j ≠ i := by
      intro he
      exact h (by rw [he]; exact List.mem_cons_self i rest)
    have hjr : j ∉ rest := fun hm => h (List.mem_cons_of_mem i hm)
    simp only [purgeLoop]
    split
    · split
      · simp only []
        rw [ih _ hjr]
        show (mget (mset st.items i _) j).getD ItemData.init =
          (mget st.items j).getD ItemData.init
        rw [mget_mset_ne _ _ hji]
      · simp only []
        rw [ih _ hjr]
        show (mget (mset st.items i _) j).getD ItemData.init =
          (mget st.items j).getD ItemData.init
        rw [mget_mset_ne _ _ hji]
    · simp only []
      rw [ih _ hjr]
      show (mget (mset st.items i _) j).getD ItemData.init =
        (mget st.items j).getD ItemData.init
      rw [mget_mset_ne _ _ hji]

theorem C6_purgeLoop_spec (iids : List Nat) : ∀ (st : SDState), iids.Nodup →
    (purgeLoop st iids).2.1 = iids.filter (fun iid =>
        (getItemD st iid).updated ||
        !(decide ((getItemD st iid).errorCount + 1 >
          st.unicastErrorThreshold))) ∧
    (purgeLoop st iids).2.2 = iids.any (fun iid =>
        !(getItemD st iid).updated &&
        decide ((getItemD st iid).errorCount + 1 >
          st.unicastErrorThreshold)) ∧
    ∀ iid ∈ iids, getItemD (purgeLoop st iids).1 iid =
        (if (getItemD st iid).updated then
          { getItemD st iid with updated := false }
         else
          { getItemD st iid with
            errorCount := (getItemD st iid).errorCount + 1 }) := by
  induction iids with
  | nil =>
    intro st hnd
    refine ⟨rfl, rfl, ?_⟩
    intro iid hiid
    simp at hiid
  | cons i rest ih =>
    intro st hnd
    rw [List.nodup_cons] at hnd
    obtain ⟨hni, hndr⟩ := hnd
    simp only [purgeLoop]
    by_cases hupd : (getItemD st i).updated = false
    · rw [if_pos hupd]
      by_cases herr : (getItemD st i).errorCount + 1 >
          st.unicastErrorThreshold
      · rw [if_pos herr]
        simp only []
        obtain ⟨ih1, ih2, ih3⟩ := ih (stopItemQueries (setItemD st i
          { getItemD st i with
            errorCount := (getItemD st i).errorCount + 1 }) i) hndr
        have hpt : ∀ x ∈ rest,
            getItemD (stopItemQueries (setItemD st i
              { getItemD st i with
                errorCount := (getItemD st i).errorCount + 1 }) i) x =
            getItemD st x := by
          intro x hx
          have hxi : x ≠ i := fun he => hni (he ▸ hx)
          show (mget (mset st.items i _) x).getD ItemData.init =
            (mget st.items x).getD ItemData.init
          rw [mget_mset_ne _ _ hxi]
        refine ⟨?_, ?_, ?_⟩
        · rw [ih1]
          rw [List.filter_cons]
          rw [show ((getItemD st i).updated ||
              !(decide ((getItemD st i).errorCount + 1 >
                st.unicastErrorThreshold))) = false from by
            rw [hupd, decide_eq_true herr]
            rfl]
          simp only [Bool.false_eq_true, if_false]
          apply filter_congr2
          intro x hx
          rw [hpt x hx]
          rfl
        · rw [List.any_cons]
          rw [show (!(getItemD st i).updated &&
              decide ((getItemD st i).errorCount + 1 >
                st.unicastErrorThreshold)) = true from by
            rw [hupd, decide_eq_true herr]
            rfl]
          rw [Bool.true_or]
        · intro iid hiid
          rcases List.mem_cons.mp hiid with he | hm
          · subst he
            rw [purgeLoop_getItemD rest _ hni]
            rw [if_neg (by rw [hupd]; exact Bool.noConfusion)]
            show (mget (mset st.items iid _) iid).getD ItemData.init = _
            rw [mget_mset_self]
            rfl
          · rw [ih3 iid hm, hpt iid hm]
      · rw [if_neg herr]
        simp only []
        obtain ⟨ih1, ih2, ih3⟩ := ih (setItemD st i
          { getItemD st i with
            errorCount := (getItemD st i).errorCount + 1 }) hndr
        have hpt : ∀ x ∈ rest,
            getItemD (setItemD st i
              { getItemD st i with
                errorCount := (getItemD st i).errorCount + 1 }) x =
            getItemD st x := by
          intro x hx
          have hxi : x ≠ i := fun he => hni (he ▸ hx)
          show (mget (mset st.items i _) x).getD ItemData.init =
            (mget st.items x).getD ItemData.init
          rw [mget_mset_ne _ _ hxi]
        refine ⟨?_, ?_, ?_⟩
        · rw [ih1]
          rw [List.filter_cons]
          rw [show ((getItemD st i).updated ||
              !(decide ((getItemD st i).errorCount + 1 >
                st.unicastErrorThreshold))) = true from by
            rw [hupd, decide_eq_false herr]
            rfl]
          simp only [if_true]
          congr 1
          apply filter_congr2
          intro x hx
          rw [hpt x hx]
          rfl
        · rw [ih2, List.any_cons]
          rw [show (!(getItemD st i).updated &&
              decide ((getItemD st i).errorCount + 1 >
                st.unicastErrorThreshold)) = false from by
            rw [hupd, decide_eq_false herr]
            rfl]
          rw [Bool.false_or]
          apply any_congr2
          intro x hx
          rw [hpt x hx]
          rfl
        · intro iid hiid
          rcases List.mem_cons.mp hiid with he | hm
          · subst he
            rw [purgeLoop_getItemD rest _ hni]
            rw [if_neg (by rw [hupd]; exact Bool.noConfusion)]
            show (mget (mset st.items iid _) iid).getD ItemData.init = _
            rw [mget_mset_self]
            rfl
          · rw [ih3 iid hm, hpt iid hm]
    · have hupd2 : (getItemD st i).updated = true := by
        cases hx : (getItemD st i).updated with
        | false => exact absurd hx hupd
        | true => rfl
      rw [if_neg hupd]
      simp only []
      obtain ⟨ih1, ih2, ih3⟩ := ih (setItemD st i
        { getItemD st i with updated := false }) hndr
      have hpt : ∀ x ∈ rest,
          getItemD (setItemD st i
            { getItemD st i with updated := false }) x = getItemD st x := by
        intro x hx
        have hxi : x ≠ i := fun he => hni (he ▸ hx)
        show (mget (mset st.items i _) x).getD ItemData.init =
          (mget st.items x).getD ItemData.init
        rw [mget_mset_ne _ _ hxi]
      refine ⟨?_, ?_, ?_⟩
      · rw [ih1]
        rw [List.filter_cons]
        rw [show ((getItemD st i).updated ||
            !(decide ((getItemD st i).errorCount + 1 >
              st.unicastErrorThreshold))) = true from by
          rw [hupd2]
          rfl]
        simp only [if_true]
        congr 1
        apply filter_congr2
        intro x hx
        rw [hpt x hx]
        rfl
      · rw [ih2, List.any_cons]
        rw [show (!(getItemD st i).updated &&
            decide ((getItemD st i).errorCount + 1 >
              st.unicastErrorThreshold)) = false from by
          rw [hupd2]
          rfl]
        rw [Bool.false_or]
        apply any_congr2
        intro x hx
        rw [hpt x hx]
        rfl
      · intro iid hiid
        rcases List.mem_cons.mp hiid with he | hm
        · subst he
          rw [purgeLoop_getItemD rest _ hni]
          rw [if_pos hupd2]
          show (mget (mset st.items iid _) iid).getD ItemData.init = _
          rw [mget_mset_self]
          rfl
        · rw [ih3 iid hm, hpt iid hm]


/-- After a purge pass that removed at least one instance, the user
queries of the type are republished: each one of the type receives
exactly the filtered list of the surviving instances (with their
post-pass data), and the others are untouched. -/
theorem purgeItems_userQueries_removed (st : SDState) (S : String)
    (iids : List Nat) (hS : mget st.serviceItemsMap S = some iids)
    (hnd : iids.Nodup)
    (hrem : iids.any (fun iid => !(getItemD st iid).updated &&
        decide ((getItemD st iid).errorCount + 1 >
          st.unicastErrorThreshold)) = true) :
    (purgeItems st S).userQueries = st.userQueries.map (fun q =>
      if q.serviceType = S then
        if q.queryType = RecType.A then
          { q with items := iids.filter (fun iid =>
              (getItemD st iid).updated ||
              !(decide ((getItemD st iid).errorCount + 1 >
                st.unicastErrorThreshold))) }
        else
          { q with items := (iids.filter (fun iid =>
              (getItemD st iid).updated ||
              !(decide ((getItemD st iid).errorCount + 1 >
                st.unicastErrorThreshold)))).filter (fun iid =>
            filterServiceDiscoveryItem
              (if (getItemD st iid).updated then
                { getItemD st iid with updated := false }
               else
                { getItemD st iid with
                  errorCount := (getItemD st iid).errorCount + 1 })
              st.filter &&
            filterServiceDiscoveryItem
              (if (getItemD st iid).updated then
                { getItemD st iid with updated := false }
               else
                { getItemD st iid with
                  errorCount := (getItemD st iid).errorCount + 1 })
              q.filter) }
      else q) := by
  obtain ⟨h1, h2, h3⟩ := C6_purgeLoop_spec iids st hnd
  have hmod : (purgeLoop st iids).2.2 = true := by
    rw [h2]
    exact hrem
  rw [purgeItems, hS]
  simp only []
  rw [if_pos hmod]
  rw [updateServiceType_userQueries_some (mget_mset_self _ _ _)]
  have huq : ({ (purgeLoop st iids).1 with serviceItemsMap := mset (purgeLoop st iids).1.serviceItemsMap S (purgeLoop st iids).2.1 } : SDState).userQueries = st.userQueries := purgeLoop_userQueries iids st
  rw [huq]
  apply map_congr2
  intro q _
  simp only []
  by_cases hqs : q.serviceType = S
  · rw [if_pos hqs, if_pos hqs]
    by_cases hqa : q.queryType = RecType.A
    · rw [if_pos hqa, if_pos hqa, h1]
    · rw [if_neg hqa, if_neg hqa]
      have hfil : ({ (purgeLoop st iids).1 with serviceItemsMap := mset (purgeLoop st iids).1.serviceItemsMap S (purgeLoop st iids).2.1 } : SDState).filter = st.filter := purgeLoop_filter iids st
      rw [hfil]
      congr 1
      rw [h1]
      unfold filterServiceDiscoveryItems
      apply filter_congr2
      intro x hx
      have hxm : x ∈ iids := (List.mem_filter.mp hx).1
      show (filterServiceDiscoveryItem (getItemD (purgeLoop st iids).1 x)
          st.filter &&
        filterServiceDiscoveryItem (getItemD (purgeLoop st iids).1 x)
          q.filter) = _
      rw [h3 x hxm]
  · rw [if_neg hqs, if_neg hqs]

/-- C6: in the unicast purge pass over one service type, every instance
with `updated = false` gets its error count incremented and is removed
exactly when the incremented count exceeds the threshold; every instance
with `updated = true` is re-armed (`updated := false`); the type is
republished iff at least one instance was removed: with no removal the
user queries are untouched, and on a removal every user query of the
type receives exactly the filtered list of the surviving instances. -/
theorem C6_purge_pass (st : SDState) (S : String) (iids : List Nat)
    (hS : mget st.serviceItemsMap S = some iids) (hnd : iids.Nodup) :
    (∀ iid ∈ iids, getItemD (purgeItems st S) iid =
      (if (getItemD st iid).updated then
        { getItemD st iid with updated := false }
       else
        { getItemD st iid with
          errorCount := (getItemD st iid).errorCount + 1 })) ∧
    mget (purgeItems st S).serviceItemsMap S = some
      (if iids.any (fun iid => !(getItemD st iid).updated &&
          decide ((getItemD st iid).errorCount + 1 >
            st.unicastErrorThreshold))
       then iids.filter (fun iid => (getItemD st iid).updated ||
          !(decide ((getItemD st iid).errorCount + 1 >
            st.unicastErrorThreshold)))
       else iids) ∧
    (iids.any (fun iid => !(getItemD st iid).updated &&
        decide ((getItemD st iid).errorCount + 1 >
          st.unicastErrorThreshold)) = false →
      (purgeItems st S).userQueries = st.userQueries) ∧
    (iids.any (fun iid => !(getItemD st iid).updated &&
        decide ((getItemD st iid).errorCount + 1 >
          st.unicastErrorThreshold)) = true →
      (purgeItems st S).userQueries = st.userQueries.map (fun q =>
        if q.serviceType = S then
          if q.queryType = RecType.A then
            { q with items := iids.filter (fun iid =>
                (getItemD st iid).updated ||
                !(decide ((getItemD st iid).errorCount + 1 >
                  st.unicastErrorThreshold))) }
          else
            { q with items := (iids.filter (fun iid =>
                (getItemD st iid).updated ||
                !(decide ((getItemD st iid).errorCount + 1 >
                  st.unicastErrorThreshold)))).filter (fun iid =>
              filterServiceDiscoveryItem
                (if (getItemD st iid).updated then
                  { getItemD st iid with updated := false }
                 else
                  { getItemD st iid with
                    errorCount := (getItemD st iid).errorCount + 1 })
                st.filter &&
              filterServiceDiscoveryItem
                (if (getItemD st iid).updated then
                  { getItemD st iid with updated := false }
                 else
                  { getItemD st iid with
                    errorCount := (getItemD st iid).errorCount + 1 })
                q.filter) }
        else q)) := by
  obtain ⟨h1, h2, h3⟩ := C6_purgeLoop_spec iids st hnd
  refine ⟨?_, ?_, ?_, purgeItems_userQueries_removed st S iids hS hnd⟩
  · rw [purgeItems, hS]
    simp only []
    by_cases hmod : (purgeLoop st iids).2.2 = true
    · rw [if_pos hmod]
      have hgi : ∀ j : Nat, getItemD (updateServiceType { (purgeLoop st iids).1 with serviceItemsMap := mset (purgeLoop st iids).1.serviceItemsMap S (purgeLoop st iids).2.1 } S) j = getItemD (purgeLoop st iids).1 j := by
        intro j
        show (mget (updateServiceType { (purgeLoop st iids).1 with serviceItemsMap := mset (purgeLoop st iids).1.serviceItemsMap S (purgeLoop st iids).2.1 } S).items j).getD ItemData.init = _
        rw [updateServiceType_items]
        rfl
      intro iid hiid
      rw [hgi iid, h3 iid hiid]
    · rw [if_neg hmod]
      intro iid hiid
      exact h3 iid hiid
  · rw [purgeItems, hS]
    simp only []
    by_cases hmod : (purgeLoop st iids).2.2 = true
    · rw [if_pos hmod]
      have hany : iids.any (fun iid => !(getItemD st iid).updated &&
          decide ((getItemD st iid).errorCount + 1 >
            st.unicastErrorThreshold)) = true := by
        rw [← h2]
        exact hmod
      rw [updateServiceType_serviceItemsMap]
      show mget (mset (purgeLoop st iids).1.serviceItemsMap S
        (purgeLoop st iids).2.1) S = _
      rw [mget_mset_self, if_pos hany, h1]
    · rw [if_neg hmod]
      have hmod2 : (purgeLoop st iids).2.2 = false := by
        cases hx : (purgeLoop st iids).2.2 with
        | false => rfl
        | true => exact absurd hx hmod
      have hany : iids.any (fun iid => !(getItemD st iid).updated &&
          decide ((getItemD st iid).errorCount + 1 >
            st.unicastErrorThreshold)) = false := by
        rw [← h2]
        exact hmod2
      rw [purgeLoop_serviceItemsMap, hS,
        if_neg (show ¬(iids.any (fun iid => !(getItemD st iid).updated && decide ((getItemD st iid).errorCount + 1 > st.unicastErrorThreshold)) = true) from by rw [hany]; exact Bool.noConfusion)]
  · intro hno
    rw [purgeItems, hS]
    simp only []
    have hmod2 : (purgeLoop st iids).2.2 = false := by
      rw [h2]
      exact hno
    rw [if_neg (show ¬((purgeLoop st iids).2.2 = true) from by rw [hmod2]; exact Bool.noConfusion)]
    rw [purgeLoop_userQueries]

def uqW6 : UserQuery :=
  { serviceType := "_x._tcp", queryType := RecType.Ptr,
    filter := { name := "", txtRecords := [] }, items := [0, 1, 2] }

def W6 : SDState := { initState with
  serviceItemsMap := [("_x._tcp", [0, 1, 2])],
  userQueries := [uqW6],
  items := [(0, { ItemData.init with name := "a", updated := false, errorCount := 2 }), (1, { ItemData.init with name := "b", updated := true }), (2, { ItemData.init with name := "c", updated := false, errorCount := 0 })] }

theorem C6_purge_pass_witness :
    mget (purgeItems W6 "_x._tcp").serviceItemsMap "_x._tcp" = some [1, 2] ∧
    getItemD (purgeItems W6 "_x._tcp") 2 =
      { ItemData.init with name := "c", errorCount := 1 } ∧
    (purgeItems W6 "_x._tcp").userQueries =
      [{ uqW6 with items := [1, 2] }] := by
  have h := C6_purge_pass W6 "_x._tcp" [0, 1, 2] (by decide) (by decide)
  refine ⟨?_, ?_, ?_⟩
  · rw [h.2.1]
    decide
  · rw [h.1 2 (by decide)]
    decide
  · rw [h.2.2.2 (by decide)]
    decide


end SD
